import Mathlib

/-!
Verification of the `bserial` serialization engine (`src/bserial.h`).

The development shallowly embeds the C code:

* machine integers become `Nat`/`Int` with explicit `% 2 ^ w` where the C
  arithmetic can wrap;
* byte streams become `List Nat` (every element is a byte value `< 256`);
* the serialization context `bserial_ctx_t` becomes an explicit state record
  that every operation threads through;
* `char*` field/symbol names become their byte sequences (`List Nat`); the C
  code's pointer comparison of key names is modelled by value equality, which
  coincides with it whenever the driving procedures use one call site per
  distinct field name (as the `BSERIAL_KEY` macro does);
* loops whose C termination argument is "the input stream shrinks" carry an
  explicit fuel argument that strictly exceeds the number of iterations the
  C code can perform, so the fuel-exhaustion branch is unreachable.
-/

namespace BSerial

/-- IO status, `bserial_status_t`. -/
inductive Status where
  | ok
  | ioError
  | malformed
  deriving DecidableEq

/-- Serialization mode, `bserial_mode_t`. -/
inductive Mode where
  | write
  | read
  deriving DecidableEq

/-!
## Primitive codec

`bserial_write_uint` fills `buf[i] = (char)(x | 0x80)` (that is, the low seven
bits of `x >> (7*i)` with the top bit set), counts in `n` how many iterations
still had `x >= 0x80`, clears the top bit of `buf[n]` with `buf[n] ^= 0x80`,
and emits `n + 1` bytes.
-/

/-- Number of continuation bytes `n` computed by the loop of
`bserial_write_uint`: one increment for every `i < 10` with
`(x >> (7*i)) >= 0x80`. -/
def bserial_write_uint_n (x : Nat) : Nat :=
  (List.range 10).countP fun i => 128 ≤ x / 128 ^ i

/-- `bserial_write_uint`: the bytes the C function hands to `bserial_write`.
`buf[i] = (x >> (7*i) | 0x80) & 0xff = x / 128^i % 128 + 128` for `i < n`,
and the final byte is `buf[n] ^ 0x80 = x / 128^n % 128`. -/
def bserial_write_uint (x : Nat) : List Nat :=
  ((List.range (bserial_write_uint_n x)).map fun i => x / 128 ^ i % 128 + 128) ++
    [x / 128 ^ bserial_write_uint_n x % 128]

/-- The loop of `bserial_read_uint`: at most `iters` more iterations, `i` is
the current loop counter, `tmp` the accumulator.  Each step reads one byte,
ors `(b & 0x7f) << (7*i)` into the 64-bit accumulator and stops on a byte
without the continuation bit.  Returns status, decoded value, and the
remaining input. -/
def bserial_read_uint_aux : Nat → Nat → Nat → List Nat → Status × Nat × List Nat
  | 0, _, _, input => (.malformed, 0, input)
  | _ + 1, _, _, [] => (.ioError, 0, [])
  | iters + 1, i, tmp, b :: rest =>
    let tmp' := (tmp ||| ((b % 128) <<< (7 * i))) % 2 ^ 64
    if b < 128 then (.ok, tmp', rest)
    else bserial_read_uint_aux iters (i + 1) tmp' rest

/-- `bserial_read_uint`: up to 10 bytes; consuming 10 bytes without a
terminating byte is `Malformed`. -/
def bserial_read_uint (input : List Nat) : Status × Nat × List Nat :=
  bserial_read_uint_aux 10 0 0 input

/-- The C cast `(uint64_t)x` of an `int64_t`. -/
def toUInt64N (x : Int) : Nat := (x % 2 ^ 64).toNat

/-- The zig-zag map of `bserial_write_sint`:
`ux = (uint64_t)x << 1; if (x < 0) ux = ~ux;` (all mod `2^64`). -/
def zigzag (x : Int) : Nat :=
  let ux := toUInt64N x * 2 % 2 ^ 64
  if x < 0 then 2 ^ 64 - 1 - ux else ux

/-- The inverse map of `bserial_read_sint`:
`tmp = (int64_t)(ux >> 1); if (ux & 1) tmp = ~tmp;`.
For `ux < 2^64` the cast `tmp = (int64_t)(ux >> 1)` is exact because
`ux >> 1 < 2^63`, and `~tmp = -tmp - 1` in two's complement. -/
def unzigzag (ux : Nat) : Int :=
  if ux % 2 = 1 then -((ux / 2 : Nat) : Int) - 1 else ((ux / 2 : Nat) : Int)

/-- `bserial_write_sint`. -/
def bserial_write_sint (x : Int) : List Nat :=
  bserial_write_uint (zigzag x)

/-- `bserial_read_sint`. -/
def bserial_read_sint (input : List Nat) : Status × Int × List Nat :=
  match bserial_read_uint input with
  | (.ok, ux, rest) => (.ok, unzigzag ux, rest)
  | (s, _, rest) => (s, 0, rest)

/-- Recursive reformulation of the encoder byte list, used for induction. -/
def encBytes (x : Nat) : List Nat :=
  if h : x < 128 then [x]
  else (x % 128 + 128) :: encBytes (x / 128)
  termination_by x
  decreasing_by exact Nat.div_lt_self (by omega) (by omega)

/-! ### Properties of the unsigned varint codec -/

theorem encBytes_small {x : Nat} (h : x < 128) : encBytes x = [x] := by
  rw [encBytes, dif_pos h]

theorem encBytes_large {x : Nat} (h : 128 ≤ x) :
    encBytes x = (x % 128 + 128) :: encBytes (x / 128) := by
  rw [encBytes, dif_neg (Nat.not_lt_of_le h)]

theorem write_uint_n_small {x : Nat} (h : x < 128) : bserial_write_uint_n x = 0 := by
  unfold bserial_write_uint_n
  rw [List.countP_eq_zero]
  intro i hi
  simp only [decide_eq_true_eq]
  intro hle
  have : x / 128 ^ i ≤ x := Nat.div_le_self _ _
  omega

theorem div_pow_succ_eq (x i : Nat) : x / 128 ^ (i + 1) = x / 128 / 128 ^ i := by
  rw [Nat.div_div_eq_div_mul, ← pow_succ']

theorem write_uint_n_large {x : Nat} (hlo : 128 ≤ x) (hhi : x < 128 ^ 10) :
    bserial_write_uint_n x = bserial_write_uint_n (x / 128) + 1 := by
  unfold bserial_write_uint_n
  have hsplit : List.range 10 = 0 :: (List.range 9).map Nat.succ := by decide
  have hstep1 : (List.range 10).countP (fun i => decide (128 ≤ x / 128 ^ i)) =
      1 + (List.range 9).countP (fun i => decide (128 ≤ x / 128 / 128 ^ i)) := by
    rw [hsplit, List.countP_cons, List.countP_map]
    have hcg : (List.range 9).countP ((fun i => decide (128 ≤ x / 128 ^ i)) ∘ Nat.succ) =
        (List.range 9).countP (fun i => decide (128 ≤ x / 128 / 128 ^ i)) := by
      apply List.countP_congr
      intro i _
      simp only [Function.comp_apply, decide_eq_decide]
      rw [Nat.succ_eq_add_one, div_pow_succ_eq]
    rw [hcg]
    simp only [pow_zero, Nat.div_one, decide_eq_true_eq]
    rw [if_pos hlo]
    omega
  have hstep2 : (List.range 10).countP (fun i => decide (128 ≤ x / 128 / 128 ^ i)) =
      (List.range 9).countP (fun i => decide (128 ≤ x / 128 / 128 ^ i)) := by
    rw [List.range_succ, List.countP_append]
    have hq9 : x / 128 / 128 ^ 9 = 0 := by
      rw [← div_pow_succ_eq]
      exact Nat.div_eq_of_lt hhi
    have hsingle : (List.countP (fun i => decide (128 ≤ x / 128 / 128 ^ i)) [9]) = 0 := by
      simp only [List.countP_cons, List.countP_nil]
      rw [hq9]
      simp
    rw [hsingle]
    omega
  rw [hstep1, hstep2]
  omega

theorem write_uint_eq_encBytes {x : Nat} (h : x < 128 ^ 10) :
    bserial_write_uint x = encBytes x := by
  induction x using Nat.strong_induction_on with
  | _ x ih =>
    by_cases hsmall : x < 128
    · rw [encBytes_small hsmall]
      unfold bserial_write_uint
      rw [write_uint_n_small hsmall]
      simp [Nat.mod_eq_of_lt hsmall]
    · have hlo : 128 ≤ x := Nat.le_of_not_lt hsmall
      rw [encBytes_large hlo]
      have hdivlt : x / 128 < x := Nat.div_lt_self (by omega) (by omega)
      have hdivbound : x / 128 < 128 ^ 10 := lt_of_le_of_lt (Nat.div_le_self _ _) h
      have ihx := ih (x / 128) hdivlt hdivbound
      unfold bserial_write_uint
      rw [write_uint_n_large hlo h, List.range_succ_eq_map]
      simp only [List.map_cons, List.map_map, pow_zero, Nat.div_one, List.cons_append]
      congr 1
      rw [← ihx]
      unfold bserial_write_uint
      congr 1
      · apply List.map_congr_left
        intro i _
        simp only [Function.comp_apply, Nat.succ_eq_add_one]
        rw [div_pow_succ_eq]
      · rw [div_pow_succ_eq]

theorem encBytes_nonempty (x : Nat) : encBytes x ≠ [] := by
  by_cases h : x < 128
  · simp [encBytes_small h]
  · simp [encBytes_large (Nat.le_of_not_lt h)]

/-- Every byte emitted by the encoder is a valid byte (`< 256`) and the last
byte has no continuation bit. -/
theorem encBytes_bytes_lt (x : Nat) : ∀ b ∈ encBytes x, b < 256 := by
  induction x using Nat.strong_induction_on with
  | _ x ih =>
    by_cases h : x < 128
    · rw [encBytes_small h]; intro b hb; simp at hb; omega
    · rw [encBytes_large (Nat.le_of_not_lt h)]
      intro b hb
      rcases List.mem_cons.mp hb with hb | hb
      · have := Nat.mod_lt x (y := 128) (by omega); omega
      · exact ih (x / 128) (Nat.div_lt_self (by omega) (by omega)) b hb

/-- Key step of the decoder proof: ors of disjoint ranges are sums. -/
theorem lor_shiftLeft_eq_add {a c k : Nat} (h : a < 2 ^ k) :
    a ||| c <<< k = a + c * 2 ^ k := by
  rw [Nat.shiftLeft_eq, Nat.lor_comm]
  have := Nat.mul_add_lt_is_or (a := c) (i := k) h
  rw [Nat.mul_comm] at this
  omega

/-- Decoding the recursive encoder output, at loop position `i` with an
accumulator holding fewer than `7*i` bits. -/
theorem read_uint_aux_encBytes {x : Nat} : ∀ (i tmp : Nat) (tail : List Nat),
    x < 128 ^ (10 - i) → tmp < 2 ^ (7 * i) → i < 10 →
    bserial_read_uint_aux (10 - i) i tmp (encBytes x ++ tail) =
      (.ok, (tmp + x * 2 ^ (7 * i)) % 2 ^ 64, tail) := by
  induction x using Nat.strong_induction_on with
  | _ x ih =>
    intro i tmp tail hx htmp hi
    have h128 : (128 : Nat) = 2 ^ 7 := by norm_num
    by_cases hsmall : x < 128
    · rw [encBytes_small hsmall]
      have hiters : ∃ m, 10 - i = m + 1 := ⟨9 - i, by omega⟩
      obtain ⟨m, hm⟩ := hiters
      rw [hm]
      simp only [bserial_read_uint_aux, List.cons_append, List.append_eq]
      rw [if_pos hsmall]
      have hxmod : x % 128 = x := Nat.mod_eq_of_lt hsmall
      rw [hxmod, lor_shiftLeft_eq_add htmp]
      simp
    · have hlo : 128 ≤ x := Nat.le_of_not_lt hsmall
      rw [encBytes_large hlo]
      have hiters : ∃ m, 10 - i = m + 1 := ⟨9 - i, by omega⟩
      obtain ⟨m, hm⟩ := hiters
      rw [hm]
      simp only [bserial_read_uint_aux, List.cons_append, List.append_eq]
      have hbyte : ¬ (x % 128 + 128 < 128) := by omega
      rw [if_neg hbyte]
      have hmod : (x % 128 + 128) % 128 = x % 128 := by omega
      rw [hmod]
      -- the loop index stays below 9 here, so no 64-bit truncation occurs yet
      have hile : i ≤ 8 := by
        by_contra hgt
        have : i = 9 := by omega
        subst this
        simp only [show 10 - 9 = 1 by norm_num, pow_one] at hx
        omega
      have htmp' : tmp + x % 128 * 2 ^ (7 * i) < 2 ^ (7 * (i + 1)) := by
        have h1 : x % 128 ≤ 127 := by omega
        have hmul : x % 128 * 2 ^ (7 * i) ≤ 127 * 2 ^ (7 * i) :=
          Nat.mul_le_mul_right _ h1
        have hsum : tmp + x % 128 * 2 ^ (7 * i) < 2 ^ (7 * i) + 127 * 2 ^ (7 * i) :=
          Nat.add_lt_add_of_lt_of_le htmp hmul
        have h3 : 2 ^ (7 * i) + 127 * 2 ^ (7 * i) = 2 ^ (7 * (i + 1)) := by
          rw [show 7 * (i + 1) = 7 + 7 * i by ring, pow_add]
          ring
        exact h3 ▸ hsum
      have hlt64 : tmp + x % 128 * 2 ^ (7 * i) < 2 ^ 64 := by
        have hle : (2 : Nat) ^ (7 * (i + 1)) ≤ 2 ^ 63 :=
          Nat.pow_le_pow_right (by norm_num) (by omega)
        have h64 : (2 : Nat) ^ 63 < 2 ^ 64 := by norm_num
        exact lt_of_lt_of_le (lt_of_lt_of_le htmp' hle) (le_of_lt h64)
      rw [lor_shiftLeft_eq_add htmp, Nat.mod_eq_of_lt hlt64]
      have hm' : m = 10 - (i + 1) := by omega
      rw [hm']
      have hrec := ih (x / 128) (Nat.div_lt_self (by omega) (by omega)) (i + 1)
        (tmp + x % 128 * 2 ^ (7 * i)) tail
        (by
          rw [Nat.div_lt_iff_lt_mul (by norm_num), ← pow_succ]
          have : 10 - i - 1 + 1 = 10 - i := by omega
          rw [show 10 - (i + 1) = 10 - i - 1 by omega, this]
          exact hx)
        htmp' (by omega)
      rw [hrec]
      have hdecomp : x = 128 * (x / 128) + x % 128 := (Nat.div_add_mod x 128).symm
      have hpow : 2 ^ (7 * (i + 1)) = 2 ^ (7 * i) * 128 := by
        rw [show 7 * (i + 1) = 7 * i + 7 by ring, pow_add]
        norm_num
      have harith : tmp + x % 128 * 2 ^ (7 * i) + x / 128 * 2 ^ (7 * (i + 1)) =
          tmp + x * 2 ^ (7 * i) := by
        calc tmp + x % 128 * 2 ^ (7 * i) + x / 128 * 2 ^ (7 * (i + 1))
            = tmp + (x % 128 + 128 * (x / 128)) * 2 ^ (7 * i) := by rw [hpow]; ring
          _ = tmp + x * 2 ^ (7 * i) := by rw [Nat.add_comm (x % 128) _, ← hdecomp]
      rw [harith]

/-- Round trip of the unsigned varint codec. -/
theorem read_write_uint {x : Nat} (h : x < 2 ^ 64) (tail : List Nat) :
    bserial_read_uint (bserial_write_uint x ++ tail) = (.ok, x, tail) := by
  have hx10 : x < 128 ^ 10 := by
    have : (2 : Nat) ^ 64 < 128 ^ 10 := by norm_num
    omega
  rw [bserial_read_uint, write_uint_eq_encBytes hx10]
  have h0 := read_uint_aux_encBytes (x := x) 0 0 tail (by simpa using hx10) (by norm_num)
    (by norm_num)
  rw [show 10 - 0 = 10 by norm_num, show 7 * 0 = 0 by norm_num, pow_zero,
    Nat.mul_one, Nat.zero_add, Nat.mod_eq_of_lt h] at h0
  exact h0

theorem encBytes_length_spec (x : Nat) :
    x < 128 ^ (encBytes x).length ∧
      (∀ m, 1 ≤ m → x < 128 ^ m → (encBytes x).length ≤ m) := by
  induction x using Nat.strong_induction_on with
  | _ x ih =>
    by_cases h : x < 128
    · rw [encBytes_small h]
      exact ⟨by simpa using h, fun m hm _ => by simpa using hm⟩
    · have hlo : 128 ≤ x := Nat.le_of_not_lt h
      rw [encBytes_large hlo]
      obtain ⟨hub, hmin⟩ := ih (x / 128) (Nat.div_lt_self (by omega) (by omega))
      constructor
      · simp only [List.length_cons]
        rw [pow_succ']
        have hd : x / 128 + 1 ≤ 128 ^ (encBytes (x / 128)).length := hub
        have h2 : (x / 128 + 1) * 128 ≤ 128 ^ (encBytes (x / 128)).length * 128 :=
          Nat.mul_le_mul_right _ hd
        calc x < (x / 128 + 1) * 128 := by omega
          _ ≤ 128 ^ (encBytes (x / 128)).length * 128 := h2
          _ = 128 * 128 ^ (encBytes (x / 128)).length := by ring
      · intro m hm hxm
        simp only [List.length_cons]
        have hm2 : 2 ≤ m := by
          by_contra hc
          have : m = 1 := by omega
          subst this
          simp at hxm
          omega
        have hdiv : x / 128 < 128 ^ (m - 1) := by
          rw [Nat.div_lt_iff_lt_mul (by norm_num), ← pow_succ]
          have : m - 1 + 1 = m := by omega
          rw [this]
          exact hxm
        have := hmin (m - 1) (by omega) hdiv
        omega

/-- Length and minimality of the unsigned varint encoding. -/
theorem write_uint_length_minimal {x : Nat} (h : x < 2 ^ 64) :
    (bserial_write_uint x).length ≤ 10 ∧
      x < 128 ^ (bserial_write_uint x).length ∧
      (∀ m, 1 ≤ m → x < 128 ^ m → (bserial_write_uint x).length ≤ m) := by
  have hx10 : x < 128 ^ 10 := by
    have : (2 : Nat) ^ 64 < 128 ^ 10 := by norm_num
    omega
  rw [write_uint_eq_encBytes hx10]
  obtain ⟨hub, hmin⟩ := encBytes_length_spec x
  exact ⟨hmin 10 (by norm_num) hx10, hub, hmin⟩

/-! ### Zig-zag properties -/

theorem zigzag_nonneg {x : Int} (h0 : 0 ≤ x) (h1 : x < 2 ^ 63) :
    zigzag x = (2 * x).toNat := by
  unfold zigzag toUInt64N
  rw [if_neg (by omega)]
  have h64i : (2 : Int) ^ 64 = 18446744073709551616 := by norm_num
  have h63i : (2 : Int) ^ 63 = 9223372036854775808 := by norm_num
  have h64n : (2 : Nat) ^ 64 = 18446744073709551616 := by norm_num
  have hmod : x % 2 ^ 64 = x := Int.emod_eq_of_lt h0 (by omega)
  rw [hmod, h64n]
  omega

theorem zigzag_neg {x : Int} (h0 : x < 0) (h1 : -(2 ^ 63) ≤ x) :
    zigzag x = (-2 * x - 1).toNat := by
  unfold zigzag toUInt64N
  rw [if_pos h0]
  have h64i : (2 : Int) ^ 64 = 18446744073709551616 := by norm_num
  have h63i : (2 : Int) ^ 63 = 9223372036854775808 := by norm_num
  have h64n : (2 : Nat) ^ 64 = 18446744073709551616 := by norm_num
  have hmod : x % 2 ^ 64 = x + 2 ^ 64 := by omega
  rw [hmod, h64n, h64i]
  omega

/-- `zigzag` stays inside the unsigned 64-bit range. -/
theorem zigzag_lt {x : Int} (h0 : -(2 ^ 63) ≤ x) (h1 : x < 2 ^ 63) :
    zigzag x < 2 ^ 64 := by
  by_cases hx : x < 0
  · rw [zigzag_neg hx h0]; omega
  · rw [zigzag_nonneg (by omega) h1]; omega

/-- `unzigzag` inverts `zigzag` on the `int64` range. -/
theorem unzigzag_zigzag {x : Int} (h0 : -(2 ^ 63) ≤ x) (h1 : x < 2 ^ 63) :
    unzigzag (zigzag x) = x := by
  have h63i : (2 : Int) ^ 63 = 9223372036854775808 := by norm_num
  by_cases hx : x < 0
  · rw [zigzag_neg hx h0]
    unfold unzigzag
    split_ifs with hodd <;> omega
  · rw [zigzag_nonneg (by omega) h1]
    unfold unzigzag
    split_ifs with hodd <;> omega

/-- `zigzag` inverts `unzigzag` on `[0, 2^64)`: together with
`unzigzag_zigzag` this makes the zig-zag map a bijection between the
`int64` range and the `uint64` range. -/
theorem zigzag_unzigzag {u : Nat} (h : u < 2 ^ 64) :
    zigzag (unzigzag u) = u := by
  have h63i : (2 : Int) ^ 63 = 9223372036854775808 := by norm_num
  have h64n : (2 : Nat) ^ 64 = 18446744073709551616 := by norm_num
  unfold unzigzag
  by_cases hodd : u % 2 = 1
  · rw [if_pos hodd]
    rw [zigzag_neg (by omega) (by omega)]
    omega
  · rw [if_neg hodd]
    rw [zigzag_nonneg (by omega) (by omega)]
    omega

/-- `unzigzag` lands in the `int64` range. -/
theorem unzigzag_range {u : Nat} (h : u < 2 ^ 64) :
    -(2 ^ 63) ≤ unzigzag u ∧ unzigzag u < 2 ^ 63 := by
  have h63i : (2 : Int) ^ 63 = 9223372036854775808 := by norm_num
  have h64n : (2 : Nat) ^ 64 = 18446744073709551616 := by norm_num
  unfold unzigzag
  by_cases hodd : u % 2 = 1
  · rw [if_pos hodd]
    constructor <;> omega
  · rw [if_neg hodd]
    constructor <;> omega

/-- Round trip of the signed varint codec on the `int64` range. -/
theorem read_write_sint {x : Int} (h0 : -(2 ^ 63) ≤ x) (h1 : x < 2 ^ 63)
    (tail : List Nat) :
    bserial_read_sint (bserial_write_sint x ++ tail) = (.ok, x, tail) := by
  unfold bserial_read_sint bserial_write_sint
  rw [read_write_uint (zigzag_lt h0 h1) tail]
  show (Status.ok, unzigzag (zigzag x), tail) = (Status.ok, x, tail)
  rw [unzigzag_zigzag h0 h1]

/-!
## Stream-level skip helper (`bserial_skip`)

The abstract input stream is modelled after the two stream backends shipped
with the library (`bserial_mem_in_t`, `bserial_stdio_in_t`): `avail` bytes
remain before end-of-stream, a read of `n` bytes either delivers all `n`
bytes or delivers nothing and fails, and the optional `skip` callback (when
`hasSkip` is set) succeeds exactly when `n` bytes remain.
-/

structure InStream where
  avail : Nat
  hasSkip : Bool
  deriving DecidableEq

/-- `bserial_read`, retried until the requested count is satisfied: on this
stream model it consumes exactly `n` bytes, or consumes nothing and reports
`IoError` when fewer than `n` bytes remain. -/
def streamRead (s : InStream) (n : Nat) : Status × InStream :=
  if n ≤ s.avail then (.ok, { s with avail := s.avail - n }) else (.ioError, s)

/-- The fallback loop of `bserial_skip`, taken for streams without a `skip`
callback.  `read_size = BSERIAL_SKIP_BLKSIZE > size ? BSERIAL_SKIP_BLKSIZE :
size` is transcribed verbatim from the source (note that this expression is
`max`, not `min`), and `size -= read_size` is `size_t` arithmetic, i.e.
subtraction modulo `2^64`.  The loop body runs at most three times for any
`size` and `avail` below `2^64`, so fuel `4` makes the fuel-exhaustion
branch unreachable. -/
def bserial_skip_fallback : Nat → Nat → InStream → Status × InStream
  | 0, _, s => (.ok, s)
  | fuel + 1, size, s =>
    if size = 0 then (.ok, s)
    else
      let read_size := if 1024 > size then 1024 else size
      match streamRead s read_size with
      | (.ok, s) => bserial_skip_fallback fuel ((size + 2 ^ 64 - read_size) % 2 ^ 64) s
      | (st, s) => (st, s)

/-- `bserial_skip`: use the stream's `skip` callback when provided, else
consume the bytes through repeated reads into a `BSERIAL_SKIP_BLKSIZE`-byte
scratch buffer. -/
def bserial_skip (s : InStream) (size : Nat) : Status × InStream :=
  if s.hasSkip then
    if size ≤ s.avail then (.ok, { s with avail := s.avail - size }) else (.ioError, s)
  else bserial_skip_fallback 4 size s

/-- C3: for every `u` in `[0, 2^64)` decoding the encoder's bytes yields `u`
back; the encoded length is the least number of 7-bit groups covering `u`
(hence at most 10 bytes); the zig-zag map is a two-sided bijection between
the `int64` range and `[0, 2^64)`; and the signed encode/decode composition
is the identity on the `int64` range. -/
theorem claim_C3_varint_roundtrip (u : Nat) (x : Int) (tail : List Nat)
    (hu : u < 2 ^ 64) (hx0 : -(2 ^ 63) ≤ x) (hx1 : x < 2 ^ 63) :
    bserial_read_uint (bserial_write_uint u ++ tail) = (.ok, u, tail) ∧
    (bserial_write_uint u).length ≤ 10 ∧
    u < 128 ^ (bserial_write_uint u).length ∧
    (∀ m, 1 ≤ m → u < 128 ^ m → (bserial_write_uint u).length ≤ m) ∧
    zigzag x < 2 ^ 64 ∧
    unzigzag (zigzag x) = x ∧
    -(2 ^ 63) ≤ unzigzag u ∧ unzigzag u < 2 ^ 63 ∧
    zigzag (unzigzag u) = u ∧
    bserial_read_sint (bserial_write_sint x ++ tail) = (.ok, x, tail) := by
  obtain ⟨hlen, hub, hmin⟩ := write_uint_length_minimal hu
  obtain ⟨hrlo, hrhi⟩ := unzigzag_range hu
  exact ⟨read_write_uint hu tail, hlen, hub, hmin, zigzag_lt hx0 hx1,
    unzigzag_zigzag hx0 hx1, hrlo, hrhi, zigzag_unzigzag hu,
    read_write_sint hx0 hx1 tail⟩

theorem claim_C3_witness :
    (300 : Nat) < 2 ^ 64 ∧ -((2 : Int) ^ 63) ≤ -5 ∧ (-5 : Int) < 2 ^ 63 ∧
    bserial_read_uint (bserial_write_uint 300 ++ [9]) = (.ok, 300, [9]) := by
  refine ⟨by norm_num, by norm_num, by norm_num, ?_⟩
  exact (claim_C3_varint_roundtrip 300 (-5) [9] (by norm_num) (by norm_num)
    (by norm_num)).1

/-- C5: the claim says the fallback path of `bserial_skip` (no `skip`
callback) advances the stream by exactly `n` bytes and returns `Ok` whenever
the stream can supply them.  The code computes
`read_size = BSERIAL_SKIP_BLKSIZE > size ? BSERIAL_SKIP_BLKSIZE : size`,
which is `max(1024, size)` instead of the intended `min`: skipping 1 byte on
a 2000-byte stream reads 1024 bytes, then underflows `size` to `2^64 - 1023`
and fails with `IoError`, leaving the stream 1024 bytes further along instead
of 1. -/
theorem claim_C5_skip_fallback_bug :
    bserial_skip ⟨2000, false⟩ 1 = (.ioError, ⟨976, false⟩) ∧
    bserial_skip ⟨2000, true⟩ 1 = (.ok, ⟨1999, true⟩) := by
  constructor <;> decide

/-!
## The serialization context

`bserial_ctx_t` and its private state.  The context's own stream is modelled
like the memory streams the library ships: the input is the list ofbytes
not yet consumed (reads are all-or-nothing, the `skip` callback is present),
and the output is the list of bytes written so far (the memory output stream
only fails on allocator exhaustion, which is not modelled).  Pointers into
the schema pool and the scope stack become indices; `NULL` pointers become
`0`/`none`. -/

structure Config where
  max_symbol_len : Nat
  max_num_symbols : Nat
  max_record_fields : Nat
  max_depth : Nat
  deriving DecidableEq

inductive ScopeType where
  | root
  | blob
  | array
  | table
  | record
  deriving DecidableEq

/-- `bserial_record_mode_t` (`MEASURE_WIDTH`, `KEY_IO`, `VALUE_IO`). -/
inductive RecordMode where
  | measureWidth
  | keyIo
  | valueIo
  deriving DecidableEq

/-- `bserial_op_type_t`. -/
inductive OpType where
  | numeric
  | blob
  | symbol
  | table
  | array
  | record
  deriving DecidableEq

/-- `bserial_symbol_t`: an interned symbol; `buf` is the byte content stored
in the string pool and `len` its recorded length. -/
structure SymEntry where
  buf : List Nat
  len : Nat
  deriving DecidableEq

/-- `bserial_record_mapping_t`: one schema entry. `symbol`/`symbol_len` come
from the wire (read) and `field_name` is the caller-requested name pointer
(`none` = `NULL`), modelled by the name's byte content. -/
structure Mapping where
  symbol : List Nat
  symbol_len : Nat
  field_name : Option (List Nat)
  deriving DecidableEq

/-- `bserial_scope_t`. `record_schema` and `prev_schema_pool` are offsets
into the schema pool (C: pointers); `record_addr` is the caller's record
address (C: `void*`, `0` = `NULL`). -/
structure Scope where
  type : ScopeType
  iterator : Nat
  len : Nat
  record_mode : RecordMode
  record_schema : Nat
  prev_schema_pool : Nat
  record_addr : Nat
  record_width : Nat
  deriving DecidableEq

/-- A fresh scope: `*(++ctx->scope) = (bserial_scope_t){ .type = type,
.prev_schema_pool = ctx->schema_pool }` zero-fills the other fields. -/
def freshScope (t : ScopeType) (pool : Nat) : Scope :=
  { type := t, iterator := 0, len := 0, record_mode := .measureWidth,
    record_schema := 0, prev_schema_pool := pool, record_addr := 0,
    record_width := 0 }

def rootScope : Scope := freshScope .root 0

/-- `bserial_ctx_t`.  `marker_buf = 255` is `BSERIAL_NO_MARKER`; the head of
`scopes` is `ctx->scope` and the root frame sits at the bottom;
`symtab_index` holds `0` for an empty slot and `id + 1` otherwise;
`schema_top` is the bump offset `ctx->schema_pool`. -/
structure Ctx where
  config : Config
  status : Status
  mode : Mode
  input : List Nat
  output : List Nat
  marker_buf : Nat
  symtab : List SymEntry
  symtab_index : List Nat
  symtab_exp : Nat
  scopes : List Scope
  schema_pool : List Mapping
  schema_top : Nat
  deriving DecidableEq

def curScope (c : Ctx) : Scope := c.scopes.headD rootScope

def withCur (c : Ctx) (s : Scope) : Ctx := { c with scopes := s :: c.scopes.tail }

def defaultMapping : Mapping := ⟨[], 0, none⟩

def poolGet (c : Ctx) (i : Nat) : Mapping := c.schema_pool.getD i defaultMapping

def poolSet (c : Ctx) (i : Nat) (m : Mapping) : Ctx :=
  { c with schema_pool := c.schema_pool.set i m }

/-- `bserial_malformed`. -/
def ctxMalformed (c : Ctx) : Status × Ctx := (.malformed, { c with status := .malformed })

/-- `bserial_mode`: read when an input stream is attached. -/
def bserial_mode (c : Ctx) : Mode := c.mode

/-- `bserial_status`. -/
def bserial_status (c : Ctx) : Status := c.status

/-- A `bserial_read` on the context's input stream (all-or-nothing, like the
memory stream); does not touch `ctx->status` — callers assign it. -/
def ctxRead (c : Ctx) (n : Nat) : Status × List Nat × Ctx :=
  if n ≤ c.input.length then (.ok, c.input.take n, { c with input := c.input.drop n })
  else (.ioError, [], c)

/-- A `bserial_skip` on the context's input stream (the stream provides the
skip callback, as both shipped streams do). -/
def ctxSkip (c : Ctx) (n : Nat) : Status × Ctx :=
  if n ≤ c.input.length then (.ok, { c with input := c.input.drop n })
  else (.ioError, c)

/-- `bserial_push_scope`. -/
def bserial_push_scope (c : Ctx) (t : ScopeType) : Status × Ctx :=
  if c.status ≠ .ok then (c.status, c)
  else if c.scopes.length = c.config.max_depth then ctxMalformed c
  else
    let s := freshScope t c.schema_top
    if t = .record ∨ t = .table then
      (.ok, { c with
        scopes := { s with record_schema := c.schema_top } :: c.scopes
        schema_top := c.schema_top + c.config.max_record_fields })
    else
      (.ok, { c with scopes := s :: c.scopes })

/-- `bserial_pop_scope`. -/
def bserial_pop_scope (c : Ctx) : Status × Ctx :=
  if c.status ≠ .ok then (c.status, c)
  else if (curScope c).type = .root then ctxMalformed c
  else (.ok, { c with
    schema_top := (curScope c).prev_schema_pool
    scopes := c.scopes.tail })

/-- `bserial_begin_op`. -/
def bserial_begin_op (c : Ctx) (op : OpType) : Status × Ctx :=
  if c.status ≠ .ok then (c.status, c)
  else
    let scope := curScope c
    if scope.type = .blob then ctxMalformed c
    else if scope.type = .table ∧ op ≠ .record then ctxMalformed c
    else
      let c := if scope.type = .array ∨ scope.type = .table then
          withCur c { scope with iterator := scope.iterator + 1 }
        else c
      if op = .blob then bserial_push_scope c .blob
      else if op = .array then bserial_push_scope c .array
      else if op = .table then bserial_push_scope c .table
      else if op = .record then bserial_push_scope c .record
      else (.ok, c)

/-- The auto-pop loop at the end of `bserial_end_op`; the fuel is the scope
stack depth, which the loop can never exhaust because the root frame stops
it. -/
def bserial_auto_pop : Nat → Ctx → Status × Ctx
  | 0, c => (.ok, c)
  | fuel + 1, c =>
    if ((curScope c).type = .array ∨ (curScope c).type = .table) ∧
        (curScope c).iterator = (curScope c).len then
      match bserial_pop_scope c with
      | (.ok, c) => bserial_auto_pop fuel c
      | r => r
    else (.ok, c)

/-- `bserial_end_op`. -/
def bserial_end_op (c : Ctx) (op : OpType) : Status × Ctx :=
  if c.status ≠ .ok then (c.status, c)
  else
    let first :=
      if ((curScope c).type = .blob ∧ op = .blob) ∨
          ((curScope c).type = .record ∧ op = .record) then
        bserial_pop_scope c
      else (.ok, c)
    match first with
    | (.ok, c) => bserial_auto_pop c.scopes.length c
    | r => r

/-- `bserial_peek_marker`: `BSERIAL_NO_MARKER` is `255`. -/
def bserial_peek_marker (c : Ctx) : Status × Nat × Ctx :=
  if c.marker_buf = 255 then
    match c.input with
    | [] => (.ioError, 255, { c with status := .ioError })
    | b :: rest => (.ok, b, { c with status := .ok, marker_buf := b, input := rest })
  else (.ok, c.marker_buf, c)

/-- `bserial_read_marker`. -/
def bserial_read_marker (c : Ctx) : Status × Nat × Ctx :=
  if c.marker_buf = 255 then
    match c.input with
    | [] => (.ioError, 255, { c with status := .ioError })
    | b :: rest => (.ok, b, { c with status := .ok, input := rest })
  else (.ok, c.marker_buf, { c with marker_buf := 255 })

/-- `bserial_discard_marker`. -/
def bserial_discard_marker (c : Ctx) : Ctx := { c with marker_buf := 255 }

/-- `bserial_uint` (the context-level operation; marker `1 = BSERIAL_UINT`).
Returns status, the in/out value, and the new context. -/
def bserial_uint (c : Ctx) (value : Nat) : Status × Nat × Ctx :=
  match bserial_begin_op c .numeric with
  | (.ok, c) =>
    if c.mode = .read then
      match bserial_read_marker c with
      | (.ok, marker, c) =>
        if marker ≠ 1 then
          let r := ctxMalformed c
          (r.1, value, r.2)
        else
          match bserial_read_uint c.input with
          | (.ok, v, rest) =>
            let c := { c with status := .ok, input := rest }
            match bserial_end_op c .numeric with
            | (s, c) => (s, v, c)
          | (s, _, rest) => (s, value, { c with status := s, input := rest })
      | (s, _, c) => (s, value, c)
    else
      let c := { c with
        status := .ok
        output := c.output ++ 1 :: bserial_write_uint value }
      match bserial_end_op c .numeric with
      | (s, c) => (s, value, c)
  | (s, c) => (s, value, c)

/-- `bserial_sint` (marker `2 = BSERIAL_SINT`). -/
def bserial_sint (c : Ctx) (value : Int) : Status × Int × Ctx :=
  match bserial_begin_op c .numeric with
  | (.ok, c) =>
    if c.mode = .read then
      match bserial_read_marker c with
      | (.ok, marker, c) =>
        if marker ≠ 2 then
          let r := ctxMalformed c
          (r.1, value, r.2)
        else
          match bserial_read_sint c.input with
          | (.ok, v, rest) =>
            let c := { c with status := .ok, input := rest }
            match bserial_end_op c .numeric with
            | (s, c) => (s, v, c)
          | (s, _, rest) => (s, value, { c with status := s, input := rest })
      | (s, _, c) => (s, value, c)
    else
      let c := { c with
        status := .ok
        output := c.output ++ 2 :: bserial_write_sint value }
      match bserial_end_op c .numeric with
      | (s, c) => (s, value, c)
  | (s, c) => (s, value, c)

/-- The little-endian payload bytes of `bserial_write_f32`/`_f64`
(`buf[i] = (uint8_t)(ivalue >> (i * 8))`); `value` is the float's bit
pattern obtained by the C `memcpy` reinterpretation. -/
def bytesLE (count value : Nat) : List Nat :=
  (List.range count).map fun i => value / 256 ^ i % 256

/-- The accumulation loop of `bserial_read_f32`/`_f64`
(`ivalue |= buf[i] << (i * 8)`), over the context input. -/
def bserial_read_le (count : Nat) (input : List Nat) : Status × Nat × List Nat :=
  if count ≤ input.length then
    (.ok, (List.range count).foldl (fun a i => a ||| (input.getD i 0 <<< (8 * i))) 0,
      input.drop count)
  else (.ioError, 0, input)

/-- `bserial_f32` (marker `3 = BSERIAL_F32`); the value is the 32-bit
pattern of the float. -/
def bserial_f32 (c : Ctx) (value : Nat) : Status × Nat × Ctx :=
  match bserial_begin_op c .numeric with
  | (.ok, c) =>
    if c.mode = .read then
      match bserial_read_marker c with
      | (.ok, marker, c) =>
        if marker ≠ 3 then
          let r := ctxMalformed c
          (r.1, value, r.2)
        else
          match bserial_read_le 4 c.input with
          | (.ok, v, rest) =>
            let c := { c with status := .ok, input := rest }
            match bserial_end_op c .numeric with
            | (s, c) => (s, v, c)
          | (s, _, rest) => (s, value, { c with status := s, input := rest })
      | (s, _, c) => (s, value, c)
    else
      let c := { c with status := .ok, output := c.output ++ 3 :: bytesLE 4 value }
      match bserial_end_op c .numeric with
      | (s, c) => (s, value, c)
  | (s, c) => (s, value, c)

/-- `bserial_marker_and_length`: on read, expect the given marker byte (read
with a plain `bserial_read`, not through the marker buffer) followed by a
varint; on write, emit them. -/
def bserial_marker_and_length (c : Ctx) (marker : Nat) (len : Nat) :
    Status × Nat × Ctx :=
  if c.status ≠ .ok then (c.status, len, c)
  else if c.mode = .read then
    match ctxRead c 1 with
    | (.ok, bs, c) =>
      let c := { c with status := .ok }
      if bs.headD 0 ≠ marker then
        let r := ctxMalformed c
        (r.1, len, r.2)
      else
        match bserial_read_uint c.input with
        | (.ok, v, rest) => (.ok, v, { c with status := .ok, input := rest })
        | (s, _, rest) => (s, len, { c with status := s, input := rest })
    | (s, _, c) => (s, len, { c with status := s })
  else
    (.ok, len, { c with
      status := .ok
      output := c.output ++ marker :: bserial_write_uint len })

/-- `bserial_blob_header` (marker `5 = BSERIAL_BLOB`): no `end_op` here; the
blob scope is closed by `bserial_blob_body`. -/
def bserial_blob_header (c : Ctx) (len : Nat) : Status × Nat × Ctx :=
  match bserial_begin_op c .blob with
  | (.ok, c) =>
    match bserial_marker_and_length c 5 len with
    | (.ok, len', c) => (.ok, len', withCur c { curScope c with len := len' })
    | (s, len', c) => (s, len', c)
  | (s, c) => (s, len, c)

/-- `bserial_blob_body`: transfer `scope->len` bytes and close the blob
scope.  Returns the bytes read (read mode) or the caller's buffer. -/
def bserial_blob_body (c : Ctx) (buf : List Nat) : Status × List Nat × Ctx :=
  if c.status ≠ .ok then (c.status, buf, c)
  else if (curScope c).type ≠ .blob then
    let r := ctxMalformed c
    (r.1, buf, r.2)
  else
    let n := (curScope c).len
    if 0 < n then
      if c.mode = .read then
        match ctxRead c n with
        | (.ok, bs, c) =>
          match bserial_end_op { c with status := .ok } .blob with
          | (s, c) => (s, bs, c)
        | (s, _, c) => (s, buf, { c with status := s })
      else
        let c := { c with
          status := .ok
          output := c.output ++ buf.take n }
        match bserial_end_op c .blob with
        | (s, c) => (s, buf, c)
    else
      match bserial_end_op c .blob with
      | (s, c) => (s, buf, c)

/-- `bserial_blob`: header (where the caller's `len` bounds the acceptable
length on read), length check, body.  Returns status, the data bytes, the
resulting length, and the context. -/
def bserial_blob (c : Ctx) (buf : List Nat) (len : Nat) :
    Status × List Nat × Nat × Ctx :=
  match bserial_blob_header c len with
  | (.ok, actual, c) =>
    if len < actual then
      let r := ctxMalformed c
      (r.1, buf, len, r.2)
    else
      match bserial_blob_body c buf with
      | (s, bs, c) => (s, bs, actual, c)
  | (s, _, c) => (s, buf, len, c)

/-- `bserial_hash` (MurmurOAAT64) over the key bytes, in 64-bit
arithmetic. -/
def bserial_hash (key : List Nat) : Nat :=
  key.foldl (fun h b =>
    let h := (h ^^^ b) * 0x5bd1e9955bd1e995 % 2 ^ 64
    h ^^^ (h >>> 47)) 525201411107845655

/-- `bserial_lookup_index`: double-hashed open-addressing step.
`step = (uint32_t)((hash >> (64 - exp)) | 1)` is odd, and
`(idx + step) & mask` with `mask = (1 << exp) - 1` is `% 2 ^ exp` (the
intermediate `uint32` arithmetic is `% 2 ^ 32`). -/
def bserial_lookup_index (hash exp idx : Nat) : Nat :=
  ((idx + (hash >>> (64 - exp) % 2 ^ 32 ||| 1)) % 2 ^ 32) % 2 ^ exp

def defaultSym : SymEntry := ⟨[], 0⟩

/-- The write-side probe loop of `bserial_symbol`: walk the open-addressing
index until an empty slot (intern a new symbol, emit a `SymbolDef`) or a
slot holding this exact name (emit a `SymbolRef` with the stored id).  The
C loop needs no fuel: the probe sequence visits every slot and the index
always keeps an empty slot, which is proved separately; fuel `2 ^ exp + 1`
therefore never runs out. -/
def bserial_symbol_write_loop : Nat → Ctx → List Nat → Nat → Nat → Status × Ctx
  | 0, c, _, _, _ => ctxMalformed c
  | fuel + 1, c, name, hash, i =>
    let i := bserial_lookup_index hash c.symtab_exp i
    let index := c.symtab_index.getD i 0
    if index = 0 then
      if c.config.max_num_symbols ≤ c.symtab.length then ctxMalformed c
      else
        (.ok, { c with
          symtab := c.symtab ++ [⟨name, name.length⟩]
          symtab_index := c.symtab_index.set i (c.symtab.length + 1)
          status := .ok
          output := c.output ++ 6 :: bserial_write_uint name.length ++ name })
    else if (c.symtab.getD (index - 1) defaultSym).len = name.length ∧
        (c.symtab.getD (index - 1) defaultSym).buf = name then
      (.ok, { c with
        status := .ok
        output := c.output ++ 7 :: bserial_write_uint (index - 1) })
    else
      bserial_symbol_write_loop fuel c name hash i

/-- `bserial_symbol` (markers `6 = BSERIAL_SYM_DEF`, `7 = BSERIAL_SYM_REF`).
The in/out `(buf, len)` pair is modelled as the single byte list `buf`
(whose length plays the role of `*len`); the result's second component is
the text both pointers are left at. -/
def bserial_symbol (c : Ctx) (buf : List Nat) : Status × List Nat × Ctx :=
  match bserial_begin_op c .symbol with
  | (.ok, c) =>
    if c.mode = .read then
      match bserial_read_marker c with
      | (.ok, marker, c) =>
        if marker = 6 then
          if c.config.max_num_symbols ≤ c.symtab.length then
            let r := ctxMalformed c
            (r.1, buf, r.2)
          else
            match bserial_read_uint c.input with
            | (.ok, slen, rest) =>
              let c := { c with status := .ok, input := rest }
              if c.config.max_symbol_len < slen then
                let r := ctxMalformed c
                (r.1, buf, r.2)
              else
                match ctxRead c slen with
                | (.ok, text, c) =>
                  let c := { c with
                    status := .ok
                    symtab := c.symtab ++ [⟨text, slen⟩] }
                  match bserial_end_op c .symbol with
                  | (s, c) => (s, text, c)
                | (s, _, c) => (s, buf, { c with status := s })
            | (s, _, rest) => (s, buf, { c with status := s, input := rest })
        else if marker = 7 then
          match bserial_read_uint c.input with
          | (.ok, sid, rest) =>
            let c := { c with status := .ok, input := rest }
            if c.symtab.length ≤ sid then
              let r := ctxMalformed c
              (r.1, buf, r.2)
            else
              match bserial_end_op c .symbol with
              | (s, c) => (s, (c.symtab.getD sid defaultSym).buf, c)
          | (s, _, rest) => (s, buf, { c with status := s, input := rest })
        else
          let r := ctxMalformed c
          (r.1, buf, r.2)
      | (s, _, c) => (s, buf, c)
    else
      if c.config.max_symbol_len < buf.length then
        let r := ctxMalformed c
        (r.1, buf, r.2)
      else
        match bserial_symbol_write_loop (2 ^ c.symtab_exp + 1) c buf
          (bserial_hash buf) (bserial_hash buf % 2 ^ 32) with
        | (.ok, c) =>
          match bserial_end_op c .symbol with
          | (s, c) => (s, buf, c)
        | (s, c) => (s, buf, c)
  | (s, c) => (s, buf, c)

/-- `bserial_array` (marker `8 = BSERIAL_ARRAY`). -/
def bserial_array (c : Ctx) (len : Nat) : Status × Nat × Ctx :=
  match bserial_begin_op c .array with
  | (.ok, c) =>
    match bserial_marker_and_length c 8 len with
    | (.ok, len', c) =>
      if 0 < len' then (.ok, len', withCur c { curScope c with len := len' })
      else
        match bserial_end_op c .array with
        | (s, c) => (s, len', c)
    | (s, len', c) => (s, len', c)
  | (s, c) => (s, len, c)

/-- `bserial_table` (marker `9 = BSERIAL_TABLE`). -/
def bserial_table (c : Ctx) (len : Nat) : Status × Nat × Ctx :=
  match bserial_begin_op c .table with
  | (.ok, c) =>
    match bserial_marker_and_length c 9 len with
    | (.ok, len', c) =>
      if 0 < len' then (.ok, len', withCur c { curScope c with len := len' })
      else
        match bserial_end_op c .table with
        | (s, c) => (s, len', c)
    | (s, len', c) => (s, len', c)
  | (s, c) => (s, len, c)

/-- `bserial_i8`: serialize through a 64-bit signed value with a range
check on read. -/
def bserial_i8 (c : Ctx) (v : Int) : Status × Int × Ctx :=
  match bserial_sint c v with
  | (.ok, r, c) =>
    if -128 ≤ r ∧ r ≤ 127 then (.ok, r, c)
    else
      let m := ctxMalformed c
      (m.1, v, m.2)
  | (s, _, c) => (s, v, c)

/-- `bserial_i16`. -/
def bserial_i16 (c : Ctx) (v : Int) : Status × Int × Ctx :=
  match bserial_sint c v with
  | (.ok, r, c) =>
    if -32768 ≤ r ∧ r ≤ 32767 then (.ok, r, c)
    else
      let m := ctxMalformed c
      (m.1, v, m.2)
  | (s, _, c) => (s, v, c)

/-- `bserial_i32`. -/
def bserial_i32 (c : Ctx) (v : Int) : Status × Int × Ctx :=
  match bserial_sint c v with
  | (.ok, r, c) =>
    if -2147483648 ≤ r ∧ r ≤ 2147483647 then (.ok, r, c)
    else
      let m := ctxMalformed c
      (m.1, v, m.2)
  | (s, _, c) => (s, v, c)

/-- `bserial_u8`. -/
def bserial_u8 (c : Ctx) (v : Nat) : Status × Nat × Ctx :=
  match bserial_uint c v with
  | (.ok, r, c) =>
    if r ≤ 255 then (.ok, r, c)
    else
      let m := ctxMalformed c
      (m.1, v, m.2)
  | (s, _, c) => (s, v, c)

/-- `bserial_u16`. -/
def bserial_u16 (c : Ctx) (v : Nat) : Status × Nat × Ctx :=
  match bserial_uint c v with
  | (.ok, r, c) =>
    if r ≤ 65535 then (.ok, r, c)
    else
      let m := ctxMalformed c
      (m.1, v, m.2)
  | (s, _, c) => (s, v, c)

/-- `bserial_u32`. -/
def bserial_u32 (c : Ctx) (v : Nat) : Status × Nat × Ctx :=
  match bserial_uint c v with
  | (.ok, r, c) =>
    if r ≤ 4294967295 then (.ok, r, c)
    else
      let m := ctxMalformed c
      (m.1, v, m.2)
  | (s, _, c) => (s, v, c)

/-- `bserial_f64` (marker `4 = BSERIAL_F64`). -/
def bserial_f64 (c : Ctx) (value : Nat) : Status × Nat × Ctx :=
  match bserial_begin_op c .numeric with
  | (.ok, c) =>
    if c.mode = .read then
      match bserial_read_marker c with
      | (.ok, marker, c) =>
        if marker ≠ 4 then
          let r := ctxMalformed c
          (r.1, value, r.2)
        else
          match bserial_read_le 8 c.input with
          | (.ok, v, rest) =>
            let c := { c with status := .ok, input := rest }
            match bserial_end_op c .numeric with
            | (s, c) => (s, v, c)
          | (s, _, rest) => (s, value, { c with status := s, input := rest })
      | (s, _, c) => (s, value, c)
    else
      let c := { c with status := .ok, output := c.output ++ 4 :: bytesLE 8 value }
      match bserial_end_op c .numeric with
      | (s, c) => (s, value, c)
  | (s, c) => (s, value, c)

/-!
## Generic skip traversal (`bserial_skip_next`)

The C function recurses on the value structure; the recursion depth is
bounded because every nested value consumes at least one input byte before
recursing.  The embedding runs the same depth-first traversal over an
explicit worklist of pending `remaining_depth` arguments, with a fuel that
decreases on every processed value; a fuel strictly larger than the input
length can therefore never run out.  `remaining_depth` is a `uint32_t`, so
the `depth - 1` passed when recursing wraps at zero (the `BSERIAL_RECORD`
case performs no depth check at all and recurses with the wrapped value).
-/

/-- `uint32_t` decrement: `depth - 1` modulo `2^32`. -/
def depthMinusOne (depth : Nat) : Nat := (depth + (2 ^ 32 - 1)) % 2 ^ 32

/-- The symbol loops in the `BSERIAL_TABLE`/`BSERIAL_RECORD` cases of
`bserial_skip_next` (read and discard `count` symbol values). -/
def bserial_skip_symbols : Nat → Ctx → Status × Ctx
  | 0, c => (.ok, c)
  | count + 1, c =>
    match bserial_symbol c [] with
    | (.ok, _, c) => bserial_skip_symbols count c
    | (s, _, c) => (s, c)

/-- `bserial_skip_next`, over a worklist of pending values (each with its
`remaining_depth`); job lists grow exactly as the C recursion would descend.
In the `BSERIAL_ARRAY`/`BSERIAL_TABLE`/`BSERIAL_BLOB` cases the element
count is read with a plain `BSERIAL_CHECK_STATUS` and an error there is
returned without latching `ctx->status`, exactly as in the source. -/
def bserial_skip_many : Nat → Ctx → List Nat → Status × Ctx
  | _, c, [] => (.ok, c)
  | 0, c, _ :: _ => ctxMalformed c
  | fuel + 1, c, depth :: jobs =>
    match bserial_peek_marker c with
    | (.ok, marker, c) =>
      if marker = 1 then
        match bserial_uint c 0 with
        | (.ok, _, c) => bserial_skip_many fuel c jobs
        | (s, _, c) => (s, c)
      else if marker = 2 then
        match bserial_sint c 0 with
        | (.ok, _, c) => bserial_skip_many fuel c jobs
        | (s, _, c) => (s, c)
      else if marker = 3 then
        let c := bserial_discard_marker c
        match ctxSkip c 4 with
        | (.ok, c) => bserial_skip_many fuel { c with status := .ok } jobs
        | (s, c) => (s, { c with status := s })
      else if marker = 4 then
        let c := bserial_discard_marker c
        match ctxSkip c 8 with
        | (.ok, c) => bserial_skip_many fuel { c with status := .ok } jobs
        | (s, c) => (s, { c with status := s })
      else if marker = 5 then
        let c := bserial_discard_marker c
        match bserial_read_uint c.input with
        | (.ok, len, rest) =>
          let c := { c with input := rest }
          match ctxSkip c len with
          | (.ok, c) => bserial_skip_many fuel { c with status := .ok } jobs
          | (s, c) => (s, { c with status := s })
        | (s, _, rest) => (s, { c with input := rest })
      else if marker = 6 ∨ marker = 7 then
        match bserial_symbol c [] with
        | (.ok, _, c) => bserial_skip_many fuel c jobs
        | (s, _, c) => (s, c)
      else if marker = 8 then
        let c := bserial_discard_marker c
        match bserial_read_uint c.input with
        | (.ok, len, rest) =>
          let c := { c with input := rest }
          if 0 < len ∧ depth = 0 then ctxMalformed c
          else bserial_skip_many fuel c
            (List.replicate len (depthMinusOne depth) ++ jobs)
        | (s, _, rest) => (s, { c with input := rest })
      else if marker = 9 then
        let c := bserial_discard_marker c
        match bserial_read_uint c.input with
        | (.ok, rows, rest) =>
          let c := { c with input := rest }
          if 0 < rows ∧ depth = 0 then ctxMalformed c
          else
            match bserial_read_uint c.input with
            | (.ok, cols, rest) =>
              let c := { c with input := rest }
              match bserial_skip_symbols cols c with
              | (.ok, c) => bserial_skip_many fuel c
                  (List.replicate (rows * cols) (depthMinusOne depth) ++ jobs)
              | (s, c) => (s, c)
            | (s, _, rest) => (s, { c with input := rest })
        | (s, _, rest) => (s, { c with input := rest })
      else if marker = 10 then
        let c := bserial_discard_marker c
        match bserial_read_uint c.input with
        | (.ok, cols, rest) =>
          let c := { c with input := rest }
          match bserial_skip_symbols cols c with
          | (.ok, c) => bserial_skip_many fuel c
              (List.replicate cols (depthMinusOne depth) ++ jobs)
          | (s, c) => (s, c)
        | (s, _, rest) => (s, { c with input := rest })
      else ctxMalformed c
    | (s, _, c) => (s, c)

/-- `bserial_skip_next` proper: skip one value with the given
`remaining_depth`. -/
def bserial_skip_next (fuel : Nat) (c : Ctx) (depth : Nat) : Status × Ctx :=
  bserial_skip_many fuel c [depth]

/-- `bserial_probe_next_record_field`: advance the VALUE_IO iterator past
unrequested wire fields (discarding their values through the skip
traversal); stop on a requested field (`true`) or close the record scope
once the iterator reaches the width (`false`).  The skip fuel
`c.input.length + 2` exceeds the number of values any skip can visit.  The
probe fuel is exhausted only after `scope.len` skips, so callers pass
`scope.len + 1`. -/
def bserial_probe_next_record_field : Nat → Ctx → Bool × Ctx
  | 0, c => (false, c)
  | fuel + 1, c =>
    let scope := curScope c
    if scope.iterator < scope.len then
      if (poolGet c (scope.record_schema + scope.iterator)).field_name ≠ none then
        (true, c)
      else
        match bserial_skip_next (c.input.length + 2) c
            (c.config.max_depth - (c.scopes.length - 1)) with
        | (.ok, c) =>
          bserial_probe_next_record_field fuel
            (withCur c { curScope c with iterator := (curScope c).iterator + 1 })
        | (_, c) => (false, c)
    else
      (false, (bserial_end_op c .record).2)

/-!
## The record protocol (`bserial_record` / `bserial_key`)
-/

/-- Parent frame of the current scope (`ctx->scope[-1]`). -/
def parentScope (c : Ctx) : Scope := c.scopes.tail.headD rootScope

/-- Replace the parent frame (writes through the C `schema_scope`/
`parent_scope` pointer). -/
def withParent (c : Ctx) (s : Scope) : Ctx :=
  match c.scopes with
  | top :: _ :: rest => { c with scopes := top :: s :: rest }
  | other => { c with scopes := other }

/-- The `schema[i].field_name = NULL` loop of the read-side schema
discovery. -/
def recordZeroFields (off : Nat) : Nat → Nat → Ctx → Ctx
  | _, 0, c => c
  | i, remaining + 1, c =>
    recordZeroFields off (i + 1) remaining
      (poolSet c (off + i) { poolGet c (off + i) with field_name := none })

/-- The symbol-reading loop of the read-side schema discovery
(`scope->iterator = i` during each read, as in the source). -/
def recordReadSymbols (off : Nat) : Nat → Nat → Ctx → Status × Ctx
  | _, 0, c => (.ok, c)
  | i, remaining + 1, c =>
    let c := withCur c { curScope c with iterator := i }
    match bserial_symbol c [] with
    | (.ok, sym, c) =>
      recordReadSymbols off (i + 1) remaining
        (poolSet c (off + i) { poolGet c (off + i) with
          symbol := sym
          symbol_len := sym.length })
    | (s, _, c) => (s, c)

/-- Common tail of the read-side `bserial_record` push path:
`scope->record_schema = schema_scope->record_schema; scope->len =
schema_scope->record_width;` then deliver (`VALUE_IO`) or hand the key pass
to the caller (`KEY_IO`). -/
def bserial_record_read_finish (c : Ctx) (isTable : Bool) : Bool × Ctx :=
  let schemaScope := if isTable then parentScope c else curScope c
  let c := withCur c { curScope c with
    record_schema := schemaScope.record_schema
    len := schemaScope.record_width }
  if (curScope c).record_mode = .valueIo then
    bserial_probe_next_record_field ((curScope c).len + 1) c
  else (true, c)

/-- Read-side `bserial_record` push path after the `Record` marker has been
consumed (or under a table, where no marker is present): schema discovery
for a plain record or a table's first row, `VALUE_IO` directly for
subsequent table rows. -/
def bserial_record_read_body (c : Ctx) : Bool × Ctx :=
  let parent := parentScope c
  let isTable := parent.type = .table
  if parent.type ≠ .table ∨ parent.iterator = 1 then
    let c := withCur c { curScope c with record_mode := .keyIo }
    match bserial_read_uint c.input with
    | (.ok, numFields, rest) =>
      let c := { c with status := .ok, input := rest }
      if c.config.max_record_fields < numFields then (false, (ctxMalformed c).2)
      else
        let off := if isTable then (parentScope c).record_schema
                   else (curScope c).record_schema
        let c := recordZeroFields off 0 numFields c
        let c := if isTable then
            withParent c { parentScope c with record_width := numFields }
          else withCur c { curScope c with record_width := numFields }
        match recordReadSymbols off 0 numFields c with
        | (.ok, c) =>
          let c := withCur c { curScope c with iterator := 0 }
          bserial_record_read_finish c isTable
        | (_, c) => (false, c)
    | (s, _, rest) => (false, { c with status := s, input := rest })
  else
    let c := withCur c { curScope c with record_mode := .valueIo }
    bserial_record_read_finish c isTable

/-- `bserial_record`.  `record` is the caller's record address
(`0 = NULL`; callers pass nonzero addresses). -/
def bserial_record (c : Ctx) (record : Nat) : Bool × Ctx :=
  if c.status ≠ .ok then (false, c)
  else
    let scope := curScope c
    if c.mode = .read then
      if scope.type = .record ∧ record = scope.record_addr then
        match scope.record_mode with
        | .keyIo =>
          let c := withCur c { scope with record_mode := .valueIo, iterator := 0 }
          bserial_probe_next_record_field ((curScope c).len + 1) c
        | .valueIo =>
          if scope.iterator = scope.len then (false, (bserial_end_op c .record).2)
          else bserial_probe_next_record_field (scope.len + 1) c
        | .measureWidth => (false, (ctxMalformed c).2)
      else
        match bserial_begin_op c .record with
        | (.ok, c) =>
          let c := withCur c { curScope c with record_addr := record }
          if (parentScope c).type ≠ .table then
            match bserial_read_marker c with
            | (.ok, m, c) =>
              if m ≠ 10 then (false, (ctxMalformed c).2)
              else bserial_record_read_body c
            | (_, _, c) => (false, c)
          else bserial_record_read_body c
        | (_, c) => (false, c)
    else
      if scope.type = .record ∧ scope.record_addr = record then
        match scope.record_mode with
        | .measureWidth =>
          let c := withCur c { scope with record_mode := .keyIo }
          let c := { c with
            status := .ok
            output := c.output ++ bserial_write_uint (curScope c).len }
          (true, c)
        | .keyIo =>
          (true, withCur c { scope with record_mode := .valueIo, iterator := 0 })
        | .valueIo => (false, (bserial_end_op c .record).2)
      else
        match bserial_begin_op c .record with
        | (.ok, c) =>
          let c := withCur c { curScope c with record_addr := record }
          if (parentScope c).type ≠ .table ∨ (parentScope c).iterator = 1 then
            let c := withCur c { curScope c with record_mode := .measureWidth }
            if (parentScope c).type ≠ .table then
              (true, { c with status := .ok, output := c.output ++ [10] })
            else (true, c)
          else
            (true, withCur c { curScope c with record_mode := .valueIo })
        | (_, c) => (false, c)

/-- The KEY_IO matching scan of `bserial_key` (read): mark every schema
entry whose stored symbol matches the requested name
(`symbol_len == len && strncmp(symbol, name, len) == 0`). -/
def keyMatchScan (off : Nat) (name : List Nat) (nameLen : Nat) :
    Nat → Nat → Ctx → Ctx
  | _, 0, c => c
  | i, remaining + 1, c =>
    let e := poolGet c (off + i)
    let c := if e.symbol_len = nameLen ∧ e.symbol.take nameLen = name.take nameLen
      then poolSet c (off + i) { e with field_name := some name }
      else c
    keyMatchScan off name nameLen (i + 1) remaining c

/-- `bserial_key`. -/
def bserial_key (c : Ctx) (name : List Nat) (len : Nat) : Bool × Ctx :=
  if c.status ≠ .ok then (false, c)
  else
    let scope := curScope c
    if scope.type ≠ .record then (false, (ctxMalformed c).2)
    else if c.mode = .read then
      match scope.record_mode with
      | .keyIo =>
        let c := keyMatchScan scope.record_schema name len 0 scope.len c
        (false, withCur c { curScope c with iterator := (curScope c).iterator + 1 })
      | .valueIo =>
        if some name = (poolGet c (scope.record_schema + scope.iterator)).field_name
        then (true, withCur c { scope with iterator := scope.iterator + 1 })
        else (false, c)
      | .measureWidth => (false, (ctxMalformed c).2)
    else
      match scope.record_mode with
      | .measureWidth => (false, withCur c { scope with len := scope.len + 1 })
      | .keyIo =>
        let c := withCur c { scope with iterator := scope.iterator + 1 }
        let r := bserial_symbol c name
        (false, r.2.2)
      | .valueIo => (true, withCur c { scope with iterator := scope.iterator + 1 })

/-!
## Context construction (`bserial_make_ctx` / `bserial_ctx_mem_layout`)
-/

/-- The `symtab_exp` loop of `bserial_ctx_mem_layout`: the smallest exponent
starting from 2 with `2 ^ exp ≥ 2 * max_num_symbols`.  The C loop uses
`int32_t`; in-range configurations terminate long before fuel 32. -/
def symtabExpLoop : Nat → Nat → Nat → Nat
  | 0, e, _ => e
  | fuel + 1, e, target => if 2 ^ e < target then symtabExpLoop fuel (e + 1) target else e

def symtabExp (config : Config) : Nat := symtabExpLoop 32 2 (2 * config.max_num_symbols)

/-- `bserial_make_ctx` plus `bserial_ctx_mem_layout`: a fresh context over a
zeroed working buffer.  (The C schema pool and scope array are uninitialized
memory; the model gives them benign defaults — `field_name = NULL` — which
is the only assumption made about them.) -/
def bserial_make_ctx (config : Config) (mode : Mode) (input : List Nat) : Ctx :=
  { config := config
    status := .ok
    mode := mode
    input := input
    output := []
    marker_buf := 255
    symtab := []
    symtab_index := List.replicate (2 ^ symtabExp config) 0
    symtab_exp := symtabExp config
    scopes := [rootScope]
    schema_pool := List.replicate (config.max_depth * config.max_record_fields) defaultMapping
    schema_top := 0 }

/-!
## Record-driving procedures

The declarative per-record procedure of the C API (`BSERIAL_RECORD` /
`BSERIAL_KEY` blocks) — visit a fixed list of named scalar fields, and
serialize each field's value when its `bserial_key` answers `true`.
-/

/-- A scalar field value: unsigned/signed varints and float bit patterns. -/
inductive FieldVal where
  | vuint (v : Nat)
  | vsint (v : Int)
  | vf32 (bits : Nat)
  | vf64 (bits : Nat)
  deriving DecidableEq

/-- One field of a record type: a name and the current value. -/
structure DField where
  name : List Nat
  val : FieldVal
  deriving DecidableEq

/-- Serialize one field value with the operation matching its type (what the
body of a `BSERIAL_KEY` block does). -/
def fieldValOp (c : Ctx) (v : FieldVal) : Status × FieldVal × Ctx :=
  match v with
  | .vuint x => match bserial_uint c x with | (s, r, c) => (s, .vuint r, c)
  | .vsint x => match bserial_sint c x with | (s, r, c) => (s, .vsint r, c)
  | .vf32 x => match bserial_f32 c x with | (s, r, c) => (s, .vf32 r, c)
  | .vf64 x => match bserial_f64 c x with | (s, r, c) => (s, .vf64 r, c)

/-- One pass of the record procedure body: visit every field in order;
process the value exactly when `bserial_key` answers `true`.  (Continuing
after a failed operation is equivalent to the C pattern's early return:
with the status latched, all later calls are no-ops.) -/
def recordBody (c : Ctx) : List DField → Ctx × List DField
  | [] => (c, [])
  | f :: rest =>
    match bserial_key c f.name f.name.length with
    | (true, c) =>
      match fieldValOp c f.val with
      | (_, v, c) =>
        let r := recordBody c rest
        (r.1, { f with val := v } :: r.2)
    | (false, c) =>
      let r := recordBody c rest
      (r.1, f :: r.2)

/-- `while (bserial_record(ctx, record)) { body }`, with fuel (the loop
makes at most `width + 3` iterations; callers pass more). -/
def recordLoop : Nat → Ctx → Nat → List DField → Ctx × List DField
  | 0, c, _, fields => (c, fields)
  | fuel + 1, c, addr, fields =>
    match bserial_record c addr with
    | (false, c) => (c, fields)
    | (true, c) =>
      let r := recordBody c fields
      recordLoop fuel r.1 addr r.2

/-- Drive one whole record through the context. -/
def serializeRecord (c : Ctx) (addr : Nat) (fields : List DField) :
    Ctx × List DField :=
  recordLoop (c.input.length + fields.length + 8) c addr fields

/-!
## C4: depth bounding in the generic skip traversal
-/

/-- A record nested inside a record (each with one field), as wire bytes:
`Record, 1 field, SymbolDef "a", Record, 1 field, SymbolRef 0, UInt 5`. -/
def c4Input : List Nat := [10, 1, 6, 1, 97, 10, 1, 7, 0, 1, 5]

/-- C4: the claim says the skip traversal fails with `Malformed` whenever
the next value is an Array/Table/Record and `remaining_depth` is already
zero.  The `BSERIAL_RECORD` case of `bserial_skip_next` performs no depth
check at all: it recurses into the record's fields with the wrapped
`uint32` depth `0 - 1 = 2^32 - 1`.  Skipping a record nested two deep with
`remaining_depth = 0` therefore returns `Ok` after consuming the whole
value, where the claim requires `Malformed`. -/
theorem claim_C4_record_skip_depth_unchecked :
    (bserial_skip_next (c4Input.length + 2) (bserial_make_ctx ⟨32, 64, 32, 8⟩ .read c4Input) 0).1 = .ok ∧
    (bserial_skip_next (c4Input.length + 2) (bserial_make_ctx ⟨32, 64, 32, 8⟩ .read c4Input) 0).2.input = [] ∧
    (bserial_skip_next 20 (bserial_make_ctx ⟨32, 64, 32, 8⟩ .read [8, 1, 1, 5]) 0).1 = .malformed := by
  refine ⟨by decide, by decide, by decide⟩

/-!
## C2: sticky failure status
-/

theorem begin_op_latched {c : Ctx} (op : OpType) (h : c.status ≠ .ok) :
    bserial_begin_op c op = (c.status, c) := by
  unfold bserial_begin_op
  rw [if_pos h]

theorem uint_latched {c : Ctx} (v : Nat) (h : c.status ≠ .ok) :
    bserial_uint c v = (c.status, v, c) := by
  unfold bserial_uint
  rw [begin_op_latched .numeric h]
  cases hs : c.status with
  | ok => exact absurd hs h
  | ioError => rfl
  | malformed => rfl

theorem sint_latched {c : Ctx} (v : Int) (h : c.status ≠ .ok) :
    bserial_sint c v = (c.status, v, c) := by
  unfold bserial_sint
  rw [begin_op_latched .numeric h]
  cases hs : c.status with
  | ok => exact absurd hs h
  | ioError => rfl
  | malformed => rfl

theorem f32_latched {c : Ctx} (v : Nat) (h : c.status ≠ .ok) :
    bserial_f32 c v = (c.status, v, c) := by
  unfold bserial_f32
  rw [begin_op_latched .numeric h]
  cases hs : c.status with
  | ok => exact absurd hs h
  | ioError => rfl
  | malformed => rfl

theorem f64_latched {c : Ctx} (v : Nat) (h : c.status ≠ .ok) :
    bserial_f64 c v = (c.status, v, c) := by
  unfold bserial_f64
  rw [begin_op_latched .numeric h]
  cases hs : c.status with
  | ok => exact absurd hs h
  | ioError => rfl
  | malformed => rfl

theorem blob_header_latched {c : Ctx} (len : Nat) (h : c.status ≠ .ok) :
    bserial_blob_header c len = (c.status, len, c) := by
  unfold bserial_blob_header
  rw [begin_op_latched .blob h]
  cases hs : c.status with
  | ok => exact absurd hs h
  | ioError => rfl
  | malformed => rfl

theorem blob_body_latched {c : Ctx} (buf : List Nat) (h : c.status ≠ .ok) :
    bserial_blob_body c buf = (c.status, buf, c) := by
  unfold bserial_blob_body
  rw [if_pos h]

theorem blob_latched {c : Ctx} (buf : List Nat) (len : Nat) (h : c.status ≠ .ok) :
    bserial_blob c buf len = (c.status, buf, len, c) := by
  unfold bserial_blob
  rw [blob_header_latched len h]
  cases hs : c.status with
  | ok => exact absurd hs h
  | ioError => rfl
  | malformed => rfl

theorem symbol_latched {c : Ctx} (buf : List Nat) (h : c.status ≠ .ok) :
    bserial_symbol c buf = (c.status, buf, c) := by
  unfold bserial_symbol
  rw [begin_op_latched .symbol h]
  cases hs : c.status with
  | ok => exact absurd hs h
  | ioError => rfl
  | malformed => rfl

theorem array_latched {c : Ctx} (len : Nat) (h : c.status ≠ .ok) :
    bserial_array c len = (c.status, len, c) := by
  unfold bserial_array
  rw [begin_op_latched .array h]
  cases hs : c.status with
  | ok => exact absurd hs h
  | ioError => rfl
  | malformed => rfl

theorem table_latched {c : Ctx} (len : Nat) (h : c.status ≠ .ok) :
    bserial_table c len = (c.status, len, c) := by
  unfold bserial_table
  rw [begin_op_latched .table h]
  cases hs : c.status with
  | ok => exact absurd hs h
  | ioError => rfl
  | malformed => rfl

theorem record_latched {c : Ctx} (addr : Nat) (h : c.status ≠ .ok) :
    bserial_record c addr = (false, c) := by
  unfold bserial_record
  rw [if_pos h]

theorem key_latched {c : Ctx} (name : List Nat) (len : Nat) (h : c.status ≠ .ok) :
    bserial_key c name len = (false, c) := by
  unfold bserial_key
  rw [if_pos h]

/-- C2: once the status is latched to an error, every public operation
returns that same status (`bserial_record`/`bserial_key` return `false`),
leaves the context — streams included — untouched, and `bserial_status`
keeps reporting the first error. -/
theorem claim_C2_sticky_failure (c : Ctx) (h : c.status ≠ .ok) :
    (∀ v, bserial_uint c v = (c.status, v, c)) ∧
    (∀ v, bserial_sint c v = (c.status, v, c)) ∧
    (∀ v, bserial_f32 c v = (c.status, v, c)) ∧
    (∀ v, bserial_f64 c v = (c.status, v, c)) ∧
    (∀ buf len, bserial_blob c buf len = (c.status, buf, len, c)) ∧
    (∀ len, bserial_blob_header c len = (c.status, len, c)) ∧
    (∀ buf, bserial_blob_body c buf = (c.status, buf, c)) ∧
    (∀ buf, bserial_symbol c buf = (c.status, buf, c)) ∧
    (∀ len, bserial_array c len = (c.status, len, c)) ∧
    (∀ len, bserial_table c len = (c.status, len, c)) ∧
    (∀ addr, bserial_record c addr = (false, c)) ∧
    (∀ name len, bserial_key c name len = (false, c)) ∧
    (∀ v, bserial_i8 c v = (c.status, v, c)) ∧
    (∀ v, bserial_i16 c v = (c.status, v, c)) ∧
    (∀ v, bserial_i32 c v = (c.status, v, c)) ∧
    (∀ v, bserial_u8 c v = (c.status, v, c)) ∧
    (∀ v, bserial_u16 c v = (c.status, v, c)) ∧
    (∀ v, bserial_u32 c v = (c.status, v, c)) ∧
    bserial_status c = c.status := by
  have hadapt_s : ∀ v, bserial_sint c v = (c.status, v, c) := fun v => sint_latched v h
  have hadapt_u : ∀ v, bserial_uint c v = (c.status, v, c) := fun v => uint_latched v h
  refine ⟨hadapt_u, hadapt_s, fun v => f32_latched v h, fun v => f64_latched v h,
    fun buf len => blob_latched buf len h, fun len => blob_header_latched len h,
    fun buf => blob_body_latched buf h, fun buf => symbol_latched buf h,
    fun len => array_latched len h, fun len => table_latched len h,
    fun addr => record_latched addr h, fun name len => key_latched name len h,
    ?_, ?_, ?_, ?_, ?_, ?_, rfl⟩
  all_goals intro v
  · unfold bserial_i8
    rw [hadapt_s v]
    cases hs : c.status with
    | ok => exact absurd hs h
    | ioError => rfl
    | malformed => rfl
  · unfold bserial_i16
    rw [hadapt_s v]
    cases hs : c.status with
    | ok => exact absurd hs h
    | ioError => rfl
    | malformed => rfl
  · unfold bserial_i32
    rw [hadapt_s v]
    cases hs : c.status with
    | ok => exact absurd hs h
    | ioError => rfl
    | malformed => rfl
  · unfold bserial_u8
    rw [hadapt_u v]
    cases hs : c.status with
    | ok => exact absurd hs h
    | ioError => rfl
    | malformed => rfl
  · unfold bserial_u16
    rw [hadapt_u v]
    cases hs : c.status with
    | ok => exact absurd hs h
    | ioError => rfl
    | malformed => rfl
  · unfold bserial_u32
    rw [hadapt_u v]
    cases hs : c.status with
    | ok => exact absurd hs h
    | ioError => rfl
    | malformed => rfl

/-!
## Small-step evaluation lemmas

Closed forms of the context operations on the states the protocols reach.
`plainScope` captures the scopes (root or record) in which a scalar
operation neither bumps an iterator nor pushes or pops. -/

def plainScope (c : Ctx) : Prop :=
  (curScope c).type = .root ∨ (curScope c).type = .record

theorem status_ne_false {c : Ctx} (h : c.status = .ok) : ¬c.status ≠ .ok :=
  fun hc => hc h

theorem begin_op_numeric_plain {c : Ctx} (hok : c.status = .ok) (hp : plainScope c) :
    bserial_begin_op c .numeric = (.ok, c) := by
  unfold bserial_begin_op
  rw [if_neg (status_ne_false hok)]
  rcases hp with h | h <;> simp [h]

theorem begin_op_symbol_plain {c : Ctx} (hok : c.status = .ok) (hp : plainScope c) :
    bserial_begin_op c .symbol = (.ok, c) := by
  unfold bserial_begin_op
  rw [if_neg (status_ne_false hok)]
  rcases hp with h | h <;> simp [h]

theorem auto_pop_plain {c : Ctx} (fuel : Nat) (hp : plainScope c) :
    bserial_auto_pop fuel c = (.ok, c) := by
  cases fuel with
  | zero => rfl
  | succ fuel =>
    unfold bserial_auto_pop
    rcases hp with h | h <;> simp [h]

theorem end_op_numeric_plain {c : Ctx} (hok : c.status = .ok) (hp : plainScope c) :
    bserial_end_op c .numeric = (.ok, c) := by
  unfold bserial_end_op
  rw [if_neg (status_ne_false hok)]
  rw [if_neg (show ¬(((curScope c).type = ScopeType.blob ∧ OpType.numeric = OpType.blob) ∨
      ((curScope c).type = ScopeType.record ∧ OpType.numeric = OpType.record)) by simp)]
  exact auto_pop_plain _ hp

theorem end_op_symbol_plain {c : Ctx} (hok : c.status = .ok) (hp : plainScope c) :
    bserial_end_op c .symbol = (.ok, c) := by
  unfold bserial_end_op
  rw [if_neg (status_ne_false hok)]
  rw [if_neg (show ¬(((curScope c).type = ScopeType.blob ∧ OpType.symbol = OpType.blob) ∨
      ((curScope c).type = ScopeType.record ∧ OpType.symbol = OpType.record)) by simp)]
  exact auto_pop_plain _ hp

theorem read_marker_cons {c : Ctx} {b : Nat} {rest : List Nat}
    (hm : c.marker_buf = 255) (hi : c.input = b :: rest) :
    bserial_read_marker c = (.ok, b, { c with status := .ok, input := rest }) := by
  unfold bserial_read_marker
  rw [if_pos hm, hi]

/-- `{c with status := .ok}` is `c` itself when the status already is `Ok`
(structure eta). -/
theorem set_status_ok_eta {c : Ctx} (h : c.status = .ok) :
    ({ c with status := Status.ok } : Ctx) = c := by
  rw [← h]

theorem claim_C2_witness :
    ((bserial_make_ctx ⟨8, 8, 8, 4⟩ .read []).status ≠ .ok → False) ∧
    ({ bserial_make_ctx ⟨8, 8, 8, 4⟩ .read [3] with status := Status.malformed }.status ≠ .ok ∧
      bserial_uint { bserial_make_ctx ⟨8, 8, 8, 4⟩ .read [3] with status := Status.malformed } 7 =
        (.malformed, 7, { bserial_make_ctx ⟨8, 8, 8, 4⟩ .read [3] with status := Status.malformed })) := by
  refine ⟨fun hc => hc rfl, by decide, ?_⟩
  exact (claim_C2_sticky_failure _ (by decide)).1 7

/-!
## Evaluation of scalar operations on protocol states
-/

theorem uint_read_ok {c : Ctx} {v : Nat} {rest : List Nat} (x : Nat)
    (hok : c.status = .ok) (hmode : c.mode = .read) (hmark : c.marker_buf = 255)
    (hp : plainScope c) (hv : v < 2 ^ 64)
    (hi : c.input = 1 :: (bserial_write_uint v ++ rest)) :
    bserial_uint c x = (.ok, v, { c with input := rest }) := by
  have hrm := read_marker_cons hmark hi
  have hru := read_write_uint hv rest
  have hend : bserial_end_op { c with status := Status.ok, input := rest } .numeric =
      (.ok, { c with status := Status.ok, input := rest }) :=
    end_op_numeric_plain rfl hp
  simp only [hmode, hok] at hrm hend
  simp [bserial_uint, begin_op_numeric_plain hok hp, hmode, hrm, hru, hend, hok]

theorem bytesLE_length (count v : Nat) : (bytesLE count v).length = count := by
  simp [bytesLE]

theorem bytesLE_getD {count v i : Nat} (hi : i < count) (rest : List Nat) :
    (bytesLE count v ++ rest).getD i 0 = v / 256 ^ i % 256 := by
  rw [List.getD_eq_getElem?_getD,
    List.getElem?_append_left (by rw [bytesLE_length]; exact hi)]
  unfold bytesLE
  rw [List.getElem?_map, List.getElem?_range hi]
  rfl

theorem read_le_take {count v : Nat} (rest : List Nat) :
    ∀ n, n ≤ count →
      (List.range n).foldl
        (fun a i => a ||| ((bytesLE count v ++ rest).getD i 0 <<< (8 * i))) 0 =
        v % 256 ^ n := by
  intro n
  induction n with
  | zero => intro _; simp [Nat.mod_one]
  | succ n ih =>
    intro hle
    rw [List.range_succ, List.foldl_append, ih (by omega)]
    simp only [List.foldl_cons, List.foldl_nil]
    rw [bytesLE_getD (by omega) rest]
    have h256 : (256 : Nat) ^ n = 2 ^ (8 * n) := by
      rw [show (256 : Nat) = 2 ^ 8 by norm_num, ← pow_mul]
    have hlt : v % 256 ^ n < 2 ^ (8 * n) := by
      rw [← h256]
      exact Nat.mod_lt _ (Nat.pos_pow_of_pos n (by norm_num))
    rw [lor_shiftLeft_eq_add hlt]
    rw [pow_succ, Nat.mod_mul]
    rw [h256]
    ring

theorem read_le_bytesLE {count v : Nat} (hv : v < 256 ^ count) (rest : List Nat) :
    bserial_read_le count (bytesLE count v ++ rest) = (.ok, v, rest) := by
  unfold bserial_read_le
  rw [if_pos (by simp [bytesLE_length])]
  rw [read_le_take rest count (le_refl count), Nat.mod_eq_of_lt hv]
  rw [List.drop_left' (bytesLE_length count v)]

theorem uint_write_ok {c : Ctx} (v : Nat)
    (hok : c.status = .ok) (hmode : c.mode = .write) (hp : plainScope c) :
    bserial_uint c v =
      (.ok, v, { c with output := c.output ++ 1 :: bserial_write_uint v }) := by
  have hend := end_op_numeric_plain (c := { c with status := Status.ok, output := c.output ++ 1 :: bserial_write_uint v }) rfl hp
  simp only [hmode, hok] at hend
  simp [bserial_uint, begin_op_numeric_plain hok hp, hmode, hok, hend]

theorem sint_read_ok {c : Ctx} {v : Int} {rest : List Nat} (x : Int)
    (hok : c.status = .ok) (hmode : c.mode = .read) (hmark : c.marker_buf = 255)
    (hp : plainScope c) (hv0 : -(2 ^ 63) ≤ v) (hv1 : v < 2 ^ 63)
    (hi : c.input = 2 :: (bserial_write_sint v ++ rest)) :
    bserial_sint c x = (.ok, v, { c with input := rest }) := by
  have hrm := read_marker_cons hmark hi
  have hru := read_write_sint hv0 hv1 rest
  have hend : bserial_end_op { c with status := Status.ok, input := rest } .numeric =
      (.ok, { c with status := Status.ok, input := rest }) :=
    end_op_numeric_plain rfl hp
  simp only [hmode, hok] at hrm hend
  simp [bserial_sint, begin_op_numeric_plain hok hp, hmode, hrm, hru, hend, hok]

theorem sint_write_ok {c : Ctx} (v : Int)
    (hok : c.status = .ok) (hmode : c.mode = .write) (hp : plainScope c) :
    bserial_sint c v =
      (.ok, v, { c with output := c.output ++ 2 :: bserial_write_sint v }) := by
  have hend := end_op_numeric_plain (c := { c with status := Status.ok, output := c.output ++ 2 :: bserial_write_sint v }) rfl hp
  simp only [hmode, hok] at hend
  simp [bserial_sint, begin_op_numeric_plain hok hp, hmode, hok, hend]

theorem f32_read_ok {c : Ctx} {v : Nat} {rest : List Nat} (x : Nat)
    (hok : c.status = .ok) (hmode : c.mode = .read) (hmark : c.marker_buf = 255)
    (hp : plainScope c) (hv : v < 2 ^ 32)
    (hi : c.input = 3 :: (bytesLE 4 v ++ rest)) :
    bserial_f32 c x = (.ok, v, { c with input := rest }) := by
  have hrm := read_marker_cons hmark hi
  have hv4 : v < 256 ^ 4 := by
    have h : (256 : Nat) ^ 4 = 2 ^ 32 := by norm_num
    omega
  have hru := read_le_bytesLE hv4 rest
  have hend : bserial_end_op { c with status := Status.ok, input := rest } .numeric =
      (.ok, { c with status := Status.ok, input := rest }) :=
    end_op_numeric_plain rfl hp
  simp only [hmode, hok] at hrm hend
  simp [bserial_f32, begin_op_numeric_plain hok hp, hmode, hrm, hru, hend, hok]

theorem f32_write_ok {c : Ctx} (v : Nat)
    (hok : c.status = .ok) (hmode : c.mode = .write) (hp : plainScope c) :
    bserial_f32 c v = (.ok, v, { c with output := c.output ++ 3 :: bytesLE 4 v }) := by
  have hend := end_op_numeric_plain (c := { c with status := Status.ok, output := c.output ++ 3 :: bytesLE 4 v }) rfl hp
  simp only [hmode, hok] at hend
  simp [bserial_f32, begin_op_numeric_plain hok hp, hmode, hok, hend]

theorem f64_read_ok {c : Ctx} {v : Nat} {rest : List Nat} (x : Nat)
    (hok : c.status = .ok) (hmode : c.mode = .read) (hmark : c.marker_buf = 255)
    (hp : plainScope c) (hv : v < 2 ^ 64)
    (hi : c.input = 4 :: (bytesLE 8 v ++ rest)) :
    bserial_f64 c x = (.ok, v, { c with input := rest }) := by
  have hrm := read_marker_cons hmark hi
  have hv8 : v < 256 ^ 8 := by
    have h : (256 : Nat) ^ 8 = 2 ^ 64 := by norm_num
    omega
  have hru := read_le_bytesLE hv8 rest
  have hend : bserial_end_op { c with status := Status.ok, input := rest } .numeric =
      (.ok, { c with status := Status.ok, input := rest }) :=
    end_op_numeric_plain rfl hp
  simp only [hmode, hok] at hrm hend
  simp [bserial_f64, begin_op_numeric_plain hok hp, hmode, hrm, hru, hend, hok]

theorem f64_write_ok {c : Ctx} (v : Nat)
    (hok : c.status = .ok) (hmode : c.mode = .write) (hp : plainScope c) :
    bserial_f64 c v = (.ok, v, { c with output := c.output ++ 4 :: bytesLE 8 v }) := by
  have hend := end_op_numeric_plain (c := { c with status := Status.ok, output := c.output ++ 4 :: bytesLE 8 v }) rfl hp
  simp only [hmode, hok] at hend
  simp [bserial_f64, begin_op_numeric_plain hok hp, hmode, hok, hend]



theorem make_ctx_plain (cfg : Config) (mode : Mode) (input : List Nat) :
    plainScope (bserial_make_ctx cfg mode input) := by
  left
  rfl

/-- C10: each fixed-width integer adapter in read mode delivers the decoded
64-bit wire value exactly when it fits the destination type, and otherwise
returns `Malformed` leaving the caller's destination unchanged — never a
truncated value. -/
theorem claim_C10_int_adapters (cfg : Config) (w : Int) (u : Nat) (d : Int)
    (du : Nat) (rest : List Nat)
    (hw0 : -(2 ^ 63) ≤ w) (hw1 : w < 2 ^ 63) (hu : u < 2 ^ 64) :
    (bserial_i8 (bserial_make_ctx cfg .read (2 :: (bserial_write_sint w ++ rest))) d =
      if -128 ≤ w ∧ w ≤ 127 then
        (.ok, w, { bserial_make_ctx cfg .read (2 :: (bserial_write_sint w ++ rest)) with input := rest })
      else
        (.malformed, d, { bserial_make_ctx cfg .read (2 :: (bserial_write_sint w ++ rest)) with input := rest, status := Status.malformed })) ∧
    (bserial_i16 (bserial_make_ctx cfg .read (2 :: (bserial_write_sint w ++ rest))) d =
      if -32768 ≤ w ∧ w ≤ 32767 then
        (.ok, w, { bserial_make_ctx cfg .read (2 :: (bserial_write_sint w ++ rest)) with input := rest })
      else
        (.malformed, d, { bserial_make_ctx cfg .read (2 :: (bserial_write_sint w ++ rest)) with input := rest, status := Status.malformed })) ∧
    (bserial_i32 (bserial_make_ctx cfg .read (2 :: (bserial_write_sint w ++ rest))) d =
      if -2147483648 ≤ w ∧ w ≤ 2147483647 then
        (.ok, w, { bserial_make_ctx cfg .read (2 :: (bserial_write_sint w ++ rest)) with input := rest })
      else
        (.malformed, d, { bserial_make_ctx cfg .read (2 :: (bserial_write_sint w ++ rest)) with input := rest, status := Status.malformed })) ∧
    (bserial_u8 (bserial_make_ctx cfg .read (1 :: (bserial_write_uint u ++ rest))) du =
      if u ≤ 255 then
        (.ok, u, { bserial_make_ctx cfg .read (1 :: (bserial_write_uint u ++ rest)) with input := rest })
      else
        (.malformed, du, { bserial_make_ctx cfg .read (1 :: (bserial_write_uint u ++ rest)) with input := rest, status := Status.malformed })) ∧
    (bserial_u16 (bserial_make_ctx cfg .read (1 :: (bserial_write_uint u ++ rest))) du =
      if u ≤ 65535 then
        (.ok, u, { bserial_make_ctx cfg .read (1 :: (bserial_write_uint u ++ rest)) with input := rest })
      else
        (.malformed, du, { bserial_make_ctx cfg .read (1 :: (bserial_write_uint u ++ rest)) with input := rest, status := Status.malformed })) ∧
    (bserial_u32 (bserial_make_ctx cfg .read (1 :: (bserial_write_uint u ++ rest))) du =
      if u ≤ 4294967295 then
        (.ok, u, { bserial_make_ctx cfg .read (1 :: (bserial_write_uint u ++ rest)) with input := rest })
      else
        (.malformed, du, { bserial_make_ctx cfg .read (1 :: (bserial_write_uint u ++ rest)) with input := rest, status := Status.malformed })) := by
  have hs := sint_read_ok (c := bserial_make_ctx cfg .read (2 :: (bserial_write_sint w ++ rest)))
    d rfl rfl rfl (make_ctx_plain cfg .read _) hw0 hw1 rfl
  have hyp := uint_read_ok (c := bserial_make_ctx cfg .read (1 :: (bserial_write_uint u ++ rest)))
    du rfl rfl rfl (make_ctx_plain cfg .read _) hu rfl
  refine ⟨?_, ?_, ?_, ?_, ?_, ?_⟩
  · unfold bserial_i8
    rw [hs]
    by_cases hr : -128 ≤ w ∧ w ≤ 127
    · simp [hr]
    · simp [hr, ctxMalformed]
  · unfold bserial_i16
    rw [hs]
    by_cases hr : -32768 ≤ w ∧ w ≤ 32767
    · simp [hr]
    · simp [hr, ctxMalformed]
  · unfold bserial_i32
    rw [hs]
    by_cases hr : -2147483648 ≤ w ∧ w ≤ 2147483647
    · simp [hr]
    · simp [hr, ctxMalformed]
  · unfold bserial_u8
    rw [hyp]
    by_cases hr : u ≤ 255
    · simp [hr]
    · simp [hr, ctxMalformed]
  · unfold bserial_u16
    rw [hyp]
    by_cases hr : u ≤ 65535
    · simp [hr]
    · simp [hr, ctxMalformed]
  · unfold bserial_u32
    rw [hyp]
    by_cases hr : u ≤ 4294967295
    · simp [hr]
    · simp [hr, ctxMalformed]

theorem claim_C10_witness :
    -((2 : Int) ^ 63) ≤ 300 ∧ (300 : Int) < 2 ^ 63 ∧ (300 : Nat) < 2 ^ 64 ∧
    bserial_i8 (bserial_make_ctx ⟨8, 8, 8, 4⟩ .read (2 :: (bserial_write_sint 300 ++ []))) 5 =
      (.malformed, 5, { bserial_make_ctx ⟨8, 8, 8, 4⟩ .read (2 :: (bserial_write_sint 300 ++ [])) with input := [], status := Status.malformed }) := by
  refine ⟨by norm_num, by norm_num, by norm_num, ?_⟩
  have h := (claim_C10_int_adapters ⟨8, 8, 8, 4⟩ 300 300 5 7 [] (by norm_num)
    (by norm_num) (by norm_num)).1
  rw [if_neg (by norm_num)] at h
  exact h



/-!
## C6: the depth bound, via chains of nested arrays
-/

/-- Write `[ [ ... [7] ... ] ]`: `d` nested single-element arrays around a
uint. -/
def writeNested : Nat → Ctx → Status × Ctx
  | 0, c => match bserial_uint c 7 with | (s, _, c) => (s, c)
  | d + 1, c =>
    match bserial_array c 1 with
    | (.ok, _, c) => writeNested d c
    | (s, _, c) => (s, c)

/-- Read the same chain back. -/
def readNested : Nat → Ctx → Status × Ctx
  | 0, c => match bserial_uint c 0 with | (s, _, c) => (s, c)
  | d + 1, c =>
    match bserial_array c 0 with
    | (.ok, _, c) => readNested d c
    | (s, _, c) => (s, c)

/-- Wire bytes of the nest. -/
def nestedBytes : Nat → List Nat
  | 0 => 1 :: bserial_write_uint 7
  | d + 1 => 8 :: (bserial_write_uint 1 ++ nestedBytes d)

/-- Output prefix after `k` arrays have been opened. -/
def openBytes : Nat → List Nat
  | 0 => []
  | k + 1 => openBytes k ++ 8 :: bserial_write_uint 1

/-- The innermost open array frame. -/
def arrTop : Scope := { freshScope .array 0 with len := 1 }

/-- An enclosing array frame whose element is in progress. -/
def arrMid : Scope := { freshScope .array 0 with iterator := 1, len := 1 }

/-- The scope stack after `k` arrays have been opened. -/
def nestedScopes : Nat → List Scope
  | 0 => [rootScope]
  | k + 1 => arrTop :: (List.replicate k arrMid ++ [rootScope])

def midWrite (cfg : Config) (k : Nat) : Ctx :=
  { bserial_make_ctx cfg .write [] with output := openBytes k, scopes := nestedScopes k }

def midRead (cfg : Config) (d k : Nat) : Ctx :=
  { bserial_make_ctx cfg .read (nestedBytes d) with input := nestedBytes (d - k), scopes := nestedScopes k }

theorem nestedScopes_length (k : Nat) : (nestedScopes k).length = k + 1 := by
  cases k <;> simp [nestedScopes]

theorem write_open_step (cfg : Config) (k : Nat) (hk : k + 1 ≠ cfg.max_depth) :
    bserial_array (midWrite cfg k) 1 = (.ok, 1, midWrite cfg (k + 1)) := by
  have hlen : (midWrite cfg k).scopes.length = k + 1 := by
    simp [midWrite, nestedScopes_length]
  cases k with
  | zero =>
    simp [bserial_array, bserial_begin_op, midWrite, nestedScopes, curScope,
      rootScope, freshScope, bserial_make_ctx, bserial_push_scope, hk,
      bserial_marker_and_length, withCur, arrTop, openBytes, ctxMalformed]
  | succ k =>
    simp [bserial_array, bserial_begin_op, midWrite, nestedScopes, curScope,
      rootScope, freshScope, bserial_make_ctx, bserial_push_scope,
      nestedScopes_length, hk, bserial_marker_and_length, withCur, arrTop,
      arrMid, openBytes, ctxMalformed, List.replicate_succ]

theorem write_open_fail (cfg : Config) (k : Nat) (hk : k + 1 = cfg.max_depth) :
    (bserial_array (midWrite cfg k) 1).1 = .malformed ∧
    (bserial_array (midWrite cfg k) 1).2.2.status = .malformed := by
  cases k with
  | zero =>
    simp [bserial_array, bserial_begin_op, midWrite, nestedScopes, curScope,
      rootScope, freshScope, bserial_make_ctx, bserial_push_scope, ← hk,
      bserial_marker_and_length, withCur, arrTop, openBytes, ctxMalformed]
  | succ k =>
    simp [bserial_array, bserial_begin_op, midWrite, nestedScopes, curScope,
      rootScope, freshScope, bserial_make_ctx, bserial_push_scope,
      nestedScopes_length, ← hk, bserial_marker_and_length, withCur, arrTop,
      arrMid, openBytes, ctxMalformed, List.replicate_succ]

/-- After the innermost value of the nest completes, the auto-pop loop
unwinds every pending array frame. -/
theorem auto_pop_nest : ∀ k (c : Ctx) (fuel : Nat),
    c.status = .ok → c.schema_top = 0 →
    c.scopes = List.replicate k arrMid ++ [rootScope] → k + 1 ≤ fuel →
    bserial_auto_pop fuel c = (.ok, { c with scopes := [rootScope] }) := by
  intro k
  induction k with
  | zero =>
    intro c fuel hok htop hsc hfuel
    obtain ⟨fuel, rfl⟩ : ∃ f, fuel = f + 1 := ⟨fuel - 1, by omega⟩
    unfold bserial_auto_pop
    rw [if_neg]
    · have hsc' : c.scopes = [rootScope] := by simpa using hsc
      rw [← hsc']
    · simp [curScope, hsc, rootScope, freshScope]
  | succ k ih =>
    intro c fuel hok htop hsc hfuel
    obtain ⟨fuel, rfl⟩ : ∃ f, fuel = f + 1 := ⟨fuel - 1, by omega⟩
    unfold bserial_auto_pop
    rw [if_pos (by simp [curScope, hsc, List.replicate_succ, arrMid, freshScope])]
    have hpop : bserial_pop_scope c =
        (.ok, { c with schema_top := 0, scopes := List.replicate k arrMid ++ [rootScope] }) := by
      simp [bserial_pop_scope, hok, curScope, hsc, List.replicate_succ, arrMid,
        freshScope, rootScope, htop]
    simp only [hpop]
    have := ih { c with schema_top := 0, scopes := List.replicate k arrMid ++ [rootScope] }
      fuel hok rfl rfl (by omega)
    rw [this, htop]

theorem end_op_numeric_nest {c : Ctx} (k : Nat) (hok : c.status = .ok)
    (htop : c.schema_top = 0)
    (hsc : c.scopes = List.replicate (k + 1) arrMid ++ [rootScope]) :
    bserial_end_op c .numeric = (.ok, { c with scopes := [rootScope] }) := by
  unfold bserial_end_op
  rw [if_neg (status_ne_false hok)]
  rw [if_neg (show ¬(((curScope c).type = ScopeType.blob ∧ OpType.numeric = OpType.blob) ∨
      ((curScope c).type = ScopeType.record ∧ OpType.numeric = OpType.record)) by
    simp [curScope, hsc, List.replicate_succ, arrMid, freshScope])]
  show bserial_auto_pop c.scopes.length c = _
  exact auto_pop_nest (k + 1) c _ hok htop hsc
    (by rw [hsc]; simp [List.length_replicate])

/-- Writing the innermost uint closes the whole nest. -/
theorem uint_write_nest (cfg : Config) (k : Nat) :
    bserial_uint (midWrite cfg (k + 1)) 7 =
      (.ok, 7, { bserial_make_ctx cfg .write [] with
        output := openBytes (k + 1) ++ 1 :: bserial_write_uint 7 }) := by
  have hbegin : bserial_begin_op (midWrite cfg (k + 1)) .numeric =
      (.ok, { midWrite cfg (k + 1) with
        scopes := List.replicate (k + 1) arrMid ++ [rootScope] }) := by
    simp [bserial_begin_op, midWrite, nestedScopes, curScope, arrTop, arrMid,
      freshScope, withCur, bserial_make_ctx, List.replicate_succ]
  have hend := end_op_numeric_nest (c := { midWrite cfg (k + 1) with scopes := List.replicate (k + 1) arrMid ++ [rootScope], status := Status.ok, output := openBytes (k + 1) ++ 1 :: bserial_write_uint 7 }) k rfl rfl rfl
  simp only [bserial_uint, hbegin]
  simp only [midWrite, bserial_make_ctx]
  simp only [midWrite, bserial_make_ctx] at hend
  simp [hend, midWrite, bserial_make_ctx]

theorem nestedBytes_unfold {d k : Nat} (h : k < d) :
    nestedBytes (d - k) = 8 :: (bserial_write_uint 1 ++ nestedBytes (d - (k + 1))) := by
  obtain ⟨m, hm⟩ : ∃ m, d - k = m + 1 := ⟨d - k - 1, by omega⟩
  rw [hm, show d - (k + 1) = m by omega]
  rfl

theorem read_open_step (cfg : Config) (d k : Nat) (hk : k + 1 ≠ cfg.max_depth)
    (hkd : k < d) :
    bserial_array (midRead cfg d k) 0 = (.ok, 1, midRead cfg d (k + 1)) := by
  have hin := nestedBytes_unfold (d := d) (k := k) hkd
  have hru := read_write_uint (x := 1) (by norm_num) (nestedBytes (d - (k + 1)))
  cases k with
  | zero =>
    unfold midRead
    rw [hin]
    simp [bserial_array, bserial_begin_op, nestedScopes, curScope,
      rootScope, freshScope, bserial_make_ctx, bserial_push_scope, hk,
      bserial_marker_and_length, withCur, arrTop, ctxMalformed, ctxRead, hru]
  | succ k =>
    unfold midRead
    rw [hin]
    simp [bserial_array, bserial_begin_op, nestedScopes, curScope,
      rootScope, freshScope, bserial_make_ctx, bserial_push_scope,
      nestedScopes_length, hk, bserial_marker_and_length, withCur, arrTop,
      arrMid, ctxMalformed, ctxRead, hru, List.replicate_succ]

theorem read_open_fail (cfg : Config) (d k : Nat) (hk : k + 1 = cfg.max_depth) :
    (bserial_array (midRead cfg d k) 0).1 = .malformed ∧
    (bserial_array (midRead cfg d k) 0).2.2.status = .malformed := by
  cases k with
  | zero =>
    simp [bserial_array, bserial_begin_op, midRead, nestedScopes, curScope,
      rootScope, freshScope, bserial_make_ctx, bserial_push_scope, ← hk,
      bserial_marker_and_length, withCur, arrTop, ctxMalformed]
  | succ k =>
    simp [bserial_array, bserial_begin_op, midRead, nestedScopes, curScope,
      rootScope, freshScope, bserial_make_ctx, bserial_push_scope,
      nestedScopes_length, ← hk, bserial_marker_and_length, withCur, arrTop,
      arrMid, ctxMalformed, List.replicate_succ]

/-- Reading the innermost uint closes the whole nest. -/
theorem uint_read_nest (cfg : Config) (d k : Nat) (hd : d - (k + 1) = 0) :
    bserial_uint (midRead cfg d (k + 1)) 0 =
      (.ok, 7, { bserial_make_ctx cfg .read (nestedBytes d) with
        input := [], scopes := [rootScope] }) := by
  have hbegin : bserial_begin_op (midRead cfg d (k + 1)) .numeric =
      (.ok, { midRead cfg d (k + 1) with
        scopes := List.replicate (k + 1) arrMid ++ [rootScope] }) := by
    simp [bserial_begin_op, midRead, nestedScopes, curScope, arrTop, arrMid,
      freshScope, withCur, bserial_make_ctx, List.replicate_succ]
  have hru := read_write_uint (x := 7) (by norm_num) ([] : List Nat)
  simp only [List.append_nil] at hru
  have hrm : bserial_read_marker { midRead cfg d (k + 1) with
      scopes := List.replicate (k + 1) arrMid ++ [rootScope] } =
      (.ok, 1, { midRead cfg d (k + 1) with
        scopes := List.replicate (k + 1) arrMid ++ [rootScope],
        status := Status.ok, input := bserial_write_uint 7 }) := by
    have : nestedBytes (d - (k + 1)) = 1 :: bserial_write_uint 7 := by rw [hd]; rfl
    simp [bserial_read_marker, midRead, bserial_make_ctx, this]
  have hend := end_op_numeric_nest (c := { midRead cfg d (k + 1) with scopes := List.replicate (k + 1) arrMid ++ [rootScope], status := Status.ok, input := [] }) k rfl rfl rfl
  simp only [bserial_uint, hbegin]
  simp only [midRead, bserial_make_ctx] at hrm hend ⊢
  simp [hrm, hru, hend]

theorem openBytes_succ_front (k : Nat) :
    openBytes (k + 1) = 8 :: (bserial_write_uint 1 ++ openBytes k) := by
  induction k with
  | zero => rfl
  | succ k ih =>
    have h2 : openBytes (k + 2) = openBytes (k + 1) ++ 8 :: bserial_write_uint 1 := rfl
    have h1 : openBytes (k + 1) = openBytes k ++ 8 :: bserial_write_uint 1 := rfl
    rw [h2]
    nth_rewrite 1 [ih]
    rw [h1]
    simp

theorem nestedBytes_eq_openBytes (d : Nat) :
    nestedBytes d = openBytes d ++ 1 :: bserial_write_uint 7 := by
  induction d with
  | zero => rfl
  | succ d ih =>
    rw [show nestedBytes (d + 1) = 8 :: (bserial_write_uint 1 ++ nestedBytes d) from rfl,
      ih, openBytes_succ_front]
    simp

theorem writeNested_chain (cfg : Config) : ∀ j k, 1 ≤ k → k + 1 ≤ cfg.max_depth →
    (k + j + 1 ≤ cfg.max_depth →
      writeNested j (midWrite cfg k) =
        (.ok, { bserial_make_ctx cfg .write [] with
          output := openBytes (k + j) ++ 1 :: bserial_write_uint 7 })) ∧
    (cfg.max_depth < k + j + 1 →
      (writeNested j (midWrite cfg k)).1 = .malformed ∧
      (writeNested j (midWrite cfg k)).2.status = .malformed) := by
  intro j
  induction j with
  | zero =>
    intro k hk1 hkd
    obtain ⟨k, rfl⟩ : ∃ m, k = m + 1 := ⟨k - 1, by omega⟩
    constructor
    · intro _
      show (match bserial_uint (midWrite cfg (k + 1)) 7 with | (s, _, c) => (s, c)) = _
      rw [uint_write_nest cfg k]
    · intro hcon
      omega
  | succ j ih =>
    intro k hk1 hkd
    by_cases hfull : k + 1 = cfg.max_depth
    · obtain ⟨hf1, hf2⟩ := write_open_fail cfg k hfull
      rcases harr : bserial_array (midWrite cfg k) 1 with ⟨s, l, c2⟩
      rw [harr] at hf1 hf2
      simp only at hf1 hf2
      subst hf1
      constructor
      · intro hacc
        omega
      · intro _
        simp only [writeNested]
        rw [harr]
        exact ⟨rfl, hf2⟩
    · have hstep := write_open_step cfg k hfull
      have hrec := ih (k + 1) (by omega) (by omega)
      constructor
      · intro hacc
        simp only [writeNested]
        rw [hstep]
        have hgoal := hrec.1 (by omega)
        rw [show k + 1 + j = k + (j + 1) by omega] at hgoal
        exact hgoal
      · intro hrej
        simp only [writeNested]
        rw [hstep]
        exact hrec.2 (by omega)

theorem readNested_chain (cfg : Config) (d : Nat) : ∀ j k, 1 ≤ k →
    k + 1 ≤ cfg.max_depth → k + j = d →
    (k + j + 1 ≤ cfg.max_depth →
      readNested j (midRead cfg d k) =
        (.ok, { bserial_make_ctx cfg .read (nestedBytes d) with
          input := [], scopes := [rootScope] })) ∧
    (cfg.max_depth < k + j + 1 →
      (readNested j (midRead cfg d k)).1 = .malformed ∧
      (readNested j (midRead cfg d k)).2.status = .malformed) := by
  intro j
  induction j with
  | zero =>
    intro k hk1 hkd hsum
    obtain ⟨k, rfl⟩ : ∃ m, k = m + 1 := ⟨k - 1, by omega⟩
    constructor
    · intro _
      show (match bserial_uint (midRead cfg d (k + 1)) 0 with | (s, _, c) => (s, c)) = _
      rw [uint_read_nest cfg d k (by omega)]
    · intro hcon
      omega
  | succ j ih =>
    intro k hk1 hkd hsum
    by_cases hfull : k + 1 = cfg.max_depth
    · obtain ⟨hf1, hf2⟩ := read_open_fail cfg d k hfull
      rcases harr : bserial_array (midRead cfg d k) 0 with ⟨s, l, c2⟩
      rw [harr] at hf1 hf2
      simp only at hf1 hf2
      subst hf1
      constructor
      · intro hacc
        omega
      · intro _
        simp only [readNested]
        rw [harr]
        exact ⟨rfl, hf2⟩
    · have hstep := read_open_step cfg d k hfull (by omega)
      have hrec := ih (k + 1) (by omega) (by omega) (by omega)
      constructor
      · intro hacc
        simp only [readNested]
        rw [hstep]
        exact hrec.1 (by omega)
      · intro hrej
        simp only [readNested]
        rw [hstep]
        exact hrec.2 (by omega)

/-- C6, counterexample: with `max_depth = 2`, a value nested to depth
exactly `max_depth` — `[[7]]` — is rejected with `Malformed` on write (and
on read), while depth `max_depth - 1` is accepted; the claim says depth
exactly `max_depth` is accepted. -/
theorem claim_C6_counterexample :
    (writeNested 2 (bserial_make_ctx ⟨8, 8, 8, 2⟩ .write [])).1 = .malformed ∧
    (readNested 2 (bserial_make_ctx ⟨8, 8, 8, 2⟩ .read (nestedBytes 2))).1 = .malformed ∧
    (writeNested 1 (bserial_make_ctx ⟨8, 8, 8, 2⟩ .write [])).1 = .ok := by
  refine ⟨by decide, by decide, by decide⟩

/-- C6, amended: the scope stack holds `max_depth` frames including the
root, so a value nested to depth at most `max_depth - 1` is accepted and
a value nested to depth `max_depth` or deeper is rejected with `Malformed`
on both the write and the read path (the scope push fails); rejection is
never silent truncation.  Stated over chains of `d` nested single-element
arrays around a uint. -/
theorem claim_C6_depth_amended (cfg : Config) (d : Nat) (hd : 1 ≤ cfg.max_depth) :
    (d + 1 ≤ cfg.max_depth →
      writeNested d (bserial_make_ctx cfg .write []) =
        (.ok, { bserial_make_ctx cfg .write [] with output := nestedBytes d }) ∧
      readNested d (bserial_make_ctx cfg .read (nestedBytes d)) =
        (.ok, { bserial_make_ctx cfg .read (nestedBytes d) with input := [] })) ∧
    (cfg.max_depth < d + 1 →
      (writeNested d (bserial_make_ctx cfg .write [])).1 = .malformed ∧
      (writeNested d (bserial_make_ctx cfg .write [])).2.status = .malformed ∧
      (readNested d (bserial_make_ctx cfg .read (nestedBytes d))).1 = .malformed ∧
      (readNested d (bserial_make_ctx cfg .read (nestedBytes d))).2.status = .malformed) := by
  cases d with
  | zero =>
    constructor
    · intro _
      constructor
      · show (match bserial_uint (bserial_make_ctx cfg .write []) 7 with
          | (s, _, c) => (s, c)) = _
        rw [uint_write_ok 7 rfl rfl (make_ctx_plain cfg .write [])]
        rfl
      · show (match bserial_uint (bserial_make_ctx cfg .read (nestedBytes 0)) 0 with
          | (s, _, c) => (s, c)) = _
        have hi : (bserial_make_ctx cfg .read (nestedBytes 0)).input =
            1 :: (bserial_write_uint 7 ++ []) := by
          simp [bserial_make_ctx, nestedBytes]
        rw [uint_read_ok 0 rfl rfl rfl (make_ctx_plain cfg .read _) (by norm_num) hi]
    · intro hcon
      omega
  | succ j =>
    have hmidw : midWrite cfg 0 = bserial_make_ctx cfg .write [] := rfl
    have hmidr : midRead cfg (j + 1) 0 = bserial_make_ctx cfg .read (nestedBytes (j + 1)) := rfl
    by_cases hone : (1 : Nat) = cfg.max_depth
    · obtain ⟨hwf1, hwf2⟩ := write_open_fail cfg 0 hone
      obtain ⟨hrf1, hrf2⟩ := read_open_fail cfg (j + 1) 0 hone
      rw [hmidw] at hwf1 hwf2
      rw [hmidr] at hrf1 hrf2
      constructor
      · intro hacc
        omega
      · intro _
        rcases harw : bserial_array (bserial_make_ctx cfg .write []) 1 with ⟨s, l, c2⟩
        rcases harr : bserial_array (bserial_make_ctx cfg .read (nestedBytes (j + 1))) 0 with ⟨s', l', c2'⟩
        rw [harw] at hwf1 hwf2
        rw [harr] at hrf1 hrf2
        simp only at hwf1 hwf2 hrf1 hrf2
        subst hwf1
        subst hrf1
        refine ⟨?_, ?_, ?_, ?_⟩
        · simp only [writeNested]
          rw [harw]
        · simp only [writeNested]
          rw [harw]
          exact hwf2
        · simp only [readNested]
          rw [harr]
        · simp only [readNested]
          rw [harr]
          exact hrf2
    · have hwstep := write_open_step cfg 0 hone
      have hrstep := read_open_step cfg (j + 1) 0 hone (by omega)
      rw [hmidw] at hwstep
      rw [hmidr] at hrstep
      simp only [Nat.zero_add] at hwstep hrstep
      have hwchain := writeNested_chain cfg j 1 (by omega) (by omega)
      have hrchain := readNested_chain cfg (j + 1) j 1 (by omega) (by omega) (by omega)
      constructor
      · intro hacc
        constructor
        · have hgoal := hwchain.1 (by omega)
          rw [show (1 : Nat) + j = j + 1 by omega, ← nestedBytes_eq_openBytes (j + 1)] at hgoal
          simp only [writeNested]
          rw [hwstep]
          exact hgoal
        · have hgoal := hrchain.1 (by omega)
          simp only [readNested]
          rw [hrstep]
          exact hgoal
      · intro hrej
        have hw := hwchain.2 (by omega)
        have hr := hrchain.2 (by omega)
        refine ⟨?_, ?_, ?_, ?_⟩
        · simp only [writeNested]
          rw [hwstep]
          exact hw.1
        · simp only [writeNested]
          rw [hwstep]
          exact hw.2
        · simp only [readNested]
          rw [hrstep]
          exact hr.1
        · simp only [readNested]
          rw [hrstep]
          exact hr.2

theorem claim_C6_witness :
    (1 : Nat) ≤ 3 ∧ (2 : Nat) + 1 ≤ 3 ∧
    writeNested 2 (bserial_make_ctx ⟨8, 8, 8, 3⟩ .write []) =
      (.ok, { bserial_make_ctx ⟨8, 8, 8, 3⟩ .write [] with output := nestedBytes 2 }) := by
  refine ⟨by norm_num, by norm_num, ?_⟩
  exact ((claim_C6_depth_amended ⟨8, 8, 8, 3⟩ 2 (by norm_num)).1 (by norm_num)).1



/-!
## C8: symbol interning and deduplication
-/

/-- The double-hashing step `(uint32_t)((hash >> (64 - exp)) | 1)` of
`bserial_lookup_index`. -/
def probeStep (hash exp : Nat) : Nat := hash >>> (64 - exp) % 2 ^ 32 ||| 1

/-- The probe positions: `probeSeq hash exp i0 k` is the slot inspected at
the `k`-th iteration of the write loop started at `i0`. -/
def probeSeq (hash exp i0 : Nat) : Nat → Nat
  | 0 => i0
  | k + 1 => bserial_lookup_index hash exp (probeSeq hash exp i0 k)

theorem probeStep_odd (hash exp : Nat) : probeStep hash exp % 2 = 1 := by
  unfold probeStep
  rw [Nat.mod_two_eq_one_iff_testBit_zero, Nat.testBit_or]
  simp

theorem lookup_eq (hash exp i : Nat) (he : exp ≤ 32) :
    bserial_lookup_index hash exp i = (i + probeStep hash exp) % 2 ^ exp := by
  unfold bserial_lookup_index probeStep
  exact Nat.mod_mod_of_dvd _ (Nat.pow_dvd_pow 2 he)

theorem probeSeq_closed (hash exp i0 : Nat) (he : exp ≤ 32) (k : Nat) (hk : 1 ≤ k) :
    probeSeq hash exp i0 k = (i0 + k * probeStep hash exp) % 2 ^ exp := by
  induction k with
  | zero => omega
  | succ k ih =>
    rcases Nat.eq_zero_or_pos k with h1 | h1
    · subst h1
      show bserial_lookup_index hash exp i0 = _
      rw [lookup_eq _ _ _ he]
      congr 1
      ring
    · have ih := ih h1
      show bserial_lookup_index hash exp (probeSeq hash exp i0 k) = _
      rw [lookup_eq _ _ _ he, ih, Nat.mod_add_mod]
      congr 1
      ring

theorem probeStep_coprime (hash exp : Nat) : Nat.Coprime (probeStep hash exp) (2 ^ exp) :=
  Nat.Coprime.pow_right exp
    (Nat.coprime_two_right.mpr (Nat.odd_iff.mpr (probeStep_odd hash exp)))

theorem probe_modeq_cancel {hash exp i0 a b : Nat}
    (ha : a ≤ 2 ^ exp) (hb : b ≤ 2 ^ exp) (ha1 : 1 ≤ a) (hb1 : 1 ≤ b)
    (h : (i0 + a * probeStep hash exp) % 2 ^ exp = (i0 + b * probeStep hash exp) % 2 ^ exp) :
    a = b := by
  have h1 : a * probeStep hash exp ≡ b * probeStep hash exp [MOD 2 ^ exp] :=
    Nat.ModEq.add_left_cancel' i0 h
  have h2 : a ≡ b [MOD 2 ^ exp] := h1.cancel_right_of_coprime (probeStep_coprime hash exp).symm
  have hm : 0 < 2 ^ exp := Nat.pos_pow_of_pos exp (by norm_num)
  rcases Nat.lt_or_ge a (2 ^ exp) with hau | hau
  · rcases Nat.lt_or_ge b (2 ^ exp) with hbu | hbu
    · rw [Nat.ModEq, Nat.mod_eq_of_lt hau, Nat.mod_eq_of_lt hbu] at h2
      exact h2
    · have hbm : b = 2 ^ exp := by omega
      subst hbm
      rw [Nat.ModEq, Nat.mod_eq_of_lt hau, Nat.mod_self] at h2
      omega
  · have ham : a = 2 ^ exp := by omega
    subst ham
    rw [Nat.ModEq, Nat.mod_self] at h2
    have := Nat.le_of_dvd (by omega) (Nat.dvd_of_mod_eq_zero h2.symm)
    omega

theorem probe_exists_hit (hash exp i0 t : Nat) (ht : t < 2 ^ exp) :
    ∃ k, 1 ≤ k ∧ k ≤ 2 ^ exp ∧ (i0 + k * probeStep hash exp) % 2 ^ exp = t := by
  have hm : 0 < 2 ^ exp := Nat.pos_pow_of_pos exp (by norm_num)
  have hinj : Function.Injective (fun k : Fin (2 ^ exp) =>
      (⟨(i0 + (k.1 + 1) * probeStep hash exp) % 2 ^ exp, Nat.mod_lt _ hm⟩ : Fin (2 ^ exp))) := by
    intro a b hab
    have h := congrArg Fin.val hab
    simp only at h
    have := probe_modeq_cancel
      (by omega : a.1 + 1 ≤ 2 ^ exp) (by omega : b.1 + 1 ≤ 2 ^ exp)
      (by omega) (by omega) h
    exact Fin.ext (by omega)
  obtain ⟨k, hk⟩ := (Finite.injective_iff_surjective.mp hinj) ⟨t, ht⟩
  have h := congrArg Fin.val hk
  exact ⟨k.1 + 1, by omega, by omega, h⟩

def slotVal (c : Ctx) (p : Nat) : Nat := c.symtab_index.getD p 0

/-- The slot probed for `name` at the `k`-th iteration of the write loop. -/
def symPos (c : Ctx) (name : List Nat) (k : Nat) : Nat :=
  probeSeq (bserial_hash name) c.symtab_exp (bserial_hash name % 2 ^ 32) k

theorem probeSeq_shift (hash exp i0 : Nat) (m : Nat) :
    probeSeq hash exp (probeSeq hash exp i0 1) m = probeSeq hash exp i0 (m + 1) := by
  induction m with
  | zero => rfl
  | succ m ih =>
    show bserial_lookup_index hash exp (probeSeq hash exp (probeSeq hash exp i0 1) m) = _
    rw [ih]
    rfl

theorem write_loop_step {c : Ctx} {name : List Nat} {hash i fuel : Nat}
    (hv : c.symtab_index.getD (bserial_lookup_index hash c.symtab_exp i) 0 ≠ 0)
    (hm : ¬((c.symtab.getD (c.symtab_index.getD (bserial_lookup_index hash c.symtab_exp i) 0 - 1)
        defaultSym).len = name.length ∧
      (c.symtab.getD (c.symtab_index.getD (bserial_lookup_index hash c.symtab_exp i) 0 - 1)
        defaultSym).buf = name)) :
    bserial_symbol_write_loop (fuel + 1) c name hash i =
      bserial_symbol_write_loop fuel c name hash (bserial_lookup_index hash c.symtab_exp i) := by
  simp only [bserial_symbol_write_loop]
  rw [if_neg hv, if_neg hm]

theorem write_loop_found {c : Ctx} {name : List Nat} {hash i fuel : Nat}
    (hv : c.symtab_index.getD (bserial_lookup_index hash c.symtab_exp i) 0 ≠ 0)
    (hm : (c.symtab.getD (c.symtab_index.getD (bserial_lookup_index hash c.symtab_exp i) 0 - 1)
        defaultSym).len = name.length ∧
      (c.symtab.getD (c.symtab_index.getD (bserial_lookup_index hash c.symtab_exp i) 0 - 1)
        defaultSym).buf = name) :
    bserial_symbol_write_loop (fuel + 1) c name hash i =
      (.ok, { c with
        status := .ok
        output := c.output ++ 7 ::
          bserial_write_uint (c.symtab_index.getD (bserial_lookup_index hash c.symtab_exp i) 0 - 1) }) := by
  simp only [bserial_symbol_write_loop]
  rw [if_neg hv, if_pos hm]

theorem write_loop_empty {c : Ctx} {name : List Nat} {hash i fuel : Nat}
    (hv : c.symtab_index.getD (bserial_lookup_index hash c.symtab_exp i) 0 = 0)
    (hroom : ¬c.config.max_num_symbols ≤ c.symtab.length) :
    bserial_symbol_write_loop (fuel + 1) c name hash i =
      (.ok, { c with
        symtab := c.symtab ++ [⟨name, name.length⟩]
        symtab_index := c.symtab_index.set (bserial_lookup_index hash c.symtab_exp i)
          (c.symtab.length + 1)
        status := .ok
        output := c.output ++ 6 :: bserial_write_uint name.length ++ name }) := by
  simp only [bserial_symbol_write_loop]
  rw [if_pos hv, if_neg hroom]

theorem write_loop_hits {c : Ctx} {name : List Nat} {hash : Nat} :
    ∀ (k : Nat) (fuel i : Nat), k < fuel →
    (∀ m, m < k →
      c.symtab_index.getD (probeSeq hash c.symtab_exp i (m + 1)) 0 ≠ 0 ∧
      ¬((c.symtab.getD (c.symtab_index.getD (probeSeq hash c.symtab_exp i (m + 1)) 0 - 1)
          defaultSym).len = name.length ∧
        (c.symtab.getD (c.symtab_index.getD (probeSeq hash c.symtab_exp i (m + 1)) 0 - 1)
          defaultSym).buf = name)) →
    bserial_symbol_write_loop fuel c name hash i =
      bserial_symbol_write_loop (fuel - k) c name hash (probeSeq hash c.symtab_exp i k) := by
  intro k
  induction k with
  | zero =>
    intro fuel i _ _
    rfl
  | succ k ih =>
    intro fuel i hf hpath
    obtain ⟨fuel, rfl⟩ : ∃ f, fuel = f + 1 := ⟨fuel - 1, by omega⟩
    have h0 := hpath 0 (by omega)
    have hps : probeSeq hash c.symtab_exp i 1 = bserial_lookup_index hash c.symtab_exp i := rfl
    simp only [Nat.zero_add, hps] at h0
    rw [write_loop_step h0.1 h0.2]
    have hrec := ih fuel (bserial_lookup_index hash c.symtab_exp i) (by omega) (by
      intro m hm
      have := hpath (m + 1) (by omega)
      rw [show (bserial_lookup_index hash c.symtab_exp i) = probeSeq hash c.symtab_exp i 1 from
        rfl, probeSeq_shift]
      exact this)
    rw [hrec, ← hps, probeSeq_shift, show fuel + 1 - (k + 1) = fuel - k from by omega]

/-- The well-formedness invariant of the write-side symbol table: the
open-addressing index has `2 ^ symtab_exp` slots, nonzero slots hold
distinct valid ids (`id + 1`), stored texts are distinct with `len`
caching the buffer length, and every stored symbol is reachable along its
own probe sequence with all earlier probed slots occupied. -/
structure SymInv (c : Ctx) : Prop where
  idx_len : c.symtab_index.length = 2 ^ c.symtab_exp
  exp_le : c.symtab_exp ≤ 32
  tab_le : c.symtab.length ≤ c.config.max_num_symbols
  max_lt : c.config.max_num_symbols < 2 ^ c.symtab_exp
  val_lt : ∀ p, slotVal c p ≠ 0 → slotVal c p - 1 < c.symtab.length
  val_inj : ∀ p < 2 ^ c.symtab_exp, ∀ q < 2 ^ c.symtab_exp,
    slotVal c p ≠ 0 → slotVal c p = slotVal c q → p = q
  len_eq : ∀ j < c.symtab.length,
    (c.symtab.getD j defaultSym).len = (c.symtab.getD j defaultSym).buf.length
  buf_inj : ∀ j < c.symtab.length, ∀ j2 < c.symtab.length,
    (c.symtab.getD j defaultSym).buf = (c.symtab.getD j2 defaultSym).buf → j = j2
  findable : ∀ j < c.symtab.length, ∃ k, 1 ≤ k ∧ k ≤ 2 ^ c.symtab_exp ∧
    slotVal c (symPos c (c.symtab.getD j defaultSym).buf k) = j + 1 ∧
    ∀ m, 1 ≤ m → m < k → slotVal c (symPos c (c.symtab.getD j defaultSym).buf m) ≠ 0

theorem exists_empty_slot {c : Ctx} (h : SymInv c) :
    ∃ p, p < 2 ^ c.symtab_exp ∧ slotVal c p = 0 := by
  by_contra hall
  push_neg at hall
  have hL : 0 < c.symtab.length := by
    have h0 := hall 0 (Nat.pos_pow_of_pos _ (by norm_num))
    have := h.val_lt 0 h0
    omega
  have hinj : Function.Injective (fun p : Fin (2 ^ c.symtab_exp) =>
      (⟨slotVal c p.1 - 1, h.val_lt p.1 (hall p.1 p.2)⟩ : Fin c.symtab.length)) := by
    intro a b hab
    have hv := congrArg Fin.val hab
    simp only at hv
    have ha := hall a.1 a.2
    have hb := hall b.1 b.2
    exact Fin.ext (h.val_inj a.1 a.2 b.1 b.2 ha (by omega))
  have hcard := Fintype.card_le_of_injective _ hinj
  simp only [Fintype.card_fin] at hcard
  have := h.tab_le
  have := h.max_lt
  omega

theorem symPos_lt {c : Ctx} (name : List Nat) {k : Nat} (hk : 1 ≤ k)
    (he : c.symtab_exp ≤ 32) : symPos c name k < 2 ^ c.symtab_exp := by
  unfold symPos
  rw [probeSeq_closed _ _ _ he k hk]
  exact Nat.mod_lt _ (Nat.pos_pow_of_pos _ (by norm_num))

theorem symPos_inj {c : Ctx} (name : List Nat) {k1 k2 : Nat}
    (hk1 : 1 ≤ k1) (hk1u : k1 ≤ 2 ^ c.symtab_exp) (hk2 : 1 ≤ k2) (hk2u : k2 ≤ 2 ^ c.symtab_exp)
    (he : c.symtab_exp ≤ 32) (h : symPos c name k1 = symPos c name k2) : k1 = k2 := by
  unfold symPos at h
  rw [probeSeq_closed _ _ _ he k1 hk1, probeSeq_closed _ _ _ he k2 hk2] at h
  exact probe_modeq_cancel hk1u hk2u hk1 hk2 h

theorem write_loop_insert {c : Ctx} {name : List Nat} (h : SymInv c)
    (hfresh : ∀ j < c.symtab.length, (c.symtab.getD j defaultSym).buf ≠ name)
    (hroom : c.symtab.length < c.config.max_num_symbols) :
    ∃ k, 1 ≤ k ∧ k ≤ 2 ^ c.symtab_exp ∧
      slotVal c (symPos c name k) = 0 ∧
      (∀ m, 1 ≤ m → m < k → slotVal c (symPos c name m) ≠ 0) ∧
      bserial_symbol_write_loop (2 ^ c.symtab_exp + 1) c name (bserial_hash name)
          (bserial_hash name % 2 ^ 32) =
        (.ok, { c with
          symtab := c.symtab ++ [⟨name, name.length⟩]
          symtab_index := c.symtab_index.set (symPos c name k) (c.symtab.length + 1)
          status := .ok
          output := c.output ++ 6 :: bserial_write_uint name.length ++ name }) := by
  obtain ⟨p, hp, hp0⟩ := exists_empty_slot h
  obtain ⟨k0, hk01, hk0u, hk0p⟩ :=
    probe_exists_hit (bserial_hash name) c.symtab_exp (bserial_hash name % 2 ^ 32) p hp
  have hsym0 : symPos c name k0 = p := by
    unfold symPos
    rw [probeSeq_closed _ _ _ h.exp_le k0 hk01]
    exact hk0p
  have hP : ∃ m, slotVal c (symPos c name (m + 1)) = 0 :=
    ⟨k0 - 1, by rw [show k0 - 1 + 1 = k0 from by omega, hsym0]; exact hp0⟩
  set kf := Nat.find hP with hkf
  have hkf0 : slotVal c (symPos c name (kf + 1)) = 0 := Nat.find_spec hP
  have hkfle : kf ≤ k0 - 1 := Nat.find_le (by
    rw [show k0 - 1 + 1 = k0 from by omega, hsym0]; exact hp0)
  have hkprev : ∀ m, 1 ≤ m → m < kf + 1 → slotVal c (symPos c name m) ≠ 0 := by
    intro m hm1 hmk
    have := Nat.find_min hP (m := m - 1) (by omega)
    rw [show m - 1 + 1 = m from by omega] at this
    exact this
  refine ⟨kf + 1, by omega, by omega, hkf0, hkprev, ?_⟩
  rw [write_loop_hits kf (2 ^ c.symtab_exp + 1) (bserial_hash name % 2 ^ 32) (by omega) (by
    intro m hm
    have hnz := hkprev (m + 1) (by omega) (by omega)
    refine ⟨hnz, ?_⟩
    rintro ⟨hlen, hbuf⟩
    have hjv := h.val_lt _ hnz
    exact hfresh _ hjv hbuf)]
  obtain ⟨f, hf⟩ : ∃ f, 2 ^ c.symtab_exp + 1 - kf = f + 1 := ⟨2 ^ c.symtab_exp - kf, by omega⟩
  rw [hf]
  have hlook : bserial_lookup_index (bserial_hash name) c.symtab_exp
      (probeSeq (bserial_hash name) c.symtab_exp (bserial_hash name % 2 ^ 32) kf) =
      symPos c name (kf + 1) := rfl
  rw [write_loop_empty (by rw [hlook]; exact hkf0) (by omega)]
  rw [hlook]

theorem write_loop_ref {c : Ctx} {name : List Nat} {j : Nat} (h : SymInv c)
    (hj : j < c.symtab.length) (hbuf : (c.symtab.getD j defaultSym).buf = name) :
    bserial_symbol_write_loop (2 ^ c.symtab_exp + 1) c name (bserial_hash name)
        (bserial_hash name % 2 ^ 32) =
      (.ok, { c with status := .ok, output := c.output ++ 7 :: bserial_write_uint j }) := by
  obtain ⟨k, hk1, hku, hhit, hprev⟩ := h.findable j hj
  rw [hbuf] at hhit hprev
  have hnomatch : ∀ m, 1 ≤ m → m < k →
      ¬((c.symtab.getD (slotVal c (symPos c name m) - 1) defaultSym).len = name.length ∧
        (c.symtab.getD (slotVal c (symPos c name m) - 1) defaultSym).buf = name) := by
    intro m hm1 hmk
    rintro ⟨hlen, hbm⟩
    have hnz := hprev m hm1 hmk
    have hjm := h.val_lt _ hnz
    have hjeq : slotVal c (symPos c name m) - 1 = j := by
      apply h.buf_inj _ hjm _ hj
      rw [hbm, hbuf]
    have hveq : slotVal c (symPos c name m) = j + 1 := by omega
    have hpos : symPos c name m = symPos c name k := by
      apply h.val_inj _ (symPos_lt name hm1 h.exp_le) _ (symPos_lt name hk1 h.exp_le) hnz
      rw [hveq, hhit]
    have := symPos_inj name hm1 (by omega) hk1 hku h.exp_le hpos
    omega
  obtain ⟨kf, rfl⟩ : ∃ m, k = m + 1 := ⟨k - 1, by omega⟩
  rw [write_loop_hits kf (2 ^ c.symtab_exp + 1) (bserial_hash name % 2 ^ 32) (by omega) (by
    intro m hm
    exact ⟨hprev (m + 1) (by omega) (by omega), hnomatch (m + 1) (by omega) (by omega)⟩)]
  obtain ⟨f, hf⟩ : ∃ f, 2 ^ c.symtab_exp + 1 - kf = f + 1 := ⟨2 ^ c.symtab_exp - kf, by omega⟩
  rw [hf]
  have hlook : bserial_lookup_index (bserial_hash name) c.symtab_exp
      (probeSeq (bserial_hash name) c.symtab_exp (bserial_hash name % 2 ^ 32) kf) =
      symPos c name (kf + 1) := rfl
  have hlen : (c.symtab.getD j defaultSym).len = name.length := by
    rw [h.len_eq j hj, hbuf]
  have hvg : c.symtab_index.getD (symPos c name (kf + 1)) 0 = j + 1 := hhit
  rw [write_loop_found (by rw [hlook, hvg]; omega)
    (by rw [hlook, hvg]; simp only [Nat.add_sub_cancel]; exact ⟨hlen, hbuf⟩)]
  rw [hlook, hvg]
  simp only [Nat.add_sub_cancel]

theorem SymInv_insert {c : Ctx} {name : List Nat} {k : Nat} (h : SymInv c)
    (hfresh : ∀ j < c.symtab.length, (c.symtab.getD j defaultSym).buf ≠ name)
    (hroom : c.symtab.length < c.config.max_num_symbols)
    (hk1 : 1 ≤ k) (hku : k ≤ 2 ^ c.symtab_exp)
    (hp0 : slotVal c (symPos c name k) = 0)
    (hprev : ∀ m, 1 ≤ m → m < k → slotVal c (symPos c name m) ≠ 0) :
    SymInv { c with
      symtab := c.symtab ++ [⟨name, name.length⟩]
      symtab_index := c.symtab_index.set (symPos c name k) (c.symtab.length + 1)
      status := .ok
      output := c.output ++ 6 :: bserial_write_uint name.length ++ name } := by
  set p := symPos c name k with hpdef
  set L := c.symtab.length with hLdef
  set c2 : Ctx := { c with
      symtab := c.symtab ++ [⟨name, name.length⟩]
      symtab_index := c.symtab_index.set p (L + 1)
      status := .ok
      output := c.output ++ 6 :: bserial_write_uint name.length ++ name } with hc2
  have hplt : p < c.symtab_index.length := by
    rw [h.idx_len]
    exact symPos_lt name hk1 h.exp_le
  have hset : ∀ q, slotVal c2 q = if q = p then L + 1 else slotVal c q := by
    intro q
    by_cases hq : q = p
    · subst hq
      simp only [slotVal, hc2, if_pos rfl]
      simp [List.getD_eq_getElem?_getD, List.getElem?_set_self hplt]
    · simp only [slotVal, hc2, if_neg hq]
      simp [List.getD_eq_getElem?_getD, List.getElem?_set_ne (Ne.symm hq)]
  have htab : ∀ j, j < L → c2.symtab.getD j defaultSym = c.symtab.getD j defaultSym := by
    intro j hj
    show (c.symtab ++ [(⟨name, name.length⟩ : SymEntry)]).getD j defaultSym = _
    simp [List.getD_eq_getElem?_getD, List.getElem?_append_left hj]
  have htabL : c2.symtab.getD L defaultSym = ⟨name, name.length⟩ := by
    show (c.symtab ++ [(⟨name, name.length⟩ : SymEntry)]).getD c.symtab.length defaultSym = _
    simp [List.getD_eq_getElem?_getD]
  have hexp : c2.symtab_exp = c.symtab_exp := rfl
  have hlen2 : c2.symtab.length = L + 1 := by
    show (c.symtab ++ [(⟨name, name.length⟩ : SymEntry)]).length = L + 1
    simp
  have hsympos : ∀ nm m, symPos c2 nm m = symPos c nm m := fun _ _ => rfl
  refine ⟨?_, ?_, ?_, ?_, ?_, ?_, ?_, ?_, ?_⟩
  · show (c.symtab_index.set p (L + 1)).length = 2 ^ c.symtab_exp
    rw [List.length_set, h.idx_len]
  · exact h.exp_le
  · show c2.symtab.length ≤ c.config.max_num_symbols
    rw [hlen2]
    omega
  · exact h.max_lt
  · intro q hq
    rw [hset] at hq ⊢
    rw [hlen2]
    by_cases hqp : q = p
    · rw [if_pos hqp]
      omega
    · rw [if_neg hqp] at hq ⊢
      have := h.val_lt q hq
      omega
  · intro q1 hq1 q2 hq2 hnz heq
    rw [hexp] at hq1 hq2
    rw [hset] at hnz heq
    rw [hset] at heq
    by_cases h1 : q1 = p <;> by_cases h2 : q2 = p
    · rw [h1, h2]
    · rw [if_pos h1] at heq
      rw [if_neg h2] at heq
      have hzz : slotVal c q2 ≠ 0 := by omega
      have := h.val_lt q2 hzz
      omega
    · rw [if_neg h1] at heq hnz
      rw [if_pos h2] at heq
      have := h.val_lt q1 hnz
      omega
    · rw [if_neg h1] at heq hnz
      rw [if_neg h2] at heq
      exact h.val_inj q1 hq1 q2 hq2 hnz heq
  · intro j hj
    rw [hlen2] at hj
    rcases Nat.lt_or_ge j L with hjL | hjL
    · rw [htab j hjL]
      exact h.len_eq j hjL
    · have hjeq : j = L := by omega
      rw [hjeq, htabL]
  · intro j1 hj1 j2 hj2 heq
    rw [hlen2] at hj1 hj2
    rcases Nat.lt_or_ge j1 L with h1 | h1 <;> rcases Nat.lt_or_ge j2 L with h2 | h2
    · rw [htab j1 h1, htab j2 h2] at heq
      exact h.buf_inj j1 h1 j2 h2 heq
    · have hj2e : j2 = L := by omega
      rw [htab j1 h1, hj2e, htabL] at heq
      exact absurd heq (hfresh j1 h1)
    · have hj1e : j1 = L := by omega
      rw [hj1e, htabL, htab j2 h2] at heq
      exact absurd heq.symm (hfresh j2 h2)
    · omega
  · intro j hj
    rw [hlen2] at hj
    rcases Nat.lt_or_ge j L with hjL | hjL
    · obtain ⟨kj, hkj1, hkju, hkhit, hkprev⟩ := h.findable j hjL
      refine ⟨kj, hkj1, by rw [hexp]; exact hkju, ?_, ?_⟩
      · rw [htab j hjL, hsympos, hset]
        have hne : symPos c (c.symtab.getD j defaultSym).buf kj ≠ p := by
          intro hcon
          rw [hcon] at hkhit
          omega
        rw [if_neg hne]
        exact hkhit
      · intro m hm1 hmk
        rw [htab j hjL, hsympos, hset]
        by_cases hmp : symPos c (c.symtab.getD j defaultSym).buf m = p
        · rw [if_pos hmp]
          omega
        · rw [if_neg hmp]
          exact hkprev m hm1 hmk
    · have hjeq : j = L := by omega
      subst hjeq
      refine ⟨k, hk1, by rw [hexp]; exact hku, ?_, ?_⟩
      · rw [htabL, hsympos, hset]
        simp
      · intro m hm1 hmk
        rw [htabL, hsympos, hset]
        by_cases hmp : symPos c name m = p
        · rw [if_pos hmp]
          omega
        · rw [if_neg hmp]
          exact hprev m hm1 hmk

theorem symtabExpLoop_spec : ∀ fuel e target, target ≤ 2 ^ 32 → e ≤ 32 → 32 ≤ e + fuel →
    target ≤ 2 ^ symtabExpLoop fuel e target ∧ symtabExpLoop fuel e target ≤ 32 := by
  intro fuel
  induction fuel with
  | zero =>
    intro e t ht he hef
    have he32 : e = 32 := by omega
    subst he32
    exact ⟨ht, le_refl _⟩
  | succ f ih =>
    intro e t ht he hef
    by_cases hc : 2 ^ e < t
    · have hlt : e < 32 := by
        by_contra hcon
        have he32 : e = 32 := by omega
        subst he32
        omega
      have hrec := ih (e + 1) t ht (by omega) (by omega)
      unfold symtabExpLoop
      rw [if_pos hc]
      exact hrec
    · unfold symtabExpLoop
      rw [if_neg hc]
      exact ⟨by omega, he⟩

theorem symtabExp_spec (cfg : Config) (hmax : cfg.max_num_symbols ≤ 2 ^ 31) :
    cfg.max_num_symbols < 2 ^ symtabExp cfg ∧ symtabExp cfg ≤ 32 := by
  have h := symtabExpLoop_spec 32 2 (2 * cfg.max_num_symbols)
    (by norm_num at hmax ⊢; omega) (by norm_num) (by omega)
  have hp : 0 < 2 ^ symtabExpLoop 32 2 (2 * cfg.max_num_symbols) :=
    Nat.pos_pow_of_pos _ (by norm_num)
  exact ⟨by unfold symtabExp; omega, h.2⟩

theorem slotVal_fresh (cfg : Config) (mode : Mode) (input : List Nat) (p : Nat) :
    slotVal (bserial_make_ctx cfg mode input) p = 0 := by
  show (List.replicate (2 ^ symtabExp cfg) 0).getD p 0 = 0
  rw [List.getD_eq_getElem?_getD, List.getElem?_replicate]
  split <;> rfl

theorem SymInv_fresh (cfg : Config) (mode : Mode) (input : List Nat)
    (hmax : cfg.max_num_symbols ≤ 2 ^ 31) :
    SymInv (bserial_make_ctx cfg mode input) := by
  obtain ⟨hm, he⟩ := symtabExp_spec cfg hmax
  refine ⟨?_, he, ?_, hm, ?_, ?_, ?_, ?_, ?_⟩
  · show (List.replicate (2 ^ symtabExp cfg) 0).length = 2 ^ symtabExp cfg
    simp
  · show (0 : Nat) ≤ cfg.max_num_symbols
    omega
  · intro p hp
    exact absurd (slotVal_fresh cfg mode input p) hp
  · intro q1 _ q2 _ hnz _
    exact absurd (slotVal_fresh cfg mode input q1) hnz
  · intro j hj
    exact absurd hj (by show ¬j < ([] : List SymEntry).length; simp)
  · intro j hj
    exact absurd hj (by show ¬j < ([] : List SymEntry).length; simp)
  · intro j hj
    exact absurd hj (by show ¬j < ([] : List SymEntry).length; simp)

theorem symbol_write_ref {c : Ctx} {name : List Nat} {j : Nat} (h : SymInv c)
    (hok : c.status = .ok) (hmode : c.mode = .write) (hp : plainScope c)
    (hlen : name.length ≤ c.config.max_symbol_len)
    (hj : j < c.symtab.length) (hbuf : (c.symtab.getD j defaultSym).buf = name) :
    bserial_symbol c name = (.ok, name,
      { c with status := .ok, output := c.output ++ 7 :: bserial_write_uint j }) := by
  have hloop := write_loop_ref h hj hbuf
  have hend : bserial_end_op
      { c with status := Status.ok, output := c.output ++ 7 :: bserial_write_uint j } .symbol =
      (.ok, { c with status := Status.ok, output := c.output ++ 7 :: bserial_write_uint j }) :=
    end_op_symbol_plain rfl hp
  have h32 : (2 : Nat) ^ 32 = 4294967296 := by norm_num
  rw [h32] at hloop
  simp only [hmode, List.cons_append, List.append_assoc] at hloop hend
  simp [bserial_symbol, begin_op_symbol_plain hok hp, hmode, hloop, hend, Nat.not_lt.mpr hlen]

theorem symbol_write_insert {c : Ctx} {name : List Nat} (h : SymInv c)
    (hok : c.status = .ok) (hmode : c.mode = .write) (hp : plainScope c)
    (hlen : name.length ≤ c.config.max_symbol_len)
    (hfresh : ∀ j < c.symtab.length, (c.symtab.getD j defaultSym).buf ≠ name)
    (hroom : c.symtab.length < c.config.max_num_symbols) :
    ∃ k, 1 ≤ k ∧ k ≤ 2 ^ c.symtab_exp ∧
      slotVal c (symPos c name k) = 0 ∧
      (∀ m, 1 ≤ m → m < k → slotVal c (symPos c name m) ≠ 0) ∧
      bserial_symbol c name = (.ok, name, { c with
        symtab := c.symtab ++ [⟨name, name.length⟩]
        symtab_index := c.symtab_index.set (symPos c name k) (c.symtab.length + 1)
        status := .ok
        output := c.output ++ 6 :: bserial_write_uint name.length ++ name }) := by
  obtain ⟨k, hk1, hku, hp0, hprev, hloop⟩ := write_loop_insert h hfresh hroom
  refine ⟨k, hk1, hku, hp0, hprev, ?_⟩
  have hend : bserial_end_op { c with
      symtab := c.symtab ++ [⟨name, name.length⟩]
      symtab_index := c.symtab_index.set (symPos c name k) (c.symtab.length + 1)
      status := .ok
      output := c.output ++ 6 :: bserial_write_uint name.length ++ name } .symbol =
      (.ok, { c with
      symtab := c.symtab ++ [⟨name, name.length⟩]
      symtab_index := c.symtab_index.set (symPos c name k) (c.symtab.length + 1)
      status := .ok
      output := c.output ++ 6 :: bserial_write_uint name.length ++ name }) :=
    end_op_symbol_plain rfl hp
  have h32 : (2 : Nat) ^ 32 = 4294967296 := by norm_num
  rw [h32] at hloop
  simp only [hmode, List.cons_append, List.append_assoc] at hloop hend
  simp [bserial_symbol, begin_op_symbol_plain hok hp, hmode, hloop, hend, Nat.not_lt.mpr hlen]

theorem ctxRead_exact {c : Ctx} {name rest : List Nat} (hi : c.input = name ++ rest) :
    ctxRead c name.length = (.ok, name, { c with input := rest }) := by
  unfold ctxRead
  rw [hi, if_pos (by simp), List.take_left, List.drop_left]

theorem symbol_read_def_ok {c : Ctx} {name rest : List Nat} (x : List Nat)
    (hok : c.status = .ok) (hmode : c.mode = .read) (hmark : c.marker_buf = 255)
    (hp : plainScope c)
    (hroom : c.symtab.length < c.config.max_num_symbols)
    (hlen : name.length ≤ c.config.max_symbol_len) (hl64 : name.length < 2 ^ 64)
    (hi : c.input = 6 :: (bserial_write_uint name.length ++ (name ++ rest))) :
    bserial_symbol c x = (.ok, name,
      { c with
        status := .ok
        input := rest
        symtab := c.symtab ++ [⟨name, name.length⟩] }) := by
  have hrm := read_marker_cons hmark hi
  have hru := read_write_uint hl64 (name ++ rest)
  have hctx := ctxRead_exact
    (c := { c with status := Status.ok, input := name ++ rest })
    (show ({ c with status := Status.ok, input := name ++ rest } : Ctx).input =
      name ++ rest from rfl)
  have hend : bserial_end_op { c with
      status := Status.ok
      input := rest
      symtab := c.symtab ++ [⟨name, name.length⟩] } .symbol =
      (.ok, { c with
        status := Status.ok
        input := rest
        symtab := c.symtab ++ [⟨name, name.length⟩] }) :=
    end_op_symbol_plain rfl hp
  simp only [hmode, hok] at hrm hctx hend
  simp [bserial_symbol, begin_op_symbol_plain hok hp, hmode, hok, hrm, hru, hctx, hend,
    Nat.not_le.mpr hroom, Nat.not_lt.mpr hlen]

theorem symbol_read_ref_ok {c : Ctx} {sid : Nat} {rest : List Nat} (x : List Nat)
    (hok : c.status = .ok) (hmode : c.mode = .read) (hmark : c.marker_buf = 255)
    (hp : plainScope c)
    (hsid : sid < c.symtab.length) (hs64 : sid < 2 ^ 64)
    (hi : c.input = 7 :: (bserial_write_uint sid ++ rest)) :
    bserial_symbol c x = (.ok, (c.symtab.getD sid defaultSym).buf,
      { c with status := .ok, input := rest }) := by
  have hrm := read_marker_cons hmark hi
  have hru := read_write_uint hs64 rest
  have hend : bserial_end_op { c with status := Status.ok, input := rest } .symbol =
      (.ok, { c with status := Status.ok, input := rest }) :=
    end_op_symbol_plain rfl hp
  simp only [hmode, hok] at hrm hend
  simp [bserial_symbol, begin_op_symbol_plain hok hp, hmode, hok, hrm, hru, hend,
    Nat.not_le.mpr hsid]

/-- C8: writing the same symbol name twice through one write-mode context
emits exactly one `SymbolDef` (marker 6, varint length, text bytes) at the
first occurrence and a `SymbolRef` (marker 7) carrying the id assigned at
that first occurrence for the second — and, in general, for every later
occurrence from any well-formed context state; reading the resulting
stream resolves both occurrences to the identical text from the context's
string pool. -/
theorem claim_C8_symbol_dedup (cfg : Config) (name rest : List Nat)
    (hmax : cfg.max_num_symbols ≤ 2 ^ 31) (hroom : 1 ≤ cfg.max_num_symbols)
    (hlen : name.length ≤ cfg.max_symbol_len) (hl64 : name.length < 2 ^ 64) :
    (∃ c1, bserial_symbol (bserial_make_ctx cfg .write []) name = (.ok, name, c1) ∧
      c1.output = 6 :: bserial_write_uint name.length ++ name ∧
      c1.symtab = [⟨name, name.length⟩] ∧ c1.status = .ok ∧
      bserial_symbol c1 name =
        (.ok, name,
          { c1 with status := .ok, output := c1.output ++ 7 :: bserial_write_uint 0 })) ∧
    (∀ c j, SymInv c → c.status = .ok → c.mode = .write → plainScope c →
      j < c.symtab.length → (c.symtab.getD j defaultSym).buf = name →
      name.length ≤ c.config.max_symbol_len →
      bserial_symbol c name =
        (.ok, name,
          { c with status := .ok, output := c.output ++ 7 :: bserial_write_uint j })) ∧
    (∃ c2, bserial_symbol (bserial_make_ctx cfg .read
        (6 :: (bserial_write_uint name.length ++
          (name ++ (7 :: (bserial_write_uint 0 ++ rest)))))) [] = (.ok, name, c2) ∧
      c2.symtab = [⟨name, name.length⟩] ∧
      bserial_symbol c2 [] = (.ok, name, { c2 with status := .ok, input := rest })) := by
  have hfresh0 : SymInv (bserial_make_ctx cfg .write []) := SymInv_fresh cfg .write [] hmax
  refine ⟨?_, ?_, ?_⟩
  · obtain ⟨k, hk1, hku, hp0, hprev, hw⟩ := symbol_write_insert hfresh0 rfl rfl
      (make_ctx_plain cfg .write []) hlen
      (by intro j hj; exact absurd hj (by simp [bserial_make_ctx]))
      (by show (0 : Nat) < cfg.max_num_symbols; omega)
    refine ⟨_, hw, by simp [bserial_make_ctx], by simp [bserial_make_ctx], rfl, ?_⟩
    have hinv1 : SymInv { bserial_make_ctx cfg .write [] with
        symtab := (bserial_make_ctx cfg .write []).symtab ++ [⟨name, name.length⟩]
        symtab_index := (bserial_make_ctx cfg .write []).symtab_index.set
          (symPos (bserial_make_ctx cfg .write []) name k)
          ((bserial_make_ctx cfg .write []).symtab.length + 1)
        status := .ok
        output := (bserial_make_ctx cfg .write []).output ++
          6 :: bserial_write_uint name.length ++ name } :=
      SymInv_insert hfresh0
        (by intro j hj; exact absurd hj (by simp [bserial_make_ctx]))
        (by show (0 : Nat) < cfg.max_num_symbols; omega) hk1 hku hp0 hprev
    exact symbol_write_ref hinv1 rfl rfl (make_ctx_plain cfg .write []) hlen
      (by simp [bserial_make_ctx]) rfl
  · intro c j hc hok hmode hp hj hbuf hlenc
    exact symbol_write_ref hc hok hmode hp hlenc hj hbuf
  · have hi0 : (bserial_make_ctx cfg .read
        (6 :: (bserial_write_uint name.length ++
          (name ++ (7 :: (bserial_write_uint 0 ++ rest)))))).input =
        6 :: (bserial_write_uint name.length ++
          (name ++ (7 :: (bserial_write_uint 0 ++ rest)))) := rfl
    have hd := symbol_read_def_ok []
      rfl rfl rfl (make_ctx_plain cfg .read
        (6 :: (bserial_write_uint name.length ++
          (name ++ (7 :: (bserial_write_uint 0 ++ rest))))))
      (by show (0 : Nat) < cfg.max_num_symbols; omega) hlen hl64 hi0
    refine ⟨_, hd, by simp [bserial_make_ctx], ?_⟩
    have hi1 : ({ bserial_make_ctx cfg .read
        (6 :: (bserial_write_uint name.length ++
          (name ++ (7 :: (bserial_write_uint 0 ++ rest))))) with
        status := .ok
        input := 7 :: (bserial_write_uint 0 ++ rest)
        symtab := (bserial_make_ctx cfg .read
          (6 :: (bserial_write_uint name.length ++
            (name ++ (7 :: (bserial_write_uint 0 ++ rest)))))).symtab ++
          [⟨name, name.length⟩] } : Ctx).input =
        7 :: (bserial_write_uint 0 ++ rest) := rfl
    have hr := symbol_read_ref_ok (c := { bserial_make_ctx cfg .read
        (6 :: (bserial_write_uint name.length ++
          (name ++ (7 :: (bserial_write_uint 0 ++ rest))))) with
        status := .ok
        input := 7 :: (bserial_write_uint 0 ++ rest)
        symtab := (bserial_make_ctx cfg .read
          (6 :: (bserial_write_uint name.length ++
            (name ++ (7 :: (bserial_write_uint 0 ++ rest)))))).symtab ++
          [⟨name, name.length⟩] }) []
      rfl rfl rfl (make_ctx_plain cfg .read
        (6 :: (bserial_write_uint name.length ++
          (name ++ (7 :: (bserial_write_uint 0 ++ rest))))))
      (by simp [bserial_make_ctx]) (by norm_num) hi1
    rw [hr]
    simp [bserial_make_ctx]

theorem claim_C8_witness :
    (8 : Nat) ≤ 2 ^ 31 ∧ (1 : Nat) ≤ 8 ∧ (1 : Nat) ≤ 8 ∧ (1 : Nat) < 2 ^ 64 ∧
    (∃ c1, bserial_symbol (bserial_make_ctx ⟨8, 8, 8, 4⟩ .write []) [97] =
        (.ok, [97], c1) ∧
      c1.output = 6 :: bserial_write_uint 1 ++ [97] ∧
      c1.symtab = [⟨[97], 1⟩] ∧ c1.status = .ok ∧
      bserial_symbol c1 [97] =
        (.ok, [97],
          { c1 with status := .ok, output := c1.output ++ 7 :: bserial_write_uint 0 })) := by
  have h := claim_C8_symbol_dedup ⟨8, 8, 8, 4⟩ [97] [] (by norm_num) (by norm_num)
    (by norm_num) (by norm_num)
  exact ⟨by norm_num, by norm_num, by norm_num, by norm_num, h.1⟩


/-!
## C1/C7/C9: the record protocol
-/

/-- The wire bytes of one scalar field value (marker plus payload). -/
def valBytes : FieldVal → List Nat
  | .vuint v => 1 :: bserial_write_uint v
  | .vsint v => 2 :: bserial_write_sint v
  | .vf32 b => 3 :: bytesLE 4 b
  | .vf64 b => 4 :: bytesLE 8 b

/-- The C-representable values of each scalar kind. -/
def valValid : FieldVal → Bool
  | .vuint v => decide (v < 2 ^ 64)
  | .vsint v => decide (-(2 ^ 63) ≤ v ∧ v < 2 ^ 63)
  | .vf32 b => decide (b < 2 ^ 32)
  | .vf64 b => decide (b < 2 ^ 64)

/-- Two field values of the same scalar kind (the reader's default and the
wire value must agree on the marker). -/
def sameKind : FieldVal → FieldVal → Bool
  | .vuint _, .vuint _ => true
  | .vsint _, .vsint _ => true
  | .vf32 _, .vf32 _ => true
  | .vf64 _, .vf64 _ => true
  | _, _ => false

def symDefBytes (F : List DField) : List Nat :=
  F.flatMap fun f => 6 :: (bserial_write_uint f.name.length ++ f.name)

def valuesBytes (F : List DField) : List Nat := F.flatMap fun f => valBytes f.val

/-- The full wire image of a record written from scratch. -/
def recordBytes (F : List DField) : List Nat :=
  10 :: (bserial_write_uint F.length ++ (symDefBytes F ++ valuesBytes F))

theorem withCur_self {c : Ctx} (h : c.scopes ≠ []) : withCur c (curScope c) = c := by
  unfold withCur curScope
  cases hs : c.scopes with
  | nil => exact absurd hs h
  | cons s tail =>
    simp only [hs, List.headD_cons, List.tail_cons]
    rw [← hs]

theorem withCur_withCur (c : Ctx) (s s2 : Scope) :
    withCur (withCur c s) s2 = withCur c s2 := by
  unfold withCur
  simp

theorem curScope_withCur (c : Ctx) (s : Scope) : curScope (withCur c s) = s := rfl

theorem SymInv_withCur {c : Ctx} (s : Scope) (h : SymInv c) : SymInv (withCur c s) :=
  ⟨h.idx_len, h.exp_le, h.tab_le, h.max_lt, h.val_lt, h.val_inj, h.len_eq, h.buf_inj,
    h.findable⟩

theorem uint_read_buf {c : Ctx} {v : Nat} {rest : List Nat} (x : Nat)
    (hok : c.status = .ok) (hmode : c.mode = .read) (hmark : c.marker_buf = 1)
    (hp : plainScope c) (hv : v < 2 ^ 64)
    (hi : c.input = bserial_write_uint v ++ rest) :
    bserial_uint c x = (.ok, v, { c with marker_buf := 255, input := rest }) := by
  have hrm : bserial_read_marker c = (.ok, 1, { c with marker_buf := 255 }) := by
    unfold bserial_read_marker
    rw [hmark]
    norm_num
  have hru := read_write_uint hv rest
  have hend : bserial_end_op { c with marker_buf := 255, status := Status.ok, input := rest }
      .numeric =
      (.ok, { c with marker_buf := 255, status := Status.ok, input := rest }) :=
    end_op_numeric_plain rfl hp
  simp only [hmode, hok] at hrm hend
  simp [bserial_uint, begin_op_numeric_plain hok hp, hmode, hrm, hi, hru, hend, hok]

theorem sint_read_buf {c : Ctx} {v : Int} {rest : List Nat} (x : Int)
    (hok : c.status = .ok) (hmode : c.mode = .read) (hmark : c.marker_buf = 2)
    (hp : plainScope c) (hv0 : -(2 ^ 63) ≤ v) (hv1 : v < 2 ^ 63)
    (hi : c.input = bserial_write_sint v ++ rest) :
    bserial_sint c x = (.ok, v, { c with marker_buf := 255, input := rest }) := by
  have hrm : bserial_read_marker c = (.ok, 2, { c with marker_buf := 255 }) := by
    unfold bserial_read_marker
    rw [hmark]
    norm_num
  have hru := read_write_sint hv0 hv1 rest
  have hend : bserial_end_op { c with marker_buf := 255, status := Status.ok, input := rest }
      .numeric =
      (.ok, { c with marker_buf := 255, status := Status.ok, input := rest }) :=
    end_op_numeric_plain rfl hp
  simp only [hmode, hok] at hrm hend
  simp [bserial_sint, begin_op_numeric_plain hok hp, hmode, hrm, hi, hru, hend, hok]

theorem fieldValOp_write {c : Ctx} (v : FieldVal)
    (hok : c.status = .ok) (hmode : c.mode = .write) (hp : plainScope c) :
    fieldValOp c v = (.ok, v, { c with output := c.output ++ valBytes v }) := by
  cases v with
  | vuint x => simp [fieldValOp, uint_write_ok x hok hmode hp, valBytes]
  | vsint x => simp [fieldValOp, sint_write_ok x hok hmode hp, valBytes]
  | vf32 x => simp [fieldValOp, f32_write_ok x hok hmode hp, valBytes]
  | vf64 x => simp [fieldValOp, f64_write_ok x hok hmode hp, valBytes]

theorem fieldValOp_read {c : Ctx} {w : FieldVal} {rest : List Nat} (d : FieldVal)
    (hok : c.status = .ok) (hmode : c.mode = .read) (hmark : c.marker_buf = 255)
    (hp : plainScope c) (hv : valValid w = true) (hk : sameKind d w = true)
    (hi : c.input = valBytes w ++ rest) :
    fieldValOp c d = (.ok, w, { c with input := rest }) := by
  cases w with
  | vuint x =>
    cases d <;> simp only [sameKind] at hk
    all_goals try exact absurd hk (by decide)
    simp only [valValid, decide_eq_true_eq] at hv
    simp only [valBytes, List.cons_append] at hi
    simp [fieldValOp, uint_read_ok _ hok hmode hmark hp hv hi]
  | vsint x =>
    cases d <;> simp only [sameKind] at hk
    all_goals try exact absurd hk (by decide)
    simp only [valValid, decide_eq_true_eq] at hv
    simp only [valBytes, List.cons_append] at hi
    simp [fieldValOp, sint_read_ok _ hok hmode hmark hp hv.1 hv.2 hi]
  | vf32 x =>
    cases d <;> simp only [sameKind] at hk
    all_goals try exact absurd hk (by decide)
    simp only [valValid, decide_eq_true_eq] at hv
    simp only [valBytes, List.cons_append] at hi
    simp [fieldValOp, f32_read_ok _ hok hmode hmark hp hv hi]
  | vf64 x =>
    cases d <;> simp only [sameKind] at hk
    all_goals try exact absurd hk (by decide)
    simp only [valValid, decide_eq_true_eq] at hv
    simp only [valBytes, List.cons_append] at hi
    simp [fieldValOp, f64_read_ok _ hok hmode hmark hp hv hi]

theorem skip_many_cons_eq (fuel : Nat) (c : Ctx) (depth : Nat) (jobs : List Nat) :
    bserial_skip_many (fuel + 1) c (depth :: jobs) =
    (match bserial_peek_marker c with
    | (.ok, marker, c) =>
      if marker = 1 then
        match bserial_uint c 0 with
        | (.ok, _, c) => bserial_skip_many fuel c jobs
        | (s, _, c) => (s, c)
      else if marker = 2 then
        match bserial_sint c 0 with
        | (.ok, _, c) => bserial_skip_many fuel c jobs
        | (s, _, c) => (s, c)
      else if marker = 3 then
        let c := bserial_discard_marker c
        match ctxSkip c 4 with
        | (.ok, c) => bserial_skip_many fuel { c with status := .ok } jobs
        | (s, c) => (s, { c with status := s })
      else if marker = 4 then
        let c := bserial_discard_marker c
        match ctxSkip c 8 with
        | (.ok, c) => bserial_skip_many fuel { c with status := .ok } jobs
        | (s, c) => (s, { c with status := s })
      else if marker = 5 then
        let c := bserial_discard_marker c
        match bserial_read_uint c.input with
        | (.ok, len, rest) =>
          let c := { c with input := rest }
          match ctxSkip c len with
          | (.ok, c) => bserial_skip_many fuel { c with status := .ok } jobs
          | (s, c) => (s, { c with status := s })
        | (s, _, rest) => (s, { c with input := rest })
      else if marker = 6 ∨ marker = 7 then
        match bserial_symbol c [] with
        | (.ok, _, c) => bserial_skip_many fuel c jobs
        | (s, _, c) => (s, c)
      else if marker = 8 then
        let c := bserial_discard_marker c
        match bserial_read_uint c.input with
        | (.ok, len, rest) =>
          let c := { c with input := rest }
          if 0 < len ∧ depth = 0 then ctxMalformed c
          else bserial_skip_many fuel c
            (List.replicate len (depthMinusOne depth) ++ jobs)
        | (s, _, rest) => (s, { c with input := rest })
      else if marker = 9 then
        let c := bserial_discard_marker c
        match bserial_read_uint c.input with
        | (.ok, rows, rest) =>
          let c := { c with input := rest }
          if 0 < rows ∧ depth = 0 then ctxMalformed c
          else
            match bserial_read_uint c.input with
            | (.ok, cols, rest) =>
              let c := { c with input := rest }
              match bserial_skip_symbols cols c with
              | (.ok, c) => bserial_skip_many fuel c
                  (List.replicate (rows * cols) (depthMinusOne depth) ++ jobs)
              | (s, c) => (s, c)
            | (s, _, rest) => (s, { c with input := rest })
        | (s, _, rest) => (s, { c with input := rest })
      else if marker = 10 then
        let c := bserial_discard_marker c
        match bserial_read_uint c.input with
        | (.ok, cols, rest) =>
          let c := { c with input := rest }
          match bserial_skip_symbols cols c with
          | (.ok, c) => bserial_skip_many fuel c
              (List.replicate cols (depthMinusOne depth) ++ jobs)
          | (s, c) => (s, c)
        | (s, _, rest) => (s, { c with input := rest })
      else ctxMalformed c
    | (s, _, c) => (s, c)) := rfl

theorem skip_many_nil_eq (fuel : Nat) (c : Ctx) : bserial_skip_many fuel c [] = (.ok, c) := by
  cases fuel <;> rfl

theorem skip_next_scalar {c : Ctx} {w : FieldVal} {rest : List Nat} (fuel d : Nat)
    (hok : c.status = .ok) (hmode : c.mode = .read) (hmark : c.marker_buf = 255)
    (hp : plainScope c) (hv : valValid w = true)
    (hi : c.input = valBytes w ++ rest) :
    bserial_skip_next (fuel + 1) c d = (.ok, { c with input := rest }) := by
  unfold bserial_skip_next
  cases w with
  | vuint x =>
    simp only [valValid, decide_eq_true_eq] at hv
    simp only [valBytes, List.cons_append] at hi
    have hpeek : bserial_peek_marker c = (.ok, 1, { c with
        status := .ok
        marker_buf := 1
        input := bserial_write_uint x ++ rest }) := by
      unfold bserial_peek_marker
      rw [hmark, hi]
      rfl
    have hu := uint_read_buf (c := { c with
      status := .ok
      marker_buf := 1
      input := bserial_write_uint x ++ rest }) 0 rfl hmode rfl hp hv rfl
    simp only [hmode, hok] at hpeek hu
    rw [skip_many_cons_eq, hpeek]
    simp [hu, hok, hmark, hmode, skip_many_nil_eq]
  | vsint x =>
    simp only [valValid, decide_eq_true_eq] at hv
    simp only [valBytes, List.cons_append] at hi
    have hpeek : bserial_peek_marker c = (.ok, 2, { c with
        status := .ok
        marker_buf := 2
        input := bserial_write_sint x ++ rest }) := by
      unfold bserial_peek_marker
      rw [hmark, hi]
      rfl
    have hu := sint_read_buf (c := { c with
      status := .ok
      marker_buf := 2
      input := bserial_write_sint x ++ rest }) 0 rfl hmode rfl hp hv.1 hv.2 rfl
    simp only [hmode, hok] at hpeek hu
    rw [skip_many_cons_eq, hpeek]
    simp [hu, hok, hmark, hmode, skip_many_nil_eq]
  | vf32 x =>
    simp only [valBytes, List.cons_append] at hi
    have hpeek : bserial_peek_marker c = (.ok, 3, { c with
        status := .ok
        marker_buf := 3
        input := bytesLE 4 x ++ rest }) := by
      unfold bserial_peek_marker
      rw [hmark, hi]
      rfl
    have hskip : ctxSkip { c with
        status := .ok
        marker_buf := 255
        input := bytesLE 4 x ++ rest } 4 =
        (.ok, { c with
          status := .ok
          marker_buf := 255
          input := rest }) := by
      unfold ctxSkip
      rw [if_pos (by simp [bytesLE_length])]
      rw [List.drop_left' (bytesLE_length 4 x)]
    simp only [hok, hmode] at hpeek hskip
    rw [skip_many_cons_eq, hpeek]
    simp [bserial_discard_marker, hskip, hok, hmark, hmode, skip_many_nil_eq]
  | vf64 x =>
    simp only [valBytes, List.cons_append] at hi
    have hpeek : bserial_peek_marker c = (.ok, 4, { c with
        status := .ok
        marker_buf := 4
        input := bytesLE 8 x ++ rest }) := by
      unfold bserial_peek_marker
      rw [hmark, hi]
      rfl
    have hskip : ctxSkip { c with
        status := .ok
        marker_buf := 255
        input := bytesLE 8 x ++ rest } 8 =
        (.ok, { c with
          status := .ok
          marker_buf := 255
          input := rest }) := by
      unfold ctxSkip
      rw [if_pos (by simp [bytesLE_length])]
      rw [List.drop_left' (bytesLE_length 8 x)]
    simp only [hok, hmode] at hpeek hskip
    rw [skip_many_cons_eq, hpeek]
    simp [bserial_discard_marker, hskip, hok, hmark, hmode, skip_many_nil_eq]

def dfltField : DField := ⟨[], .vuint 0⟩

/-- The context mid-way through the `VALUE_IO` phase of a record read:
relative to the phase's base context, only the input (values of the
remaining wire fields) and the scope's mode/iterator differ. -/
def vstate (c : Ctx) (sc : Scope) (tail : List Scope) (wire : List DField)
    (rest : List Nat) (i : Nat) : Ctx :=
  { c with
    input := valuesBytes (wire.drop i) ++ rest
    scopes := { sc with record_mode := .valueIo, iterator := i } :: tail }

/-- Index of the first wire field at or past `i` whose name is requested. -/
def firstReq (gnames : List (List Nat)) (wire : List DField) (i : Nat) : Option Nat :=
  ((wire.drop i).findIdx? (fun f => f.name ∈ gnames)).map (· + i)

/-- Index of the wire field carrying this name. -/
def wireIdxOf (wire : List DField) (nm : List Nat) : Option Nat :=
  wire.findIdx? (fun f => f.name = nm)

theorem curScope_vstate (c : Ctx) (sc : Scope) (tail : List Scope) (wire : List DField)
    (rest : List Nat) (i : Nat) :
    curScope (vstate c sc tail wire rest i) =
      { sc with record_mode := .valueIo, iterator := i } := rfl

theorem valuesBytes_drop {wire : List DField} {i : Nat} (h : i < wire.length) :
    valuesBytes (wire.drop i) =
      valBytes (wire.getD i dfltField).val ++ valuesBytes (wire.drop (i + 1)) := by
  have hgd : wire.getD i dfltField = wire[i] := by
    rw [List.getD_eq_getElem?_getD, List.getElem?_eq_getElem h]
    rfl
  rw [List.drop_eq_getElem_cons h, hgd]
  rfl

theorem valuesBytes_nil : valuesBytes [] = [] := rfl

theorem firstReq_end (gnames : List (List Nat)) (wire : List DField) :
    firstReq gnames wire wire.length = none := by
  simp [firstReq]

theorem firstReq_hit {gnames : List (List Nat)} {wire : List DField} {i : Nat}
    (h : i < wire.length) (hm : (wire.getD i dfltField).name ∈ gnames) :
    firstReq gnames wire i = some i := by
  unfold firstReq
  have hgd : wire.getD i dfltField = wire[i] := by
    rw [List.getD_eq_getElem?_getD, List.getElem?_eq_getElem h]
    rfl
  rw [List.drop_eq_getElem_cons h, List.findIdx?_cons]
  rw [hgd] at hm
  simp [hm]

theorem firstReq_miss {gnames : List (List Nat)} {wire : List DField} {i : Nat}
    (h : i < wire.length) (hm : (wire.getD i dfltField).name ∉ gnames) :
    firstReq gnames wire i = firstReq gnames wire (i + 1) := by
  unfold firstReq
  have hgd : wire.getD i dfltField = wire[i] := by
    rw [List.getD_eq_getElem?_getD, List.getElem?_eq_getElem h]
    rfl
  have hm2 : ¬wire[i].name ∈ gnames := by
    rw [← hgd]
    exact hm
  rw [List.drop_eq_getElem_cons h, List.findIdx?_cons, if_neg (by simpa using hm2),
    List.findIdx?_succ]
  cases ho : List.findIdx? (fun f => decide (f.name ∈ gnames)) (List.drop (i + 1) wire) with
  | none => rfl
  | some k =>
    simp only [Option.map_map, Option.map_some', Option.some.injEq]
    show k + 1 + i = k + (i + 1)
    omega

theorem firstReq_lt {gnames : List (List Nat)} {wire : List DField} {i j : Nat}
    (h : firstReq gnames wire i = some j) : i ≤ j ∧ j < wire.length ∧
      (wire.getD j dfltField).name ∈ gnames := by
  unfold firstReq at h
  cases ho : List.findIdx? (fun f => decide (f.name ∈ gnames)) (List.drop i wire) with
  | none =>
    rw [ho] at h
    exact Option.noConfusion h
  | some k =>
    rw [ho] at h
    simp only [Option.map_some', Option.some.injEq] at h
    obtain ⟨hklt, hpk, _⟩ := List.findIdx?_eq_some_iff_getElem.mp ho
    rw [List.length_drop] at hklt
    have hget : (List.drop i wire)[k] = wire.getD (k + i) dfltField := by
      rw [List.getElem_drop, List.getD_eq_getElem?_getD,
        List.getElem?_eq_getElem (by omega)]
      show wire[i + k] = wire[k + i]
      congr 1
      omega
    rw [hget] at hpk
    subst h
    exact ⟨by omega, by omega, by simpa using hpk⟩

theorem getD_mem {wire : List DField} {i : Nat} (h : i < wire.length) :
    wire.getD i dfltField ∈ wire := by
  rw [List.getD_eq_getElem?_getD, List.getElem?_eq_getElem h]
  exact List.getElem_mem h

theorem probe_phase {c : Ctx} {wire : List DField} {rest : List Nat} {off : Nat}
    {gnames : List (List Nat)} {sc : Scope} {tail : List Scope}
    (hok : c.status = .ok) (hmode : c.mode = .read) (hmark : c.marker_buf = 255)
    (hsc : c.scopes = sc :: tail) (htype : sc.type = .record)
    (hlen : sc.len = wire.length) (hoff : sc.record_schema = off)
    (hmarks : ∀ j, j < wire.length → (poolGet c (off + j)).field_name =
      if (wire.getD j dfltField).name ∈ gnames then some (wire.getD j dfltField).name
      else none)
    (hvalid : ∀ f ∈ wire, valValid f.val = true) :
    ∀ fuel i, i ≤ wire.length → wire.length - i < fuel →
    bserial_probe_next_record_field fuel (vstate c sc tail wire rest i) =
      match firstReq gnames wire i with
      | some j => (true, vstate c sc tail wire rest j)
      | none => (false, (bserial_end_op (vstate c sc tail wire rest wire.length) .record).2) := by
  have hcs : curScope c = sc := by
    rw [curScope, hsc]
    rfl
  intro fuel
  induction fuel with
  | zero =>
    intro i hi hf
    omega
  | succ fuel ih =>
    intro i hi hf
    have hcur : curScope (vstate c sc tail wire rest i) =
        { sc with record_mode := .valueIo, iterator := i } := rfl
    rcases Nat.lt_or_ge i wire.length with hin | hin
    · by_cases hreq : (wire.getD i dfltField).name ∈ gnames
      · rw [firstReq_hit hin hreq]
        have hfn : (poolGet (vstate c sc tail wire rest i)
            ((curScope (vstate c sc tail wire rest i)).record_schema +
             (curScope (vstate c sc tail wire rest i)).iterator)).field_name =
            some (wire.getD i dfltField).name := by
          rw [hcur]
          show (poolGet c (sc.record_schema + i)).field_name = _
          rw [hoff, hmarks i hin, if_pos hreq]
        simp only [bserial_probe_next_record_field]
        rw [hcur]
        rw [if_pos (by rw [hlen]; exact hin)]
        rw [hcur] at hfn
        simp only [hcur] at hfn ⊢
        rw [if_pos (by simp [hfn])]
      · rw [firstReq_miss hin hreq]
        have hfn : (poolGet c (sc.record_schema + i)).field_name = none := by
          rw [hoff, hmarks i hin, if_neg hreq]
        have hinput : (vstate c sc tail wire rest i).input =
            valBytes (wire.getD i dfltField).val ++
              (valuesBytes (wire.drop (i + 1)) ++ rest) := by
          show valuesBytes (wire.drop i) ++ rest = _
          rw [valuesBytes_drop hin, List.append_assoc]
        have hskip := skip_next_scalar (c := vstate c sc tail wire rest i)
          ((vstate c sc tail wire rest i).input.length + 1)
          ((vstate c sc tail wire rest i).config.max_depth -
            ((vstate c sc tail wire rest i).scopes.length - 1))
          hok hmode hmark (Or.inr (by rw [hcur]; exact htype))
          (hvalid _ (getD_mem hin)) hinput
        simp only [bserial_probe_next_record_field]
        rw [hcur]
        rw [if_pos (by rw [hlen]; exact hin)]
        rw [if_neg (by
          show ¬(poolGet c (sc.record_schema + i)).field_name ≠ none
          rw [hfn]
          simp)]
        rw [hskip]
        show bserial_probe_next_record_field fuel (vstate c sc tail wire rest (i + 1)) = _
        exact ih (i + 1) (by omega) (by omega)
    · have hieq : i = wire.length := by omega
      subst hieq
      rw [firstReq_end]
      simp only [bserial_probe_next_record_field]
      rw [hcur]
      rw [if_neg (by
        show ¬wire.length < sc.len
        rw [hlen]
        omega)]

/-- One reader field after the `VALUE_IO` pass has delivered wire slots
`[a, b)`: a requested field whose wire slot lies in the window receives the
wire value; every other field keeps its current value. -/
def updOne (wire : List DField) (a b : Nat) (g : DField) : DField :=
  match wireIdxOf wire g.name with
  | some j => if a ≤ j ∧ j < b then { g with val := (wire.getD j dfltField).val } else g
  | none => g

def updVals (wire : List DField) (i i2 : Nat) (G : List DField) : List DField :=
  G.map (updOne wire i i2)

theorem updOne_none {wire : List DField} {g : DField} (a b : Nat)
    (hw : wireIdxOf wire g.name = none) : updOne wire a b g = g := by
  unfold updOne
  rw [hw]

theorem updOne_some {wire : List DField} {g : DField} {j : Nat} (a b : Nat)
    (hw : wireIdxOf wire g.name = some j) :
    updOne wire a b g =
      if a ≤ j ∧ j < b then { g with val := (wire.getD j dfltField).val } else g := by
  unfold updOne
  rw [hw]

theorem updOne_name (wire : List DField) (a b : Nat) (g : DField) :
    (updOne wire a b g).name = g.name := by
  cases hw : wireIdxOf wire g.name with
  | none => rw [updOne_none a b hw]
  | some j =>
    rw [updOne_some a b hw]
    by_cases hc : a ≤ j ∧ j < b
    · rw [if_pos hc]
    · rw [if_neg hc]

theorem updVals_cons (wire : List DField) (i i2 : Nat) (g : DField) (G : List DField) :
    updVals wire i i2 (g :: G) = updOne wire i i2 g :: updVals wire i i2 G := rfl

theorem updVals_nil (wire : List DField) (i i2 : Nat) : updVals wire i i2 [] = [] := rfl

theorem updVals_empty (wire : List DField) (i : Nat) (G : List DField) :
    updVals wire i i G = G := by
  unfold updVals
  apply List.map_id''
  intro g
  cases h : wireIdxOf wire g.name with
  | none => exact updOne_none i i h
  | some j =>
    rw [updOne_some i i h, if_neg (by omega)]

theorem wireIdxOf_name {wire : List DField} {nm : List Nat} {j : Nat}
    (h : wireIdxOf wire nm = some j) :
    j < wire.length ∧ (wire.getD j dfltField).name = nm := by
  obtain ⟨hlt, hp, _⟩ := List.findIdx?_eq_some_iff_getElem.mp h
  refine ⟨hlt, ?_⟩
  rw [List.getD_eq_getElem?_getD, List.getElem?_eq_getElem hlt]
  simpa using hp

theorem wireIdxOf_idx {wire : List DField} {i : Nat}
    (hW : (wire.map DField.name).Nodup) (hin : i < wire.length) :
    wireIdxOf wire (wire.getD i dfltField).name = some i := by
  have hgd : wire.getD i dfltField = wire[i] := by
    rw [List.getD_eq_getElem?_getD, List.getElem?_eq_getElem hin]
    rfl
  rw [hgd]
  apply List.findIdx?_eq_some_iff_getElem.mpr
  refine ⟨hin, by simp, ?_⟩
  intro j hji
  simp only [Bool.not_eq_true, decide_eq_false_iff_not]
  intro hceq
  have hj1 : j < (wire.map DField.name).length := by simpa using (by omega : j < wire.length)
  have hi1 : i < (wire.map DField.name).length := by simpa using hin
  have hmapj : (wire.map DField.name)[j] = (wire.map DField.name)[i] := by
    rw [List.getElem_map, List.getElem_map]
    exact hceq
  have := (List.Nodup.getElem_inj_iff hW).mp hmapj
  omega

theorem updVals_shift {wire : List DField} {i i2 : Nat} {G : List DField}
    (hex : ∀ g ∈ G, g.name ≠ (wire.getD i dfltField).name)
    (hW : (wire.map DField.name).Nodup) (hin : i < wire.length) :
    updVals wire (i + 1) i2 G = updVals wire i i2 G := by
  unfold updVals
  apply List.map_congr_left
  intro g hg
  cases h : wireIdxOf wire g.name with
  | none => rw [updOne_none _ _ h, updOne_none _ _ h]
  | some j =>
    obtain ⟨hj, hname⟩ := wireIdxOf_name h
    have hji : j ≠ i := by
      intro hc
      subst hc
      exact hex g hg hname.symm
    rw [updOne_some _ _ h, updOne_some _ _ h]
    by_cases hwin : i + 1 ≤ j ∧ j < i2
    · rw [if_pos hwin, if_pos (by omega)]
    · rw [if_neg hwin, if_neg (by omega)]

/-- Scope state after `bserial_key` matched but before the value was read. -/
def dstate (c : Ctx) (sc : Scope) (tail : List Scope) (wire : List DField)
    (rest : List Nat) (i : Nat) : Ctx :=
  { c with
    input := valuesBytes (wire.drop i) ++ rest
    scopes := { sc with record_mode := .valueIo, iterator := i + 1 } :: tail }

theorem recordBody_valueio_read {c : Ctx} {wire : List DField} {rest : List Nat} {off : Nat}
    {gnames : List (List Nat)} {sc : Scope} {tail : List Scope}
    (hok : c.status = .ok) (hmode : c.mode = .read) (hmark : c.marker_buf = 255)
    (hsc : c.scopes = sc :: tail) (htype : sc.type = .record)
    (hlen : sc.len = wire.length) (hoff : sc.record_schema = off)
    (hmarks : ∀ j, j < wire.length → (poolGet c (off + j)).field_name =
      if (wire.getD j dfltField).name ∈ gnames then some (wire.getD j dfltField).name
      else none)
    (hmarkN : (poolGet c (off + wire.length)).field_name = none)
    (hvalid : ∀ f ∈ wire, valValid f.val = true)
    (hW : (wire.map DField.name).Nodup) :
    ∀ (Gsuf : List DField) (i : Nat), i ≤ wire.length →
    (Gsuf.map DField.name).Nodup →
    (∀ g ∈ Gsuf, ∀ f ∈ wire, f.name = g.name → sameKind g.val f.val = true) →
    ∃ i2, i ≤ i2 ∧ i2 ≤ wire.length ∧
      recordBody (vstate c sc tail wire rest i) Gsuf =
        (vstate c sc tail wire rest i2, updVals wire i i2 Gsuf) ∧
      (∀ j, i ≤ j → j < i2 → (wire.getD j dfltField).name ∈ Gsuf.map DField.name) ∧
      (i < wire.length → (wire.getD i dfltField).name ∈ gnames →
        (wire.getD i dfltField).name ∈ Gsuf.map DField.name → i < i2) := by
  have hcs : curScope c = sc := by
    rw [curScope, hsc]
    rfl
  intro Gsuf
  induction Gsuf with
  | nil =>
    intro i hi _ _
    refine ⟨i, le_refl _, hi, ?_, ?_, ?_⟩
    · rw [updVals_nil]
      rfl
    · intro j h1 h2
      omega
    · intro _ _ hmem
      simp at hmem
  | cons g tl ih =>
    intro i hi hGd hkind
    have hcur : curScope (vstate c sc tail wire rest i) =
        { sc with record_mode := .valueIo, iterator := i } := rfl
    have hfn : (poolGet (vstate c sc tail wire rest i)
        ((curScope (vstate c sc tail wire rest i)).record_schema +
          (curScope (vstate c sc tail wire rest i)).iterator)).field_name =
        (poolGet c (off + i)).field_name := by
      rw [hcur]
      show (poolGet c (sc.record_schema + i)).field_name = _
      rw [hoff]
    by_cases hmatch : some g.name = (poolGet c (off + i)).field_name
    · -- the head matches the current wire slot: it is delivered
      have hinlt : i < wire.length := by
        rcases Nat.lt_or_ge i wire.length with h | h
        · exact h
        · exfalso
          have hieq : i = wire.length := by omega
          rw [hieq, hmarkN] at hmatch
          exact Option.noConfusion hmatch
      have hgname : g.name = (wire.getD i dfltField).name ∧
          (wire.getD i dfltField).name ∈ gnames := by
        rw [hmarks i hinlt] at hmatch
        by_cases hg : (wire.getD i dfltField).name ∈ gnames
        · rw [if_pos hg] at hmatch
          exact ⟨Option.some.injEq _ _ ▸ (by simpa using hmatch), hg⟩
        · rw [if_neg hg] at hmatch
          exact Option.noConfusion hmatch
      have hkey : bserial_key (vstate c sc tail wire rest i) g.name g.name.length =
          (true, dstate c sc tail wire rest i) := by
        unfold bserial_key
        rw [if_neg (by show ¬c.status ≠ .ok; rw [hok]; simp)]
        rw [hcur]
        rw [if_neg (by show ¬sc.type ≠ .record; rw [htype]; simp)]
        rw [if_pos (by exact hmode)]
        show (if some g.name = (poolGet (vstate c sc tail wire rest i)
            (sc.record_schema + i)).field_name then _ else _) = _
        rw [if_pos (by
          show some g.name = (poolGet c (sc.record_schema + i)).field_name
          rw [hoff]
          exact hmatch)]
        rfl
      have hfin : fieldValOp (dstate c sc tail wire rest i) g.val =
          (.ok, (wire.getD i dfltField).val, vstate c sc tail wire rest (i + 1)) := by
        have hi2 : (dstate c sc tail wire rest i).input =
            valBytes (wire.getD i dfltField).val ++
              (valuesBytes (wire.drop (i + 1)) ++ rest) := by
          show valuesBytes (wire.drop i) ++ rest = _
          rw [valuesBytes_drop hinlt, List.append_assoc]
        have := fieldValOp_read (c := dstate c sc tail wire rest i) g.val
          hok hmode hmark (Or.inr (show
            (curScope (dstate c sc tail wire rest i)).type = .record from htype))
          (hvalid _ (getD_mem hinlt))
          (by
            apply hkind g (by simp) _ (getD_mem hinlt)
            exact hgname.1.symm) hi2
        rw [this]
        rfl
      obtain ⟨i2, hi21, hi22, hbody, hnames, _⟩ :=
        ih (i + 1) (by omega) (by simpa using hGd.of_cons) (by
          intro g2 hg2 f hf heq
          exact hkind g2 (by simp [hg2]) f hf heq)
      refine ⟨i2, by omega, hi22, ?_, ?_, ?_⟩
      · show (match bserial_key (vstate c sc tail wire rest i) g.name g.name.length with
          | (true, c) => match fieldValOp c g.val with
            | (_, v, c) =>
              let r := recordBody c tl
              (r.1, { g with val := v } :: r.2)
          | (false, c) =>
            let r := recordBody c tl
            (r.1, g :: r.2)) = _
        rw [hkey]
        show (match fieldValOp (dstate c sc tail wire rest i) g.val with
          | (_, v, c2) =>
            let r := recordBody c2 tl
            (r.1, { g with val := v } :: r.2)) = _
        rw [hfin]
        show ((recordBody (vstate c sc tail wire rest (i + 1)) tl).1,
          { g with val := (wire.getD i dfltField).val } ::
            (recordBody (vstate c sc tail wire rest (i + 1)) tl).2) = _
        rw [hbody]
        show (vstate c sc tail wire rest i2,
          { g with val := (wire.getD i dfltField).val } :: updVals wire (i + 1) i2 tl) = _
        have hhead : updOne wire i i2 g =
            ({ g with val := (wire.getD i dfltField).val } : DField) := by
          have hidx : wireIdxOf wire g.name = some i := by
            rw [hgname.1]
            exact wireIdxOf_idx hW hinlt
          rw [updOne_some _ _ hidx, if_pos (by omega)]
        have htl : updVals wire (i + 1) i2 tl = updVals wire i i2 tl := by
          apply updVals_shift _ hW hinlt
          intro g2 hg2 hc
          have hg2n : g2.name = g.name := by rw [hc, hgname.1]
          have hdup := hGd
          simp only [List.map_cons, List.nodup_cons] at hdup
          exact hdup.1 (hg2n ▸ List.mem_map_of_mem DField.name hg2)
        rw [htl]
        show (vstate c sc tail wire rest i2,
          { g with val := (wire.getD i dfltField).val } :: updVals wire i i2 tl) =
          (vstate c sc tail wire rest i2, updVals wire i i2 (g :: tl))
        rw [updVals_cons, hhead]
      · intro j h1 h2
        rcases Nat.eq_or_lt_of_le h1 with he | hlt
        · rw [← he, ← hgname.1]
          simp
        · have := hnames j (by omega) h2
          simp only [List.map_cons]
          exact List.mem_cons_of_mem _ this
      · intro _ _ _
        omega
    · -- the head does not match: it is passed over unchanged
      have hkey : bserial_key (vstate c sc tail wire rest i) g.name g.name.length =
          (false, vstate c sc tail wire rest i) := by
        unfold bserial_key
        rw [if_neg (by show ¬c.status ≠ .ok; rw [hok]; simp)]
        rw [hcur]
        rw [if_neg (by show ¬sc.type ≠ .record; rw [htype]; simp)]
        rw [if_pos (by exact hmode)]
        show (if some g.name = (poolGet (vstate c sc tail wire rest i)
            (sc.record_schema + i)).field_name then _ else _) = _
        rw [if_neg (by
          show ¬some g.name = (poolGet c (sc.record_schema + i)).field_name
          rw [hoff]
          exact hmatch)]
      obtain ⟨i2, hi21, hi22, hbody, hnames, hprog⟩ :=
        ih i hi (by simpa using hGd.of_cons) (by
          intro g2 hg2 f hf heq
          exact hkind g2 (by simp [hg2]) f hf heq)
      refine ⟨i2, hi21, hi22, ?_, ?_, ?_⟩
      · show (match bserial_key (vstate c sc tail wire rest i) g.name g.name.length with
          | (true, c) => match fieldValOp c g.val with
            | (_, v, c) =>
              let r := recordBody c tl
              (r.1, { g with val := v } :: r.2)
          | (false, c) =>
            let r := recordBody c tl
            (r.1, g :: r.2)) = _
        rw [hkey]
        show ((recordBody (vstate c sc tail wire rest i) tl).1,
          g :: (recordBody (vstate c sc tail wire rest i) tl).2) = _
        rw [hbody]
        show (vstate c sc tail wire rest i2, g :: updVals wire i i2 tl) = _
        have hhead : updOne wire i i2 g = g := by
          cases hw : wireIdxOf wire g.name with
          | none => exact updOne_none _ _ hw
          | some j =>
            obtain ⟨hjlt, hjname⟩ := wireIdxOf_name hw
            rw [updOne_some _ _ hw]
            rw [if_neg (by
              rintro ⟨hj1, hj2⟩
              have hmem := hnames j hj1 hj2
              rw [hjname] at hmem
              have hdup := hGd
              simp only [List.map_cons, List.nodup_cons] at hdup
              exact hdup.1 hmem)]
        show (vstate c sc tail wire rest i2, g :: updVals wire i i2 tl) =
          (vstate c sc tail wire rest i2, updVals wire i i2 (g :: tl))
        rw [updVals_cons, hhead]
      · intro j h1 h2
        have := hnames j h1 h2
        simp only [List.map_cons]
        exact List.mem_cons_of_mem _ this
      · intro hilt hg hmem
        simp only [List.map_cons] at hmem
        rcases List.mem_cons.mp hmem with he | hmem2
        · exfalso
          apply hmatch
          rw [hmarks i hilt, if_pos hg, he]
        · exact hprog hilt hg hmem2

theorem sameKind_self (v : FieldVal) : sameKind v v = true := by
  cases v <;> rfl

theorem updVals_names (wire : List DField) (a b : Nat) (G : List DField) :
    (updVals wire a b G).map DField.name = G.map DField.name := by
  unfold updVals
  rw [List.map_map]
  apply List.map_congr_left
  intro g _
  exact updOne_name wire a b g

theorem updVals_compose {wire : List DField} {a b c2 : Nat} (G : List DField)
    (hab : a ≤ b) (hbc : b ≤ c2) :
    updVals wire b c2 (updVals wire a b G) = updVals wire a c2 G := by
  unfold updVals
  rw [List.map_map]
  apply List.map_congr_left
  intro g _
  show updOne wire b c2 (updOne wire a b g) = updOne wire a c2 g
  cases hw : wireIdxOf wire g.name with
  | none =>
    rw [updOne_none _ _ hw, updOne_none _ _ hw, updOne_none _ _ hw]
  | some j =>
    have hw2 : wireIdxOf wire (updOne wire a b g).name = some j := by
      rw [updOne_name]
      exact hw
    rw [updOne_some _ _ hw2, updOne_some _ _ hw, updOne_some _ _ hw]
    by_cases hc : a ≤ j ∧ j < b
    · rw [if_pos hc, if_neg (by omega), if_pos (by omega)]
    · rw [if_neg hc]
      by_cases hc2 : b ≤ j ∧ j < c2
      · rw [if_pos hc2, if_pos (by omega)]
      · rw [if_neg hc2, if_neg (by omega)]

theorem updVals_start_shift {wire : List DField} {i j i2 : Nat} {G : List DField}
    (hij : i ≤ j)
    (hnone : ∀ jj, i ≤ jj → jj < j → (wire.getD jj dfltField).name ∉ G.map DField.name) :
    updVals wire i i2 G = updVals wire j i2 G := by
  unfold updVals
  apply List.map_congr_left
  intro g hg
  cases hw : wireIdxOf wire g.name with
  | none => rw [updOne_none _ _ hw, updOne_none _ _ hw]
  | some jj =>
    obtain ⟨hjlt, hjname⟩ := wireIdxOf_name hw
    rw [updOne_some _ _ hw, updOne_some _ _ hw]
    have hout : jj < i ∨ j ≤ jj := by
      by_contra hcon
      push_neg at hcon
      exact hnone jj hcon.1 hcon.2 (hjname ▸ List.mem_map_of_mem DField.name hg)
    rcases hout with h | h
    · rw [if_neg (by omega), if_neg (by omega)]
    · by_cases hc : jj < i2
      · rw [if_pos ⟨by omega, hc⟩, if_pos ⟨h, hc⟩]
      · rw [if_neg (by omega), if_neg (by omega)]

theorem updVals_id {wire : List DField} {i i2 : Nat} {G : List DField}
    (hnone : ∀ jj, i ≤ jj → jj < i2 → (wire.getD jj dfltField).name ∉ G.map DField.name) :
    updVals wire i i2 G = G := by
  unfold updVals
  conv_rhs => rw [← List.map_id G]
  apply List.map_congr_left
  intro g hg
  show updOne wire i i2 g = g
  cases hw : wireIdxOf wire g.name with
  | none => exact updOne_none _ _ hw
  | some jj =>
    obtain ⟨hjlt, hjname⟩ := wireIdxOf_name hw
    rw [updOne_some _ _ hw]
    rw [if_neg (by
      rintro ⟨h1, h2⟩
      exact hnone jj h1 h2 (hjname ▸ List.mem_map_of_mem DField.name hg))]

theorem firstReq_none_all {gnames : List (List Nat)} {wire : List DField} {i : Nat}
    (h : firstReq gnames wire i = none) :
    ∀ j, i ≤ j → j < wire.length → (wire.getD j dfltField).name ∉ gnames := by
  intro j h1 h2
  unfold firstReq at h
  rw [Option.map_eq_none'] at h
  rw [List.findIdx?_eq_none_iff] at h
  have hmem : wire.getD j dfltField ∈ wire.drop i := by
    have hgd : wire.getD j dfltField = wire[j] := by
      rw [List.getD_eq_getElem?_getD, List.getElem?_eq_getElem h2]
      rfl
    rw [hgd]
    have hb : j - i < (wire.drop i).length := by
      rw [List.length_drop]
      omega
    have hji : wire[j] = (wire.drop i)[j - i] := by
      rw [List.getElem_drop]
      congr 1
      omega
    rw [hji]
    exact List.getElem_mem hb
  have := h _ hmem
  simpa using this

theorem firstReq_some_prev {gnames : List (List Nat)} {wire : List DField} {i j : Nat}
    (h : firstReq gnames wire i = some j) :
    ∀ jj, i ≤ jj → jj < j → (wire.getD jj dfltField).name ∉ gnames := by
  intro jj h1 h2
  unfold firstReq at h
  cases ho : List.findIdx? (fun f => decide (f.name ∈ gnames)) (List.drop i wire) with
  | none =>
    rw [ho] at h
    exact Option.noConfusion h
  | some k =>
    rw [ho] at h
    simp only [Option.map_some', Option.some.injEq] at h
    obtain ⟨hklt, _, hprev⟩ := List.findIdx?_eq_some_iff_getElem.mp ho
    rw [List.length_drop] at hklt
    have hjj : jj - i < k := by omega
    have := hprev (jj - i) hjj
    have hget : (List.drop i wire)[jj - i] = wire.getD jj dfltField := by
      rw [List.getElem_drop, List.getD_eq_getElem?_getD,
        List.getElem?_eq_getElem (by omega)]
      show wire[i + (jj - i)] = wire[jj]
      congr 1
      omega
    rw [hget] at this
    simpa using this

theorem record_step_valueio {c : Ctx} {wire : List DField} {off addr : Nat}
    {gnames : List (List Nat)} {sc : Scope} {tail : List Scope}
    (hok : c.status = .ok) (hmode : c.mode = .read) (hmark : c.marker_buf = 255)
    (hsc : c.scopes = sc :: tail) (htype : sc.type = .record)
    (hlen : sc.len = wire.length) (hoff : sc.record_schema = off)
    (haddr : sc.record_addr = addr) (haddr0 : addr ≠ 0)
    (hmarks : ∀ j, j < wire.length → (poolGet c (off + j)).field_name =
      if (wire.getD j dfltField).name ∈ gnames then some (wire.getD j dfltField).name
      else none)
    (hvalid : ∀ f ∈ wire, valValid f.val = true)
    (rest : List Nat) (i : Nat) (hi : i ≤ wire.length) :
    bserial_record (vstate c sc tail wire rest i) addr =
      match firstReq gnames wire i with
      | some j => (true, vstate c sc tail wire rest j)
      | none => (false,
          (bserial_end_op (vstate c sc tail wire rest wire.length) .record).2) := by
  unfold bserial_record
  rw [if_neg (by show ¬c.status ≠ .ok; rw [hok]; simp)]
  rw [if_pos (by exact hmode)]
  rw [curScope_vstate]
  rw [if_pos (And.intro htype haddr.symm)]
  show (if i = sc.len then
    (false, (bserial_end_op (vstate c sc tail wire rest i) .record).2)
    else bserial_probe_next_record_field (sc.len + 1) (vstate c sc tail wire rest i)) = _
  rcases Nat.lt_or_ge i wire.length with hilt | hige
  · rw [if_neg (by rw [hlen]; omega)]
    rw [hlen]
    exact probe_phase hok hmode hmark hsc htype hlen hoff hmarks hvalid
      (wire.length + 1) i hi (by omega)
  · have hieq : i = wire.length := by omega
    subst hieq
    rw [if_pos (by rw [hlen])]
    rw [firstReq_end]

theorem recordLoop_valueio {c : Ctx} {wire : List DField} {rest : List Nat} {off addr : Nat}
    {sc : Scope} {tail : List Scope}
    (hok : c.status = .ok) (hmode : c.mode = .read) (hmark : c.marker_buf = 255)
    (hsc : c.scopes = sc :: tail) (htype : sc.type = .record)
    (hlen : sc.len = wire.length) (hoff : sc.record_schema = off)
    (haddr : sc.record_addr = addr) (haddr0 : addr ≠ 0)
    (hvalid : ∀ f ∈ wire, valValid f.val = true)
    (hW : (wire.map DField.name).Nodup)
    (hmarkN : (poolGet c (off + wire.length)).field_name = none) :
    ∀ (fuel i : Nat) (G : List DField), i ≤ wire.length →
    wire.length - i + 2 ≤ fuel →
    (G.map DField.name).Nodup →
    (∀ g ∈ G, ∀ f ∈ wire, f.name = g.name → sameKind g.val f.val = true) →
    (∀ j, j < wire.length → (poolGet c (off + j)).field_name =
      if (wire.getD j dfltField).name ∈ G.map DField.name
      then some (wire.getD j dfltField).name else none) →
    recordLoop fuel (vstate c sc tail wire rest i) addr G =
      ((bserial_end_op (vstate c sc tail wire rest wire.length) .record).2,
        updVals wire i wire.length G) := by
  intro fuel
  induction fuel with
  | zero =>
    intro i G hi hf
    omega
  | succ fuel ih =>
    intro i G hi hf hGd hkind hmarks
    have hrec := record_step_valueio hok hmode hmark hsc htype hlen hoff haddr haddr0
      hmarks hvalid rest i hi
    cases hfr : firstReq (G.map DField.name) wire i with
    | none =>
      rw [hfr] at hrec
      show (match bserial_record (vstate c sc tail wire rest i) addr with
        | (false, c) => (c, G)
        | (true, c) =>
          let r := recordBody c G
          recordLoop fuel r.1 addr r.2) = _
      rw [hrec]
      show ((bserial_end_op (vstate c sc tail wire rest wire.length) .record).2, G) = _
      rw [updVals_id (by
        intro jj h1 h2 hmem
        exact absurd hmem (by
          have := firstReq_none_all hfr jj h1 h2
          exact this))]
    | some j =>
      rw [hfr] at hrec
      obtain ⟨hij, hjlt, hjreq⟩ := firstReq_lt hfr
      obtain ⟨i2, hi21, hi22, hbody, _, hprog⟩ :=
        recordBody_valueio_read hok hmode hmark hsc htype hlen hoff hmarks hmarkN hvalid hW
          G j (by omega) hGd hkind
      have hj2 : j < i2 := hprog hjlt hjreq hjreq
      show (match bserial_record (vstate c sc tail wire rest i) addr with
        | (false, c) => (c, G)
        | (true, c) =>
          let r := recordBody c G
          recordLoop fuel r.1 addr r.2) = _
      rw [hrec]
      show recordLoop fuel (recordBody (vstate c sc tail wire rest j) G).1 addr
        (recordBody (vstate c sc tail wire rest j) G).2 = _
      rw [hbody]
      show recordLoop fuel (vstate c sc tail wire rest i2) addr (updVals wire j i2 G) = _
      rw [ih i2 (updVals wire j i2 G) hi22 (by omega)
        (by rw [updVals_names]; exact hGd)
        (by
          intro g2 hg2 f hf heq
          unfold updVals at hg2
          obtain ⟨g0, hg0, hg0e⟩ := List.mem_map.mp hg2
          subst hg0e
          cases hw : wireIdxOf wire g0.name with
          | none =>
            rw [updOne_none _ _ hw] at heq ⊢
            exact hkind g0 hg0 f hf heq
          | some jw =>
            obtain ⟨hjwlt, hjwname⟩ := wireIdxOf_name hw
            rw [updOne_some _ _ hw] at heq ⊢
            by_cases hwin : j ≤ jw ∧ jw < i2
            · rw [if_pos hwin] at heq ⊢
              have hfeq : f = wire.getD jw dfltField := by
                have hfname : f.name = (wire.getD jw dfltField).name := by
                  rw [hjwname]
                  exact heq
                obtain ⟨fi, hfi, hfie⟩ := List.mem_iff_getElem.mp hf
                have hfi2 : fi < (wire.map DField.name).length := by simpa using hfi
                have hjw2 : jw < (wire.map DField.name).length := by simpa using hjwlt
                have : (wire.map DField.name)[fi] = (wire.map DField.name)[jw] := by
                  rw [List.getElem_map, List.getElem_map]
                  rw [hfie]
                  rw [hfname]
                  rw [List.getD_eq_getElem?_getD, List.getElem?_eq_getElem hjwlt]
                  rfl
                have hfij := (List.Nodup.getElem_inj_iff hW).mp this
                subst hfij
                rw [← hfie]
                rw [List.getD_eq_getElem?_getD, List.getElem?_eq_getElem (by omega)]
                rfl
              rw [hfeq]
              exact sameKind_self _
            · rw [if_neg hwin] at heq ⊢
              exact hkind g0 hg0 f hf heq)
        (by rw [updVals_names]; exact hmarks)]
      rw [updVals_compose G (by omega) (by omega)]
      rw [← updVals_start_shift hij (by
        intro jj h1 h2
        exact firstReq_some_prev hfr jj h1 h2)]

/-- List-level effect of `recordZeroFields`. -/
def zeroPatch (off : Nat) : Nat → Nat → List Mapping → List Mapping
  | _, 0, l => l
  | i, k + 1, l => zeroPatch off (i + 1) k
      (l.set (off + i) { l.getD (off + i) defaultMapping with field_name := none })

/-- List-level effect of `recordReadSymbols` on the schema pool. -/
def symsPatch (off : Nat) : Nat → List DField → List Mapping → List Mapping
  | _, [], l => l
  | i, f :: fs, l => symsPatch off (i + 1) fs
      (l.set (off + i) { l.getD (off + i) defaultMapping with
        symbol := f.name
        symbol_len := f.name.length })

/-- List-level effect of `keyMatchScan` for one requested name. -/
def markPatch (off : Nat) (name : List Nat) (nameLen : Nat) : Nat → Nat → List Mapping → List Mapping
  | _, 0, l => l
  | i, k + 1, l =>
    let e := l.getD (off + i) defaultMapping
    let l2 := if e.symbol_len = nameLen ∧ e.symbol.take nameLen = name.take nameLen
      then l.set (off + i) { e with field_name := some name } else l
    markPatch off name nameLen (i + 1) k l2

theorem zeroPatch_length (off : Nat) : ∀ k i (l : List Mapping),
    (zeroPatch off i k l).length = l.length := by
  intro k
  induction k with
  | zero => intro i l; rfl
  | succ k ih =>
    intro i l
    show (zeroPatch off (i + 1) k _).length = _
    rw [ih]
    exact List.length_set l _ _

theorem symsPatch_length (off : Nat) : ∀ (F : List DField) i (l : List Mapping),
    (symsPatch off i F l).length = l.length := by
  intro F
  induction F with
  | nil => intro i l; rfl
  | cons f fs ih =>
    intro i l
    show (symsPatch off (i + 1) fs _).length = _
    rw [ih]
    exact List.length_set l _ _

theorem markPatch_length (off : Nat) (name : List Nat) (nameLen : Nat) :
    ∀ k i (l : List Mapping), (markPatch off name nameLen i k l).length = l.length := by
  intro k
  induction k with
  | zero => intro i l; rfl
  | succ k ih =>
    intro i l
    show (markPatch off name nameLen (i + 1) k _).length = _
    rw [ih]
    by_cases hc : (l.getD (off + i) defaultMapping).symbol_len = nameLen ∧
        (l.getD (off + i) defaultMapping).symbol.take nameLen = name.take nameLen
    · rw [if_pos hc]
      exact List.length_set l _ _
    · rw [if_neg hc]

theorem getD_set_same {l : List Mapping} {p : Nat} {m : Mapping} (hp : p < l.length) :
    (l.set p m).getD p defaultMapping = m := by
  simp [List.getD_eq_getElem?_getD, List.getElem?_set_self hp]

theorem getD_set_other {l : List Mapping} {p q : Nat} {m : Mapping} (h : q ≠ p) :
    (l.set p m).getD q defaultMapping = l.getD q defaultMapping := by
  simp [List.getD_eq_getElem?_getD, List.getElem?_set_ne (Ne.symm h)]

theorem zeroPatch_getD (off : Nat) : ∀ k i (l : List Mapping) (q : Nat),
    off + i + k ≤ l.length →
    (zeroPatch off i k l).getD q defaultMapping =
      if off + i ≤ q ∧ q < off + i + k
      then { l.getD q defaultMapping with field_name := none }
      else l.getD q defaultMapping := by
  intro k
  induction k with
  | zero =>
    intro i l q _
    rw [if_neg (by omega)]
    rfl
  | succ k ih =>
    intro i l q hb
    show (zeroPatch off (i + 1) k _).getD q defaultMapping = _
    rw [ih (i + 1) _ q (by rw [List.length_set]; omega)]
    by_cases hq : q = off + i
    · subst hq
      rw [if_neg (by omega), if_pos (by omega)]
      rw [getD_set_same (by omega)]
    · rw [getD_set_other hq]
      by_cases hwin : off + (i + 1) ≤ q ∧ q < off + (i + 1) + k
      · rw [if_pos hwin, if_pos (by omega)]
      · rw [if_neg hwin, if_neg (by omega)]

theorem symsPatch_getD (off : Nat) : ∀ (F : List DField) i (l : List Mapping) (q : Nat),
    off + i + F.length ≤ l.length →
    (symsPatch off i F l).getD q defaultMapping =
      if h : off + i ≤ q ∧ q < off + i + F.length
      then { l.getD q defaultMapping with
        symbol := (F.getD (q - off - i) dfltField).name
        symbol_len := (F.getD (q - off - i) dfltField).name.length }
      else l.getD q defaultMapping := by
  intro F
  induction F with
  | nil =>
    intro i l q _
    rw [dif_neg (by simp only [List.length_nil]; omega)]
    rfl
  | cons f fs ih =>
    intro i l q hb
    show (symsPatch off (i + 1) fs _).getD q defaultMapping = _
    rw [ih (i + 1) _ q (by rw [List.length_set]; simp only [List.length_cons] at hb; omega)]
    by_cases hq : q = off + i
    · subst hq
      rw [dif_neg (by omega), dif_pos (by simp only [List.length_cons]; omega)]
      rw [getD_set_same (by simp only [List.length_cons] at hb; omega)]
      have hidx : off + i - off - i = 0 := by omega
      rw [hidx]
      rfl
    · rw [getD_set_other hq]
      by_cases hwin : off + (i + 1) ≤ q ∧ q < off + (i + 1) + fs.length
      · rw [dif_pos hwin, dif_pos (by simp only [List.length_cons]; omega)]
        have hidx : q - off - (i + 1) + 1 = q - off - i := by omega
        show _ = ({ l.getD q defaultMapping with
          symbol := ((f :: fs).getD (q - off - i) dfltField).name
          symbol_len := ((f :: fs).getD (q - off - i) dfltField).name.length } : Mapping)
        rw [← hidx]
        rfl
      · rw [dif_neg hwin, dif_neg (by simp only [List.length_cons]; omega)]

theorem markPatch_getD (off : Nat) (name : List Nat) (nameLen : Nat) :
    ∀ k i (l : List Mapping) (q : Nat), off + i + k ≤ l.length →
    (markPatch off name nameLen i k l).getD q defaultMapping =
      if off + i ≤ q ∧ q < off + i + k ∧
        ((l.getD q defaultMapping).symbol_len = nameLen ∧
         (l.getD q defaultMapping).symbol.take nameLen = name.take nameLen)
      then { l.getD q defaultMapping with field_name := some name }
      else l.getD q defaultMapping := by
  intro k
  induction k with
  | zero =>
    intro i l q _
    rw [if_neg (by omega)]
    rfl
  | succ k ih =>
    intro i l q hb
    show (markPatch off name nameLen (i + 1) k _).getD q defaultMapping = _
    by_cases hcond : (l.getD (off + i) defaultMapping).symbol_len = nameLen ∧
        (l.getD (off + i) defaultMapping).symbol.take nameLen = name.take nameLen
    · rw [if_pos hcond]
      rw [ih (i + 1) _ q (by rw [List.length_set]; omega)]
      by_cases hq : q = off + i
      · subst hq
        rw [getD_set_same (by omega)]
        rw [if_neg (by omega), if_pos ⟨by omega, by omega, hcond⟩]
      · rw [getD_set_other hq]
        by_cases hwin : off + (i + 1) ≤ q ∧ q < off + (i + 1) + k ∧
            ((l.getD q defaultMapping).symbol_len = nameLen ∧
             (l.getD q defaultMapping).symbol.take nameLen = name.take nameLen)
        · rw [if_pos hwin, if_pos ⟨by omega, by omega, hwin.2.2⟩]
        · rw [if_neg hwin, if_neg (by
            rintro ⟨h1, h2, h3⟩
            exact hwin ⟨by omega, by omega, h3⟩)]
    · rw [if_neg hcond]
      rw [ih (i + 1) l q (by omega)]
      by_cases hq : q = off + i
      · subst hq
        rw [if_neg (by omega), if_neg (by
          rintro ⟨_, _, h3⟩
          exact hcond h3)]
      · by_cases hwin : off + (i + 1) ≤ q ∧ q < off + (i + 1) + k ∧
            ((l.getD q defaultMapping).symbol_len = nameLen ∧
             (l.getD q defaultMapping).symbol.take nameLen = name.take nameLen)
        · rw [if_pos hwin, if_pos ⟨by omega, by omega, hwin.2.2⟩]
        · rw [if_neg hwin, if_neg (by
            rintro ⟨h1, h2, h3⟩
            exact hwin ⟨by omega, by omega, h3⟩)]

theorem markPatch_succ (off : Nat) (name : List Nat) (nameLen i k : Nat) (l : List Mapping) :
    markPatch off name nameLen i (k + 1) l =
      markPatch off name nameLen (i + 1) k
        (if (l.getD (off + i) defaultMapping).symbol_len = nameLen ∧
            (l.getD (off + i) defaultMapping).symbol.take nameLen = name.take nameLen
          then l.set (off + i)
            { l.getD (off + i) defaultMapping with field_name := some name }
          else l) := rfl

theorem keyMatchScan_succ (off : Nat) (name : List Nat) (nameLen i k : Nat) (c : Ctx) :
    keyMatchScan off name nameLen i (k + 1) c =
      keyMatchScan off name nameLen (i + 1) k
        (if (c.schema_pool.getD (off + i) defaultMapping).symbol_len = nameLen ∧
            (c.schema_pool.getD (off + i) defaultMapping).symbol.take nameLen =
              name.take nameLen
          then { c with schema_pool := (c.schema_pool.set (off + i)
            { c.schema_pool.getD (off + i) defaultMapping with field_name := some name }) }
          else c) := rfl

theorem keyMatchScan_eq (off : Nat) (name : List Nat) (nameLen : Nat) :
    ∀ k i (c : Ctx), keyMatchScan off name nameLen i k c =
      { c with schema_pool := markPatch off name nameLen i k c.schema_pool } := by
  intro k
  induction k with
  | zero =>
    intro i c
    rfl
  | succ k ih =>
    intro i c
    rw [keyMatchScan_succ, markPatch_succ]
    by_cases hcond : (c.schema_pool.getD (off + i) defaultMapping).symbol_len = nameLen ∧
        (c.schema_pool.getD (off + i) defaultMapping).symbol.take nameLen =
          name.take nameLen
    · rw [if_pos hcond, if_pos hcond, ih]
    · rw [if_neg hcond, if_neg hcond, ih]

theorem recordZeroFields_eq (off : Nat) : ∀ count i (c : Ctx),
    recordZeroFields off i count c =
      { c with schema_pool := zeroPatch off i count c.schema_pool } := by
  intro count
  induction count with
  | zero =>
    intro i c
    rfl
  | succ k ih =>
    intro i c
    show recordZeroFields off (i + 1) k _ = _
    rw [ih (i + 1)]
    rfl

theorem symDefBytes_cons (f : DField) (fs : List DField) :
    symDefBytes (f :: fs) =
      6 :: (bserial_write_uint f.name.length ++ (f.name ++ symDefBytes fs)) := by
  show (6 :: (bserial_write_uint f.name.length ++ f.name)) ++ symDefBytes fs = _
  simp [List.append_assoc]

theorem recordReadSymbols_spec (off : Nat) (restS : List Nat) :
    ∀ (Fsuf : List DField) (i : Nat) (c : Ctx) (sck : Scope) (tail : List Scope),
    c.status = .ok → c.mode = .read → c.marker_buf = 255 →
    c.scopes = sck :: tail → sck.type = .record →
    c.input = symDefBytes Fsuf ++ restS →
    c.symtab.length + Fsuf.length ≤ c.config.max_num_symbols →
    (∀ f ∈ Fsuf, f.name.length ≤ c.config.max_symbol_len ∧ f.name.length < 2 ^ 64) →
    ∃ itv, recordReadSymbols off i Fsuf.length c = (.ok, { c with
      input := restS
      symtab := c.symtab ++ Fsuf.map (fun f => (⟨f.name, f.name.length⟩ : SymEntry))
      schema_pool := symsPatch off i Fsuf c.schema_pool
      scopes := { sck with iterator := itv } :: tail }) := by
  intro Fsuf
  induction Fsuf with
  | nil =>
    intro i c sck tail hok hmode hmark hsc htype hin hroom hnm
    refine ⟨sck.iterator, ?_⟩
    show ((Status.ok, c) : Status × Ctx) = _
    have hin2 : c.input = restS := by simpa [symDefBytes] using hin
    rw [show restS = c.input from hin2.symm]
    rw [show ({ sck with iterator := sck.iterator } : Scope) = sck from rfl, ← hsc]
    rw [show symsPatch off i [] c.schema_pool = c.schema_pool from rfl]
    simp only [List.map_nil, List.append_nil]
  | cons f fs ih =>
    intro i c sck tail hok hmode hmark hsc htype hin hroom hnm
    have hcs : curScope c = sck := by
      rw [curScope, hsc]
      rfl
    have hwc : withCur c { curScope c with iterator := i } =
        { c with scopes := { sck with iterator := i } :: tail } := by
      unfold withCur
      rw [hcs, hsc]
      rfl
    have hin2 : c.input = 6 :: (bserial_write_uint f.name.length ++
        (f.name ++ (symDefBytes fs ++ restS))) := by
      rw [hin, symDefBytes_cons]
      simp [List.append_assoc]
    have hsym := symbol_read_def_ok
      (c := { c with scopes := { sck with iterator := i } :: tail }) []
      hok hmode hmark (Or.inr htype)
      (by show c.symtab.length < c.config.max_num_symbols
          simp only [List.length_cons] at hroom
          omega)
      (hnm f (by simp)).1 (hnm f (by simp)).2
      (by show c.input = _; exact hin2)
    obtain ⟨itv, hrec⟩ := ih (i + 1)
      { c with
        status := .ok
        input := symDefBytes fs ++ restS
        symtab := (c.symtab ++ [⟨f.name, f.name.length⟩] : List SymEntry)
        scopes := { sck with iterator := i } :: tail
        schema_pool := (c.schema_pool.set (off + i)
          { c.schema_pool.getD (off + i) defaultMapping with
            symbol := f.name
            symbol_len := f.name.length }) }
      { sck with iterator := i } tail rfl hmode hmark rfl htype rfl
      (by simp only [List.length_append, List.length_cons, List.length_nil]
          simp only [List.length_cons] at hroom
          omega)
      (by intro f2 hf2
          exact hnm f2 (by simp [hf2]))
    refine ⟨itv, ?_⟩
    show (match bserial_symbol (withCur c { curScope c with iterator := i }) [] with
      | (.ok, sym, c2) =>
        recordReadSymbols off (i + 1) fs.length
          (poolSet c2 (off + i) { poolGet c2 (off + i) with
            symbol := sym
            symbol_len := sym.length })
      | (s, _, c2) => (s, c2)) = _
    rw [hwc, hsym]
    show recordReadSymbols off (i + 1) fs.length
      { c with
        status := .ok
        input := symDefBytes fs ++ restS
        symtab := (c.symtab ++ [⟨f.name, f.name.length⟩] : List SymEntry)
        scopes := { sck with iterator := i } :: tail
        schema_pool := (c.schema_pool.set (off + i)
          { c.schema_pool.getD (off + i) defaultMapping with
            symbol := f.name
            symbol_len := f.name.length }) } = _
    rw [hrec]
    show (Status.ok, _) = (Status.ok, _)
    simp only [hok, List.map_cons, List.append_assoc, List.singleton_append]
    rfl

/-- The accumulated effect of the read-side key pass on the schema pool:
one `markPatch` per requested name, in procedure order. -/
def marksAll (off width : Nat) : List (List Nat) → List Mapping → List Mapping
  | [], l => l
  | nm :: nms, l => marksAll off width nms (markPatch off nm nm.length 0 width l)

theorem marksAll_length (off width : Nat) : ∀ (names : List (List Nat)) (l : List Mapping),
    (marksAll off width names l).length = l.length := by
  intro names
  induction names with
  | nil => intro l; rfl
  | cons nm nms ih =>
    intro l
    show (marksAll off width nms _).length = _
    rw [ih, markPatch_length]

theorem marksAll_getD_out (off width : Nat) : ∀ (names : List (List Nat)) (l : List Mapping)
    (q : Nat), off + width ≤ l.length → ¬(off ≤ q ∧ q < off + width) →
    (marksAll off width names l).getD q defaultMapping = l.getD q defaultMapping := by
  intro names
  induction names with
  | nil => intro l q _ _; rfl
  | cons nm nms ih =>
    intro l q hb hq
    show (marksAll off width nms _).getD q defaultMapping = _
    rw [ih _ q (by rw [markPatch_length]; omega) hq]
    rw [markPatch_getD off nm nm.length width 0 l q (by omega)]
    rw [if_neg (by rintro ⟨h1, h2, _⟩; exact hq ⟨by omega, by omega⟩)]

theorem marksAll_getD (off : Nat) (wire : List DField) :
    ∀ (names : List (List Nat)) (l : List Mapping),
    off + wire.length ≤ l.length →
    (∀ j2, j2 < wire.length →
      (l.getD (off + j2) defaultMapping).symbol = (wire.getD j2 dfltField).name ∧
      (l.getD (off + j2) defaultMapping).symbol_len =
        (wire.getD j2 dfltField).name.length) →
    ∀ j, j < wire.length →
    (marksAll off wire.length names l).getD (off + j) defaultMapping =
      if (wire.getD j dfltField).name ∈ names
      then { l.getD (off + j) defaultMapping with
        field_name := some (wire.getD j dfltField).name }
      else l.getD (off + j) defaultMapping := by
  intro names
  induction names with
  | nil =>
    intro l hb hsym j hj
    rw [if_neg (by simp)]
    rfl
  | cons nm nms ih =>
    intro l hb hsym j hj
    have hstep : ∀ j2, j2 < wire.length →
        (markPatch off nm nm.length 0 wire.length l).getD (off + j2) defaultMapping =
        if (wire.getD j2 dfltField).name = nm
        then { l.getD (off + j2) defaultMapping with field_name := some nm }
        else l.getD (off + j2) defaultMapping := by
      intro j2 hj2
      rw [markPatch_getD off nm nm.length wire.length 0 l (off + j2) (by omega)]
      by_cases hc : (wire.getD j2 dfltField).name = nm
      · rw [if_pos ⟨by omega, by omega, by rw [(hsym j2 hj2).2, hc],
          by rw [(hsym j2 hj2).1, hc]⟩, if_pos hc]
      · rw [if_neg ?_, if_neg hc]
        rintro ⟨h1, h2, hlen2, htake⟩
        apply hc
        rw [(hsym j2 hj2).1] at htake
        rw [(hsym j2 hj2).2] at hlen2
        rw [← hlen2, List.take_length] at htake
        rw [hlen2, List.take_length] at htake
        exact htake
    have hb2 : off + wire.length ≤ (markPatch off nm nm.length 0 wire.length l).length := by
      rw [markPatch_length]
      omega
    have hsym2 : ∀ j2, j2 < wire.length →
        ((markPatch off nm nm.length 0 wire.length l).getD (off + j2)
          defaultMapping).symbol = (wire.getD j2 dfltField).name ∧
        ((markPatch off nm nm.length 0 wire.length l).getD (off + j2)
          defaultMapping).symbol_len = (wire.getD j2 dfltField).name.length := by
      intro j2 hj2
      rw [hstep j2 hj2]
      by_cases hc : (wire.getD j2 dfltField).name = nm
      · rw [if_pos hc]
        exact ⟨(hsym j2 hj2).1, (hsym j2 hj2).2⟩
      · rw [if_neg hc]
        exact hsym j2 hj2
    show (marksAll off wire.length nms _).getD (off + j) defaultMapping = _
    rw [ih _ hb2 hsym2 j hj]
    rw [hstep j hj]
    by_cases hmem : (wire.getD j dfltField).name ∈ nms
    · rw [if_pos hmem, if_pos (List.mem_cons_of_mem nm hmem)]
      by_cases hc : (wire.getD j dfltField).name = nm
      · rw [if_pos hc]
      · rw [if_neg hc]
    · rw [if_neg hmem]
      by_cases hc : (wire.getD j dfltField).name = nm
      · rw [if_pos hc, if_pos (hc ▸ List.mem_cons_self nm nms)]
        rw [hc]
      · rw [if_neg hc, if_neg (by
          intro hmem2
          rcases List.mem_cons.mp hmem2 with h | h
          · exact hc h
          · exact hmem h)]

theorem recordBody_keyio_read :
    ∀ (G : List DField) (c : Ctx) (sc : Scope) (tail : List Scope),
    c.status = .ok → c.mode = .read →
    c.scopes = sc :: tail → sc.type = .record → sc.record_mode = .keyIo →
    ∃ itv, recordBody c G =
      ({ c with
        schema_pool := marksAll sc.record_schema sc.len (G.map DField.name) c.schema_pool
        scopes := { sc with iterator := itv } :: tail }, G) := by
  intro G
  induction G with
  | nil =>
    intro c sc tail hok hmode hsc htype hkio
    refine ⟨sc.iterator, ?_⟩
    show (c, ([] : List DField)) = _
    rw [show ({ sc with iterator := sc.iterator } : Scope) = sc from rfl, ← hsc]
    rfl
  | cons g tl ih =>
    intro c sc tail hok hmode hsc htype hkio
    have hcs : curScope c = sc := by
      rw [curScope, hsc]
      rfl
    have hscan : keyMatchScan sc.record_schema g.name g.name.length 0 sc.len c =
        { c with schema_pool :=
          markPatch sc.record_schema g.name g.name.length 0 sc.len c.schema_pool } :=
      keyMatchScan_eq sc.record_schema g.name g.name.length sc.len 0 c
    have hcs2 : curScope { c with schema_pool := (markPatch sc.record_schema
        g.name g.name.length 0 sc.len c.schema_pool) } = sc := by
      rw [curScope]
      show c.scopes.headD rootScope = sc
      rw [hsc]
      rfl
    have hkey : bserial_key c g.name g.name.length =
        (false, { c with
          schema_pool := (markPatch sc.record_schema g.name g.name.length 0
            sc.len c.schema_pool)
          scopes := { sc with iterator := sc.iterator + 1 } :: tail }) := by
      unfold bserial_key
      rw [if_neg (status_ne_false hok), hcs]
      rw [if_neg (by rw [htype]; simp)]
      rw [if_pos hmode, hkio]
      show (false, withCur (keyMatchScan sc.record_schema g.name g.name.length 0 sc.len c)
        { curScope (keyMatchScan sc.record_schema g.name g.name.length 0 sc.len c) with
          iterator := (curScope
            (keyMatchScan sc.record_schema g.name g.name.length 0 sc.len c)).iterator
            + 1 }) = _
      rw [hscan, hcs2]
      unfold withCur
      show (false, { c with
        schema_pool := (markPatch sc.record_schema g.name g.name.length 0
          sc.len c.schema_pool)
        scopes := { sc with iterator := sc.iterator + 1 } :: c.scopes.tail }) = _
      rw [hsc, hkio]
      rfl
    obtain ⟨itv, hrec⟩ := ih
      { c with
        schema_pool := (markPatch sc.record_schema g.name g.name.length 0
          sc.len c.schema_pool)
        scopes := { sc with iterator := sc.iterator + 1 } :: tail }
      { sc with iterator := sc.iterator + 1 } tail hok hmode rfl htype hkio
    refine ⟨itv, ?_⟩
    show (match bserial_key c g.name g.name.length with
      | (true, c2) =>
        match fieldValOp c2 g.val with
        | (_, v, c2) =>
          let r := recordBody c2 tl
          (r.1, { g with val := v } :: r.2)
      | (false, c2) =>
        let r := recordBody c2 tl
        (r.1, g :: r.2)) = _
    rw [hkey]
    show ((recordBody { c with
        schema_pool := (markPatch sc.record_schema g.name g.name.length 0
          sc.len c.schema_pool)
        scopes := { sc with iterator := sc.iterator + 1 } :: tail } tl).1,
      g :: (recordBody { c with
        schema_pool := (markPatch sc.record_schema g.name g.name.length 0
          sc.len c.schema_pool)
        scopes := { sc with iterator := sc.iterator + 1 } :: tail } tl).2) = _
    rw [hrec]
    rfl

theorem record_step_keyio {c : Ctx} {wire : List DField} {rest : List Nat} {off addr : Nat}
    {gnames : List (List Nat)} {sc : Scope} {tail : List Scope}
    (hok : c.status = .ok) (hmode : c.mode = .read) (hmark : c.marker_buf = 255)
    (hsc : c.scopes = sc :: tail) (htype : sc.type = .record)
    (hkio : sc.record_mode = .keyIo)
    (hlen : sc.len = wire.length) (hoff : sc.record_schema = off)
    (haddr : sc.record_addr = addr)
    (hin : c.input = valuesBytes wire ++ rest)
    (hmarks : ∀ j, j < wire.length → (poolGet c (off + j)).field_name =
      if (wire.getD j dfltField).name ∈ gnames then some (wire.getD j dfltField).name
      else none)
    (hvalid : ∀ f ∈ wire, valValid f.val = true) :
    bserial_record c addr =
      match firstReq gnames wire 0 with
      | some j => (true, vstate c sc tail wire rest j)
      | none => (false,
          (bserial_end_op (vstate c sc tail wire rest wire.length) .record).2) := by
  have hcs : curScope c = sc := by
    rw [curScope, hsc]
    rfl
  have hwc : withCur c { sc with record_mode := .valueIo, iterator := 0 } =
      vstate c sc tail wire rest 0 := by
    unfold withCur vstate
    rw [hsc, List.drop_zero, ← hin]
    rfl
  unfold bserial_record
  rw [if_neg (status_ne_false hok)]
  rw [if_pos hmode, hcs]
  rw [if_pos (And.intro htype haddr.symm), hkio]
  show bserial_probe_next_record_field
    ((curScope (withCur c { sc with record_mode := .valueIo, iterator := 0 })).len + 1)
    (withCur c { sc with record_mode := .valueIo, iterator := 0 }) = _
  rw [hwc]
  show bserial_probe_next_record_field (sc.len + 1) (vstate c sc tail wire rest 0) = _
  rw [hlen]
  exact probe_phase hok hmode hmark hsc htype hlen hoff hmarks hvalid
    (wire.length + 1) 0 (by omega) (by omega)

theorem recordLoop_keyio {c : Ctx} {wire : List DField} {rest : List Nat} {off addr : Nat}
    {sc : Scope} {tail : List Scope}
    (hok : c.status = .ok) (hmode : c.mode = .read) (hmark : c.marker_buf = 255)
    (hsc : c.scopes = sc :: tail) (htype : sc.type = .record)
    (hkio : sc.record_mode = .keyIo)
    (hlen : sc.len = wire.length) (hoff : sc.record_schema = off)
    (haddr : sc.record_addr = addr) (haddr0 : addr ≠ 0)
    (hin : c.input = valuesBytes wire ++ rest)
    (hvalid : ∀ f ∈ wire, valValid f.val = true)
    (hW : (wire.map DField.name).Nodup)
    (hmarkN : (poolGet c (off + wire.length)).field_name = none)
    (fuel : Nat) (G : List DField)
    (hfuel : wire.length + 3 ≤ fuel)
    (hGd : (G.map DField.name).Nodup)
    (hkind : ∀ g ∈ G, ∀ f ∈ wire, f.name = g.name → sameKind g.val f.val = true)
    (hmarks : ∀ j, j < wire.length → (poolGet c (off + j)).field_name =
      if (wire.getD j dfltField).name ∈ G.map DField.name
      then some (wire.getD j dfltField).name else none) :
    recordLoop fuel c addr G =
      ((bserial_end_op (vstate c sc tail wire rest wire.length) .record).2,
        updVals wire 0 wire.length G) := by
  obtain ⟨fuel2, rfl⟩ : ∃ f2, fuel = f2 + 1 := ⟨fuel - 1, by omega⟩
  have hrec := record_step_keyio hok hmode hmark hsc htype hkio hlen hoff haddr hin
    hmarks hvalid
  cases hfr : firstReq (G.map DField.name) wire 0 with
  | none =>
    rw [hfr] at hrec
    show (match bserial_record c addr with
      | (false, c2) => (c2, G)
      | (true, c2) =>
        let r := recordBody c2 G
        recordLoop fuel2 r.1 addr r.2) = _
    rw [hrec]
    show ((bserial_end_op (vstate c sc tail wire rest wire.length) .record).2, G) = _
    rw [updVals_id (fun jj h1 h2 => firstReq_none_all hfr jj h1 h2)]
  | some j =>
    rw [hfr] at hrec
    obtain ⟨hij, hjlt, hjreq⟩ := firstReq_lt hfr
    obtain ⟨i2, hi21, hi22, hbody, _, hprog⟩ :=
      recordBody_valueio_read hok hmode hmark hsc htype hlen hoff hmarks hmarkN hvalid hW
        G j (by omega) hGd hkind
    have hj2 : j < i2 := hprog hjlt hjreq hjreq
    show (match bserial_record c addr with
      | (false, c2) => (c2, G)
      | (true, c2) =>
        let r := recordBody c2 G
        recordLoop fuel2 r.1 addr r.2) = _
    rw [hrec]
    show recordLoop fuel2 (recordBody (vstate c sc tail wire rest j) G).1 addr
      (recordBody (vstate c sc tail wire rest j) G).2 = _
    rw [hbody]
    show recordLoop fuel2 (vstate c sc tail wire rest i2) addr (updVals wire j i2 G) = _
    rw [recordLoop_valueio hok hmode hmark hsc htype hlen hoff haddr haddr0 hvalid hW hmarkN
      fuel2 i2 (updVals wire j i2 G) hi22 (by omega)
      (by rw [updVals_names]; exact hGd)
      (by
        intro g2 hg2 f hf heq
        unfold updVals at hg2
        obtain ⟨g0, hg0, hg0e⟩ := List.mem_map.mp hg2
        subst hg0e
        cases hw : wireIdxOf wire g0.name with
        | none =>
          rw [updOne_none _ _ hw] at heq ⊢
          exact hkind g0 hg0 f hf heq
        | some jw =>
          obtain ⟨hjwlt, hjwname⟩ := wireIdxOf_name hw
          rw [updOne_some _ _ hw] at heq ⊢
          by_cases hwin : j ≤ jw ∧ jw < i2
          · rw [if_pos hwin] at heq ⊢
            have hfeq : f = wire.getD jw dfltField := by
              have hfname : f.name = (wire.getD jw dfltField).name := by
                rw [hjwname]
                exact heq
              obtain ⟨fi, hfi, hfie⟩ := List.mem_iff_getElem.mp hf
              have hfi2 : fi < (wire.map DField.name).length := by simpa using hfi
              have hjw2 : jw < (wire.map DField.name).length := by simpa using hjwlt
              have : (wire.map DField.name)[fi] = (wire.map DField.name)[jw] := by
                rw [List.getElem_map, List.getElem_map]
                rw [hfie]
                rw [hfname]
                rw [List.getD_eq_getElem?_getD, List.getElem?_eq_getElem hjwlt]
                rfl
              have hfij := (List.Nodup.getElem_inj_iff hW).mp this
              subst hfij
              rw [← hfie]
              rw [List.getD_eq_getElem?_getD, List.getElem?_eq_getElem (by omega)]
              rfl
            rw [hfeq]
            exact sameKind_self _
          · rw [if_neg hwin] at heq ⊢
            exact hkind g0 hg0 f hf heq)
      (by rw [updVals_names]; exact hmarks)]
    rw [updVals_compose G (by omega) (by omega)]
    rw [← updVals_start_shift (show 0 ≤ j by omega)
      (fun jj h1 h2 => firstReq_some_prev hfr jj h1 h2)]

theorem begin_op_record_plain {c : Ctx} (hok : c.status = .ok) (hp : plainScope c) :
    bserial_begin_op c .record = bserial_push_scope c .record := by
  unfold bserial_begin_op
  rw [if_neg (status_ne_false hok)]
  rcases hp with h | h <;> simp [h]

theorem push_scope_record {c : Ctx} (hok : c.status = .ok)
    (hdepth : c.scopes.length ≠ c.config.max_depth) :
    bserial_push_scope c .record = (.ok, { c with
      scopes :=
        { freshScope .record c.schema_top with record_schema := c.schema_top } :: c.scopes
      schema_top := c.schema_top + c.config.max_record_fields }) := by
  unfold bserial_push_scope
  rw [if_neg (status_ne_false hok), if_neg hdepth]
  rfl

theorem record_read_body_plain {c : Ctx} {F : List DField} {rest : List Nat}
    {sck : Scope} {tail : List Scope}
    (hok : c.status = .ok) (hmode : c.mode = .read) (hmark : c.marker_buf = 255)
    (hsc : c.scopes = sck :: tail) (htype : sck.type = .record)
    (hpar : (tail.headD rootScope).type ≠ .table)
    (hin : c.input =
      bserial_write_uint F.length ++ (symDefBytes F ++ (valuesBytes F ++ rest)))
    (hFlen : F.length ≤ c.config.max_record_fields)
    (hF64 : F.length < 2 ^ 64)
    (hsymroom : c.symtab.length + F.length ≤ c.config.max_num_symbols)
    (hnames : ∀ f ∈ F, f.name.length ≤ c.config.max_symbol_len ∧ f.name.length < 2 ^ 64) :
    bserial_record_read_body c = (true, { c with
      status := .ok
      input := valuesBytes F ++ rest
      symtab := c.symtab ++ F.map (fun f => (⟨f.name, f.name.length⟩ : SymEntry))
      schema_pool := (symsPatch sck.record_schema 0 F
        (zeroPatch sck.record_schema 0 F.length c.schema_pool))
      scopes := { sck with
        record_mode := .keyIo
        iterator := 0
        len := F.length
        record_width := F.length } :: tail }) := by
  have hcs : curScope c = sck := by
    rw [curScope, hsc]
    rfl
  have hps : parentScope c = tail.headD rootScope := by
    unfold parentScope
    rw [hsc]
    rfl
  have hnotab : ¬(parentScope c).type = .table := by
    rw [hps]
    exact hpar
  obtain ⟨itv, hsyms⟩ := recordReadSymbols_spec sck.record_schema (valuesBytes F ++ rest) F 0
    { c with
      status := .ok
      input := symDefBytes F ++ (valuesBytes F ++ rest)
      schema_pool := zeroPatch sck.record_schema 0 F.length c.schema_pool
      scopes := ({ sck with record_mode := .keyIo, record_width := F.length } : Scope) :: tail }
    { sck with record_mode := .keyIo, record_width := F.length } tail
    rfl hmode hmark rfl htype rfl
    (by
      show c.symtab.length + F.length ≤ c.config.max_num_symbols
      exact hsymroom)
    (by
      intro f hf
      exact hnames f hf)
  unfold bserial_record_read_body
  rw [if_pos (Or.inl hnotab)]
  have hbig : bserial_read_uint (withCur c { curScope c with record_mode := .keyIo }).input =
      (.ok, F.length, symDefBytes F ++ (valuesBytes F ++ rest)) := by
    show bserial_read_uint c.input = _
    rw [hin]
    exact read_write_uint hF64 _
  simp only []
  rw [hbig]
  simp only [withCur, hcs, hsc, List.tail_cons]
  rw [if_neg (Nat.not_lt.mpr hFlen)]
  rw [if_neg hnotab]
  rw [if_neg hnotab]
  simp only [curScope, List.headD_cons]
  rw [recordZeroFields_eq]
  simp only [List.headD_cons, List.tail_cons]
  rw [hsyms]
  rw [decide_eq_false hnotab]
  unfold bserial_record_read_finish
  simp only [curScope, withCur, List.headD_cons, List.tail_cons]
  rw [if_neg Bool.false_ne_true]
  rfl

theorem record_first_read {c : Ctx} {F : List DField} {rest : List Nat} (addr : Nat)
    (hok : c.status = .ok) (hmode : c.mode = .read) (hmark : c.marker_buf = 255)
    (hroot : (curScope c).type = .root)
    (hdepth : c.scopes.length ≠ c.config.max_depth)
    (hin : c.input = recordBytes F ++ rest)
    (hFlen : F.length ≤ c.config.max_record_fields)
    (hF64 : F.length < 2 ^ 64)
    (hsymroom : c.symtab.length + F.length ≤ c.config.max_num_symbols)
    (hnames : ∀ f ∈ F, f.name.length ≤ c.config.max_symbol_len ∧ f.name.length < 2 ^ 64) :
    bserial_record c addr = (true, { c with
      status := .ok
      input := valuesBytes F ++ rest
      symtab := c.symtab ++ F.map (fun f => (⟨f.name, f.name.length⟩ : SymEntry))
      schema_pool := (symsPatch c.schema_top 0 F
        (zeroPatch c.schema_top 0 F.length c.schema_pool))
      schema_top := c.schema_top + c.config.max_record_fields
      scopes := { freshScope .record c.schema_top with
        record_schema := c.schema_top
        record_addr := addr
        record_mode := .keyIo
        iterator := 0
        len := F.length
        record_width := F.length } :: c.scopes }) := by
  have hroot2 : (c.scopes.headD rootScope).type = ScopeType.root := hroot
  have hin2 : c.input =
      10 :: (bserial_write_uint F.length ++ (symDefBytes F ++ (valuesBytes F ++ rest))) := by
    rw [hin]
    show recordBytes F ++ rest = _
    unfold recordBytes
    simp [List.append_assoc]
  have hbody := record_read_body_plain
    (c := { c with
      status := Status.ok
      input := bserial_write_uint F.length ++ (symDefBytes F ++ (valuesBytes F ++ rest))
      schema_top := c.schema_top + c.config.max_record_fields
      scopes := ({
        type := ScopeType.record
        iterator := 0
        len := 0
        record_mode := RecordMode.measureWidth
        record_schema := c.schema_top
        prev_schema_pool := c.schema_top
        record_addr := addr
        record_width := 0 } : Scope) :: c.scopes })
    rfl hmode hmark rfl rfl
    (by
      show (c.scopes.headD rootScope).type ≠ ScopeType.table
      rw [hroot2]
      simp)
    rfl hFlen hF64 hsymroom hnames
  have hrm := read_marker_cons
    (c := { c with
      schema_top := c.schema_top + c.config.max_record_fields
      scopes := ({
        type := ScopeType.record
        iterator := 0
        len := 0
        record_mode := RecordMode.measureWidth
        record_schema := c.schema_top
        prev_schema_pool := c.schema_top
        record_addr := addr
        record_width := 0 } : Scope) :: c.scopes })
    (b := 10)
    hmark hin2
  unfold bserial_record
  rw [if_neg (status_ne_false hok), if_pos hmode]
  rw [if_neg (by rw [hroot]; simp)]
  rw [begin_op_record_plain hok (Or.inl hroot), push_scope_record hok hdepth]
  simp only [withCur, curScope, parentScope, freshScope, List.headD_cons, List.tail_cons]
  rw [if_pos (show (c.scopes.headD rootScope).type ≠ ScopeType.table by rw [hroot2]; simp)]
  rw [hrm]
  simp only []
  rw [if_neg (show ¬(10 : Nat) ≠ 10 by decide)]
  rw [hbody]

theorem symDefBytes_len (F : List DField) : F.length ≤ (symDefBytes F).length := by
  induction F with
  | nil => simp [symDefBytes]
  | cons f fs ih =>
    rw [symDefBytes_cons]
    simp only [List.length_cons, List.length_append]
    omega

theorem recordBytes_len (F : List DField) : F.length + 1 ≤ (recordBytes F).length := by
  unfold recordBytes
  simp only [List.length_cons, List.length_append]
  have := symDefBytes_len F
  omega

theorem replicate_getD (n q : Nat) :
    (List.replicate n defaultMapping).getD q defaultMapping = defaultMapping := by
  rw [List.getD_eq_getElem?_getD, List.getElem?_replicate]
  by_cases h : q < n
  · rw [if_pos h]
    rfl
  · rw [if_neg h]
    rfl

theorem end_op_record_plain {c : Ctx} {sc : Scope} {tail : List Scope}
    (hok : c.status = .ok) (hsc : c.scopes = sc :: tail) (htype : sc.type = .record)
    (hpt : (tail.headD rootScope).type = .root ∨ (tail.headD rootScope).type = .record) :
    bserial_end_op c .record =
      (.ok, { c with schema_top := sc.prev_schema_pool, scopes := tail }) := by
  have hcs : curScope c = sc := by
    rw [curScope, hsc]
    rfl
  have hpop : bserial_pop_scope c =
      (.ok, { c with schema_top := sc.prev_schema_pool, scopes := tail }) := by
    unfold bserial_pop_scope
    rw [if_neg (status_ne_false hok), hcs]
    rw [if_neg (by rw [htype]; simp)]
    rw [hsc]
    rfl
  have hplain : plainScope { c with schema_top := sc.prev_schema_pool, scopes := tail } := by
    show (tail.headD rootScope).type = .root ∨ (tail.headD rootScope).type = .record
    exact hpt
  unfold bserial_end_op
  rw [if_neg (status_ne_false hok)]
  rw [if_pos (Or.inr ⟨by rw [hcs]; exact htype, rfl⟩)]
  rw [hpop]
  show bserial_auto_pop _ _ = _
  rw [auto_pop_plain _ hplain]

theorem discPool_getD {plen : Nat} {F : List DField} (hb : F.length ≤ plen) :
    ∀ j, j < F.length →
    (symsPatch 0 0 F (zeroPatch 0 0 F.length
      (List.replicate plen defaultMapping))).getD (0 + j) defaultMapping =
      ⟨(F.getD j dfltField).name, (F.getD j dfltField).name.length, none⟩ := by
  intro j hj
  rw [symsPatch_getD 0 F 0 _ (0 + j)
    (by rw [zeroPatch_length, List.length_replicate]; omega)]
  rw [dif_pos ⟨by omega, by omega⟩]
  rw [zeroPatch_getD 0 F.length 0 _ (0 + j) (by rw [List.length_replicate]; omega)]
  rw [if_pos ⟨by omega, by omega⟩]
  rw [replicate_getD]
  have hidx : 0 + j - 0 - 0 = j := by omega
  rw [hidx]

theorem discPool_getD_out {plen : Nat} {F : List DField} (hb : F.length ≤ plen)
    (q : Nat) (hq : F.length ≤ q) :
    (symsPatch 0 0 F (zeroPatch 0 0 F.length
      (List.replicate plen defaultMapping))).getD q defaultMapping = defaultMapping := by
  rw [symsPatch_getD 0 F 0 _ q
    (by rw [zeroPatch_length, List.length_replicate]; omega)]
  rw [dif_neg (by omega)]
  rw [zeroPatch_getD 0 F.length 0 _ q (by rw [List.length_replicate]; omega)]
  rw [if_neg (by omega)]
  exact replicate_getD plen q

theorem discPool_marks {plen : Nat} {F : List DField} (names : List (List Nat))
    (hb : F.length ≤ plen) :
    ∀ j, j < F.length →
    ((marksAll 0 F.length names (symsPatch 0 0 F (zeroPatch 0 0 F.length
        (List.replicate plen defaultMapping)))).getD (0 + j) defaultMapping).field_name =
      if (F.getD j dfltField).name ∈ names then some (F.getD j dfltField).name
      else none := by
  intro j hj
  have hb2 : 0 + F.length ≤ (symsPatch 0 0 F (zeroPatch 0 0 F.length
      (List.replicate plen defaultMapping))).length := by
    rw [symsPatch_length, zeroPatch_length, List.length_replicate]
    omega
  rw [marksAll_getD 0 F names _ hb2
    (by
      intro j2 hj2
      rw [discPool_getD hb j2 hj2]
      exact ⟨rfl, rfl⟩) j hj]
  by_cases hmem : (F.getD j dfltField).name ∈ names
  · rw [if_pos hmem, if_pos hmem]
  · rw [if_neg hmem, if_neg hmem]
    rw [discPool_getD hb j hj]

theorem discPool_marks_out {plen : Nat} {F : List DField} (names : List (List Nat))
    (hb : F.length ≤ plen) :
    ((marksAll 0 F.length names (symsPatch 0 0 F (zeroPatch 0 0 F.length
        (List.replicate plen defaultMapping)))).getD (0 + F.length)
      defaultMapping).field_name = none := by
  have hb2 : 0 + F.length ≤ (symsPatch 0 0 F (zeroPatch 0 0 F.length
      (List.replicate plen defaultMapping))).length := by
    rw [symsPatch_length, zeroPatch_length, List.length_replicate]
    omega
  rw [marksAll_getD_out 0 F.length names _ (0 + F.length) hb2 (by omega)]
  rw [discPool_getD_out hb (0 + F.length) (by omega)]
  rfl

theorem record_read_master (cfg : Config) (addr : Nat) (F G : List DField) (rest : List Nat)
    (haddr0 : addr ≠ 0) (hd : 2 ≤ cfg.max_depth)
    (hFlen : F.length ≤ cfg.max_record_fields)
    (hF64 : F.length < 2 ^ 64)
    (hsymroom : F.length ≤ cfg.max_num_symbols)
    (hnames : ∀ f ∈ F, f.name.length ≤ cfg.max_symbol_len ∧ f.name.length < 2 ^ 64)
    (hvalid : ∀ f ∈ F, valValid f.val = true)
    (hW : (F.map DField.name).Nodup)
    (hGd : (G.map DField.name).Nodup)
    (hkind : ∀ g ∈ G, ∀ f ∈ F, f.name = g.name → sameKind g.val f.val = true) :
    ∃ cR, serializeRecord (bserial_make_ctx cfg .read (recordBytes F ++ rest)) addr G =
      (cR, updVals F 0 F.length G) ∧ cR.status = .ok ∧ cR.input = rest := by
  have hb : F.length ≤ cfg.max_depth * cfg.max_record_fields := by
    have h1 : cfg.max_record_fields ≤ cfg.max_depth * cfg.max_record_fields :=
      Nat.le_mul_of_pos_left _ (by omega)
    omega
  set m := bserial_make_ctx cfg .read (recordBytes F ++ rest) with hm
  have hdisc := record_first_read (c := m) addr rfl rfl rfl rfl
    (by show (1 : Nat) ≠ cfg.max_depth; omega)
    (show m.input = recordBytes F ++ rest from rfl)
    hFlen hF64
    (by show 0 + F.length ≤ cfg.max_num_symbols; omega)
    hnames
  obtain ⟨itv, hkeyp⟩ := recordBody_keyio_read G
    { m with
      status := Status.ok
      input := valuesBytes F ++ rest
      symtab := m.symtab ++ F.map (fun f => (⟨f.name, f.name.length⟩ : SymEntry))
      schema_pool := (symsPatch m.schema_top 0 F
        (zeroPatch m.schema_top 0 F.length m.schema_pool))
      schema_top := m.schema_top + m.config.max_record_fields
      scopes := ({ freshScope .record m.schema_top with
        record_schema := m.schema_top
        record_addr := addr
        record_mode := .keyIo
        iterator := 0
        len := F.length
        record_width := F.length } : Scope) :: m.scopes }
    { freshScope .record m.schema_top with
      record_schema := m.schema_top
      record_addr := addr
      record_mode := .keyIo
      iterator := 0
      len := F.length
      record_width := F.length }
    m.scopes rfl rfl rfl rfl rfl
  have hmarksM : ∀ j, j < F.length →
      ((marksAll 0 F.length (G.map DField.name) (symsPatch 0 0 F (zeroPatch 0 0 F.length
        (List.replicate (cfg.max_depth * cfg.max_record_fields) defaultMapping)))).getD
        (0 + j) defaultMapping).field_name =
      if (F.getD j dfltField).name ∈ G.map DField.name
      then some (F.getD j dfltField).name else none :=
    fun j hj => discPool_marks (G.map DField.name) hb j hj
  have hmarkNM : ((marksAll 0 F.length (G.map DField.name)
      (symsPatch 0 0 F (zeroPatch 0 0 F.length
        (List.replicate (cfg.max_depth * cfg.max_record_fields) defaultMapping)))).getD
      (0 + F.length) defaultMapping).field_name = none :=
    discPool_marks_out (G.map DField.name) hb
  have hfuelM : F.length + 3 ≤ m.input.length + G.length + 7 := by
    show F.length + 3 ≤ (recordBytes F ++ rest).length + G.length + 7
    have := recordBytes_len F
    simp only [List.length_append]
    omega
  have key : serializeRecord m addr G =
      ((bserial_end_op (vstate
        { m with
          status := Status.ok
          input := valuesBytes F ++ rest
          symtab := m.symtab ++ F.map (fun f => (⟨f.name, f.name.length⟩ : SymEntry))
          schema_pool := (marksAll m.schema_top F.length (G.map DField.name)
            (symsPatch m.schema_top 0 F (zeroPatch m.schema_top 0 F.length m.schema_pool)))
          schema_top := m.schema_top + m.config.max_record_fields
          scopes := ({
            type := ScopeType.record
            iterator := itv
            len := F.length
            record_mode := RecordMode.keyIo
            record_schema := m.schema_top
            prev_schema_pool := m.schema_top
            record_addr := addr
            record_width := F.length } : Scope) :: m.scopes }
        {
          type := ScopeType.record
          iterator := itv
          len := F.length
          record_mode := RecordMode.keyIo
          record_schema := m.schema_top
          prev_schema_pool := m.schema_top
          record_addr := addr
          record_width := F.length }
        m.scopes F rest F.length) OpType.record).2, updVals F 0 F.length G) := by
    show recordLoop (m.input.length + G.length + 8) m addr G = _
    show (match bserial_record m addr with
      | (false, c2) => (c2, G)
      | (true, c2) =>
        recordLoop (m.input.length + G.length + 7) (recordBody c2 G).1 addr
          (recordBody c2 G).2) = _
    rw [hdisc]
    simp only []
    rw [hkeyp]
    simp only [freshScope]
    rw [recordLoop_keyio
      (c := { m with
        status := Status.ok
        input := valuesBytes F ++ rest
        symtab := m.symtab ++ F.map (fun f => (⟨f.name, f.name.length⟩ : SymEntry))
        schema_pool := (marksAll m.schema_top F.length (G.map DField.name)
          (symsPatch m.schema_top 0 F (zeroPatch m.schema_top 0 F.length m.schema_pool)))
        schema_top := m.schema_top + m.config.max_record_fields
        scopes := ({
          type := ScopeType.record
          iterator := itv
          len := F.length
          record_mode := RecordMode.keyIo
          record_schema := m.schema_top
          prev_schema_pool := m.schema_top
          record_addr := addr
          record_width := F.length } : Scope) :: m.scopes })
      rfl rfl rfl rfl rfl rfl rfl rfl rfl haddr0 rfl hvalid hW hmarkNM
      (m.input.length + G.length + 7) G hfuelM hGd hkind hmarksM]
  have hend := end_op_record_plain
      (c := vstate
        { m with
          status := Status.ok
          input := valuesBytes F ++ rest
          symtab := m.symtab ++ F.map (fun f => (⟨f.name, f.name.length⟩ : SymEntry))
          schema_pool := (marksAll m.schema_top F.length (G.map DField.name)
            (symsPatch m.schema_top 0 F (zeroPatch m.schema_top 0 F.length m.schema_pool)))
          schema_top := m.schema_top + m.config.max_record_fields
          scopes := ({
            type := ScopeType.record
            iterator := itv
            len := F.length
            record_mode := RecordMode.keyIo
            record_schema := m.schema_top
            prev_schema_pool := m.schema_top
            record_addr := addr
            record_width := F.length } : Scope) :: m.scopes }
        {
          type := ScopeType.record
          iterator := itv
          len := F.length
          record_mode := RecordMode.keyIo
          record_schema := m.schema_top
          prev_schema_pool := m.schema_top
          record_addr := addr
          record_width := F.length }
        m.scopes F rest F.length)
      rfl rfl rfl (Or.inl rfl)
  refine ⟨_, key, ?_, ?_⟩
  · rw [hend]
    rfl
  · rw [hend]
    show valuesBytes (List.drop F.length F) ++ rest = rest
    rw [List.drop_length]
    rfl

theorem SymInv_of_eq {c c2 : Ctx} (h : SymInv c) (ht : c2.symtab = c.symtab)
    (hi : c2.symtab_index = c.symtab_index) (he : c2.symtab_exp = c.symtab_exp)
    (hc : c2.config = c.config) : SymInv c2 := by
  have hslot : ∀ p, slotVal c2 p = slotVal c p := by
    intro p
    unfold slotVal
    rw [hi]
  have hpos : ∀ nm k, symPos c2 nm k = symPos c nm k := by
    intro nm k
    unfold symPos
    rw [he]
  refine ⟨?_, ?_, ?_, ?_, ?_, ?_, ?_, ?_, ?_⟩
  · rw [hi, he]
    exact h.idx_len
  · rw [he]
    exact h.exp_le
  · rw [ht, hc]
    exact h.tab_le
  · rw [hc, he]
    exact h.max_lt
  · intro p hp
    rw [hslot] at hp ⊢
    rw [ht]
    exact h.val_lt p hp
  · intro p hp q hq hnz heq
    rw [he] at hp hq
    rw [hslot] at hnz heq
    rw [hslot] at heq
    exact h.val_inj p hp q hq hnz heq
  · intro j hj
    rw [ht] at hj ⊢
    exact h.len_eq j hj
  · intro j1 hj1 j2 hj2 heq
    rw [ht] at hj1 hj2 heq
    exact h.buf_inj j1 hj1 j2 hj2 heq
  · intro j hj
    rw [ht] at hj
    obtain ⟨k, hk1, hku, hhit, hprev⟩ := h.findable j hj
    refine ⟨k, hk1, by rw [he]; exact hku, ?_, ?_⟩
    · rw [ht, hpos, hslot]
      exact hhit
    · intro mm hm1 hmk
      rw [ht, hpos, hslot]
      exact hprev mm hm1 hmk

theorem record_first_write {c : Ctx} (addr : Nat)
    (hok : c.status = .ok) (hmode : c.mode = .write)
    (hroot : (curScope c).type = .root)
    (hdepth : c.scopes.length ≠ c.config.max_depth) :
    bserial_record c addr = (true, { c with
      status := .ok
      output := c.output ++ [10]
      schema_top := c.schema_top + c.config.max_record_fields
      scopes := { freshScope .record c.schema_top with
        record_schema := c.schema_top
        record_addr := addr } :: c.scopes }) := by
  have hroot2 : (c.scopes.headD rootScope).type = ScopeType.root := hroot
  unfold bserial_record
  rw [if_neg (status_ne_false hok)]
  rw [if_neg (by rw [hmode]; simp)]
  rw [if_neg (by rw [hroot]; simp)]
  rw [begin_op_record_plain hok (Or.inl hroot), push_scope_record hok hdepth]
  simp only [withCur, curScope, parentScope, freshScope, List.headD_cons, List.tail_cons]
  rw [if_pos (Or.inl (show (c.scopes.headD rootScope).type ≠ ScopeType.table by
    rw [hroot2]; simp))]
  rw [if_pos (show (c.scopes.headD rootScope).type ≠ ScopeType.table by
    rw [hroot2]; simp)]

theorem recordBody_measure :
    ∀ (G : List DField) (c : Ctx) (sc : Scope) (tail : List Scope),
    c.status = .ok → c.mode = .write →
    c.scopes = sc :: tail → sc.type = .record → sc.record_mode = .measureWidth →
    recordBody c G =
      ({ c with scopes := { sc with len := sc.len + G.length } :: tail }, G) := by
  intro G
  induction G with
  | nil =>
    intro c sc tail hok hmode hsc htype hmw
    show (c, ([] : List DField)) = _
    rw [show ({ sc with len := sc.len + [].length } : Scope) = sc from rfl, ← hsc]
  | cons g tl ih =>
    intro c sc tail hok hmode hsc htype hmw
    have hcs : curScope c = sc := by
      rw [curScope, hsc]
      rfl
    have hkey : bserial_key c g.name g.name.length =
        (false, { c with scopes := { sc with len := sc.len + 1 } :: tail }) := by
      unfold bserial_key
      rw [if_neg (status_ne_false hok), hcs]
      rw [if_neg (by rw [htype]; simp)]
      rw [if_neg (by rw [hmode]; simp)]
      rw [hmw]
      show (false, withCur c { sc with len := sc.len + 1, record_mode := .measureWidth }) = _
      unfold withCur
      rw [hsc]
      rfl
    show (match bserial_key c g.name g.name.length with
      | (true, c2) =>
        match fieldValOp c2 g.val with
        | (_, v, c2) =>
          let r := recordBody c2 tl
          (r.1, { g with val := v } :: r.2)
      | (false, c2) =>
        let r := recordBody c2 tl
        (r.1, g :: r.2)) = _
    rw [hkey]
    show ((recordBody { c with scopes := { sc with len := sc.len + 1 } :: tail } tl).1,
      g :: (recordBody { c with scopes := { sc with len := sc.len + 1 } :: tail } tl).2) = _
    rw [ih { c with scopes := { sc with len := sc.len + 1 } :: tail }
      { sc with len := sc.len + 1 } tail hok hmode rfl htype hmw]
    show (({ c with scopes := { sc with len := sc.len + 1 + tl.length } :: tail } : Ctx),
      g :: tl) = _
    rw [show sc.len + 1 + tl.length = sc.len + (tl.length + 1) from by omega]
    rfl

theorem record_step_measure {c : Ctx} {sc : Scope} {tail : List Scope} (addr : Nat)
    (hok : c.status = .ok) (hmode : c.mode = .write)
    (hsc : c.scopes = sc :: tail) (htype : sc.type = .record)
    (hmw : sc.record_mode = .measureWidth) (haddr : sc.record_addr = addr) :
    bserial_record c addr = (true, { c with
      status := .ok
      output := c.output ++ bserial_write_uint sc.len
      scopes := { sc with record_mode := .keyIo } :: tail }) := by
  have hcs : curScope c = sc := by
    rw [curScope, hsc]
    rfl
  unfold bserial_record
  rw [if_neg (status_ne_false hok)]
  rw [if_neg (by rw [hmode]; simp)]
  rw [hcs]
  rw [if_pos (And.intro htype haddr)]
  rw [hmw]
  show (true, { withCur c { sc with record_mode := .keyIo } with
    status := .ok
    output := (withCur c { sc with record_mode := .keyIo }).output ++
      bserial_write_uint (curScope (withCur c { sc with record_mode := .keyIo })).len }) = _
  unfold withCur curScope
  simp only [List.headD_cons]
  rw [hsc]
  rfl

theorem record_step_keyio_write {c : Ctx} {sc : Scope} {tail : List Scope} (addr : Nat)
    (hok : c.status = .ok) (hmode : c.mode = .write)
    (hsc : c.scopes = sc :: tail) (htype : sc.type = .record)
    (hkio : sc.record_mode = .keyIo) (haddr : sc.record_addr = addr) :
    bserial_record c addr =
      (true, { c with scopes := { sc with record_mode := .valueIo, iterator := 0 } :: tail }) := by
  have hcs : curScope c = sc := by
    rw [curScope, hsc]
    rfl
  unfold bserial_record
  rw [if_neg (status_ne_false hok)]
  rw [if_neg (by rw [hmode]; simp)]
  rw [hcs]
  rw [if_pos (And.intro htype haddr)]
  rw [hkio]
  show (true, withCur c { sc with record_mode := .valueIo, iterator := 0 }) = _
  unfold withCur
  rw [hsc]
  rfl

theorem record_step_valueio_write {c : Ctx} {sc : Scope} {tail : List Scope} (addr : Nat)
    (hok : c.status = .ok) (hmode : c.mode = .write)
    (hsc : c.scopes = sc :: tail) (htype : sc.type = .record)
    (hvio : sc.record_mode = .valueIo) (haddr : sc.record_addr = addr) :
    bserial_record c addr = (false, (bserial_end_op c .record).2) := by
  have hcs : curScope c = sc := by
    rw [curScope, hsc]
    rfl
  unfold bserial_record
  rw [if_neg (status_ne_false hok)]
  rw [if_neg (by rw [hmode]; simp)]
  rw [hcs]
  rw [if_pos (And.intro htype haddr)]
  rw [hvio]

theorem recordBody_valueio_write :
    ∀ (G : List DField) (c : Ctx) (sc : Scope) (tail : List Scope),
    c.status = .ok → c.mode = .write →
    c.scopes = sc :: tail → sc.type = .record → sc.record_mode = .valueIo →
    ∃ itv, recordBody c G =
      ({ c with
        status := .ok
        output := c.output ++ valuesBytes G
        scopes := { sc with iterator := itv } :: tail }, G) := by
  intro G
  induction G with
  | nil =>
    intro c sc tail hok hmode hsc htype hvio
    refine ⟨sc.iterator, ?_⟩
    show (c, ([] : List DField)) = _
    rw [show ({ sc with iterator := sc.iterator } : Scope) = sc from rfl, ← hsc]
    rw [show valuesBytes [] = [] from rfl, List.append_nil, ← hok]
  | cons g tl ih =>
    intro c sc tail hok hmode hsc htype hvio
    have hcs : curScope c = sc := by
      rw [curScope, hsc]
      rfl
    have hkey : bserial_key c g.name g.name.length =
        (true, { c with
          scopes := { sc with iterator := sc.iterator + 1, record_mode := .valueIo }
            :: tail }) := by
      unfold bserial_key
      rw [if_neg (status_ne_false hok), hcs]
      rw [if_neg (by rw [htype]; simp)]
      rw [if_neg (by rw [hmode]; simp)]
      rw [hvio]
      show (true, withCur c { sc with iterator := sc.iterator + 1, record_mode := .valueIo }) = _
      unfold withCur
      rw [hsc]
      rfl
    have hval : fieldValOp { c with
        scopes := { sc with iterator := sc.iterator + 1, record_mode := .valueIo }
          :: tail } g.val =
        (.ok, g.val, { c with
          output := c.output ++ valBytes g.val
          scopes := { sc with iterator := sc.iterator + 1, record_mode := .valueIo }
            :: tail }) := by
      rw [fieldValOp_write (c := { c with
        scopes := { sc with iterator := sc.iterator + 1, record_mode := .valueIo } :: tail })
        g.val hok hmode (Or.inr htype)]
    obtain ⟨itv, hrec⟩ := ih
      { c with
        output := c.output ++ valBytes g.val
        scopes := { sc with iterator := sc.iterator + 1, record_mode := .valueIo } :: tail }
      { sc with iterator := sc.iterator + 1, record_mode := .valueIo } tail
      hok hmode rfl htype rfl
    refine ⟨itv, ?_⟩
    show (match bserial_key c g.name g.name.length with
      | (true, c2) =>
        match fieldValOp c2 g.val with
        | (_, v, c2) =>
          let r := recordBody c2 tl
          (r.1, { g with val := v } :: r.2)
      | (false, c2) =>
        let r := recordBody c2 tl
        (r.1, g :: r.2)) = _
    rw [hkey]
    show (match fieldValOp { c with
        scopes := { sc with iterator := sc.iterator + 1, record_mode := .valueIo }
          :: tail } g.val with
      | (_, v, c2) =>
        let r := recordBody c2 tl
        (r.1, { g with val := v } :: r.2)) = _
    rw [hval]
    show ((recordBody { c with
        output := c.output ++ valBytes g.val
        scopes := { sc with iterator := sc.iterator + 1, record_mode := .valueIo }
          :: tail } tl).1,
      { g with val := g.val } :: (recordBody { c with
        output := c.output ++ valBytes g.val
        scopes := { sc with iterator := sc.iterator + 1, record_mode := .valueIo }
          :: tail } tl).2) = _
    rw [hrec]
    show ({ c with
      status := .ok
      output := (c.output ++ valBytes g.val) ++ valuesBytes tl
      scopes := { sc with iterator := itv, record_mode := .valueIo } :: tail },
      { g with val := g.val } :: tl) = _
    rw [List.append_assoc, hvio]
    rfl

theorem recordBody_keyio_write :
    ∀ (G : List DField) (c : Ctx) (sc : Scope) (tail : List Scope),
    c.status = .ok → c.mode = .write →
    c.scopes = sc :: tail → sc.type = .record → sc.record_mode = .keyIo →
    SymInv c →
    (∀ f ∈ G, f.name.length ≤ c.config.max_symbol_len) →
    (∀ f ∈ G, ∀ j, j < c.symtab.length → (c.symtab.getD j defaultSym).buf ≠ f.name) →
    (G.map DField.name).Nodup →
    c.symtab.length + G.length ≤ c.config.max_num_symbols →
    ∃ idx itv, recordBody c G =
      ({ c with
        status := .ok
        symtab := c.symtab ++ G.map (fun f => (⟨f.name, f.name.length⟩ : SymEntry))
        symtab_index := idx
        output := c.output ++ symDefBytes G
        scopes := { sc with iterator := itv } :: tail }, G) := by
  intro G
  induction G with
  | nil =>
    intro c sc tail hok hmode hsc htype hkio hinv hlens hfresh hGd hroom
    refine ⟨c.symtab_index, sc.iterator, ?_⟩
    show (c, ([] : List DField)) = _
    rw [show ({ sc with iterator := sc.iterator } : Scope) = sc from rfl, ← hsc]
    rw [show symDefBytes [] = ([] : List Nat) from rfl]
    simp only [List.map_nil, List.append_nil]
    rw [← hok]
  | cons g tl ih =>
    intro c sc tail hok hmode hsc htype hkio hinv hlens hfresh hGd hroom
    have hcs : curScope c = sc := by
      rw [curScope, hsc]
      rfl
    have hkey : ∀ r : Status × List Nat × Ctx,
        bserial_symbol { c with
          scopes := { sc with iterator := sc.iterator + 1, record_mode := .keyIo }
            :: tail } g.name = r →
        bserial_key c g.name g.name.length = (false, r.2.2) := by
      intro r hr
      unfold bserial_key
      rw [if_neg (status_ne_false hok), hcs]
      rw [if_neg (by rw [htype]; simp)]
      rw [if_neg (by rw [hmode]; simp)]
      rw [hkio]
      show (false, (bserial_symbol (withCur c { sc with iterator := sc.iterator + 1, record_mode := .keyIo }) g.name).2.2) = _
      rw [show withCur c { sc with iterator := sc.iterator + 1, record_mode := .keyIo } =
        { c with scopes := { sc with iterator := sc.iterator + 1, record_mode := .keyIo }
          :: tail } from by unfold withCur; rw [hsc]; rfl]
      rw [hr]
    have hinv1 : SymInv { c with
        scopes := { sc with iterator := sc.iterator + 1, record_mode := .keyIo } :: tail } :=
      SymInv_of_eq hinv rfl rfl rfl rfl
    obtain ⟨k, hk1, hku, hp0, hprev, hsym⟩ := symbol_write_insert
      (c := { c with
        scopes := { sc with iterator := sc.iterator + 1, record_mode := .keyIo } :: tail })
      hinv1 hok hmode (Or.inr htype) (hlens g (by simp))
      (by
        intro j hj
        exact hfresh g (by simp) j hj)
      (by
        show c.symtab.length < c.config.max_num_symbols
        simp only [List.length_cons] at hroom
        omega)
    obtain ⟨idx, itv, hrec⟩ := ih
      { c with
        scopes := { sc with iterator := sc.iterator + 1, record_mode := .keyIo } :: tail
        symtab := c.symtab ++ [(⟨g.name, g.name.length⟩ : SymEntry)]
        symtab_index := (c.symtab_index.set
          (symPos { c with
            scopes := { sc with iterator := sc.iterator + 1, record_mode := .keyIo } :: tail }
            g.name k)
          (c.symtab.length + 1))
        status := .ok
        output := c.output ++ 6 :: bserial_write_uint g.name.length ++ g.name }
      { sc with iterator := sc.iterator + 1, record_mode := .keyIo } tail
      rfl hmode rfl htype rfl
      (SymInv_insert hinv1
        (by
          intro j hj
          exact hfresh g (by simp) j hj)
        (by
          show c.symtab.length < c.config.max_num_symbols
          simp only [List.length_cons] at hroom
          omega)
        hk1 hku hp0 hprev)
      (by
        intro f hf
        exact hlens f (by simp [hf]))
      (by
        intro f hf j hj
        show ((c.symtab ++ [(⟨g.name, g.name.length⟩ : SymEntry)]).getD j defaultSym).buf ≠
          f.name
        simp only [List.length_append, List.length_cons, List.length_nil] at hj
        rcases Nat.lt_or_ge j c.symtab.length with hlt | hge
        · rw [List.getD_eq_getElem?_getD, List.getElem?_append_left hlt,
            ← List.getD_eq_getElem?_getD]
          exact hfresh f (by simp [hf]) j hlt
        · have hje : j = c.symtab.length := by omega
          subst hje
          rw [List.getD_eq_getElem?_getD]
          rw [List.getElem?_append_right (by omega)]
          simp only [Nat.sub_self, List.getElem?_cons_zero, Option.getD_some]
          show g.name ≠ f.name
          intro hcon
          have hdup := hGd
          simp only [List.map_cons, List.nodup_cons] at hdup
          exact hdup.1 (hcon ▸ List.mem_map_of_mem DField.name hf))
      (by simpa using hGd.of_cons)
      (by
        simp only [List.length_append, List.length_cons, List.length_nil]
        simp only [List.length_cons] at hroom
        omega)
    refine ⟨idx, itv, ?_⟩
    show (match bserial_key c g.name g.name.length with
      | (true, c2) =>
        match fieldValOp c2 g.val with
        | (_, v, c2) =>
          let r := recordBody c2 tl
          (r.1, { g with val := v } :: r.2)
      | (false, c2) =>
        let r := recordBody c2 tl
        (r.1, g :: r.2)) = _
    rw [hkey _ hsym]
    show ((recordBody { c with
        scopes := { sc with iterator := sc.iterator + 1, record_mode := .keyIo } :: tail
        symtab := c.symtab ++ [(⟨g.name, g.name.length⟩ : SymEntry)]
        symtab_index := (c.symtab_index.set
          (symPos { c with
            scopes := { sc with iterator := sc.iterator + 1, record_mode := .keyIo } :: tail }
            g.name k)
          (c.symtab.length + 1))
        status := .ok
        output := c.output ++ 6 :: bserial_write_uint g.name.length ++ g.name } tl).1,
      g :: (recordBody { c with
        scopes := { sc with iterator := sc.iterator + 1, record_mode := .keyIo } :: tail
        symtab := c.symtab ++ [(⟨g.name, g.name.length⟩ : SymEntry)]
        symtab_index := (c.symtab_index.set
          (symPos { c with
            scopes := { sc with iterator := sc.iterator + 1, record_mode := .keyIo } :: tail }
            g.name k)
          (c.symtab.length + 1))
        status := .ok
        output := c.output ++ 6 :: bserial_write_uint g.name.length ++ g.name } tl).2) = _
    rw [hrec]
    show ({ c with
      status := .ok
      symtab := (c.symtab ++ [(⟨g.name, g.name.length⟩ : SymEntry)]) ++
        tl.map (fun (f : DField) => (⟨f.name, f.name.length⟩ : SymEntry))
      symtab_index := idx
      output := (c.output ++ 6 :: bserial_write_uint g.name.length ++ g.name) ++
        symDefBytes tl
      scopes := { sc with iterator := itv, record_mode := .keyIo } :: tail }, g :: tl) = _
    rw [symDefBytes_cons, hkio]
    simp only [List.map_cons, List.append_assoc, List.singleton_append, List.cons_append,
      List.nil_append]

theorem record_write_master (cfg : Config) (addr : Nat) (F : List DField)
    (haddr0 : addr ≠ 0) (hd1 : cfg.max_depth ≠ 1)
    (hmax : cfg.max_num_symbols ≤ 2 ^ 31)
    (hsymroom : F.length ≤ cfg.max_num_symbols)
    (hnames : ∀ f ∈ F, f.name.length ≤ cfg.max_symbol_len)
    (hW : (F.map DField.name).Nodup) :
    ∃ cW, serializeRecord (bserial_make_ctx cfg .write []) addr F = (cW, F) ∧
      cW.status = .ok ∧ cW.output = recordBytes F := by
  set m := bserial_make_ctx cfg .write [] with hm
  have h1 := record_first_write (c := m) addr rfl rfl rfl
    (by show (1 : Nat) ≠ cfg.max_depth; omega)
  have hmeas := recordBody_measure F
    { m with
      status := Status.ok
      output := m.output ++ [10]
      schema_top := m.schema_top + m.config.max_record_fields
      scopes := ({
        type := ScopeType.record
        iterator := 0
        len := 0
        record_mode := RecordMode.measureWidth
        record_schema := m.schema_top
        prev_schema_pool := m.schema_top
        record_addr := addr
        record_width := 0 } : Scope) :: m.scopes }
    {
        type := ScopeType.record
        iterator := 0
        len := 0
        record_mode := RecordMode.measureWidth
        record_schema := m.schema_top
        prev_schema_pool := m.schema_top
        record_addr := addr
        record_width := 0 } m.scopes rfl rfl rfl rfl rfl
  have hstep2 := record_step_measure
    (c := { m with
      status := Status.ok
      output := m.output ++ [10]
      schema_top := m.schema_top + m.config.max_record_fields
      scopes := ({
        type := ScopeType.record
        iterator := 0
        len := 0 + F.length
        record_mode := RecordMode.measureWidth
        record_schema := m.schema_top
        prev_schema_pool := m.schema_top
        record_addr := addr
        record_width := 0 } : Scope) :: m.scopes })
    addr rfl rfl rfl rfl rfl rfl
  have hinv3 : SymInv { m with
      status := Status.ok
      output := (m.output ++ [10]) ++ bserial_write_uint (0 + F.length)
      schema_top := m.schema_top + m.config.max_record_fields
      scopes := ({
        type := ScopeType.record
        iterator := 0
        len := 0 + F.length
        record_mode := RecordMode.keyIo
        record_schema := m.schema_top
        prev_schema_pool := m.schema_top
        record_addr := addr
        record_width := 0 } : Scope) :: m.scopes } :=
    SymInv_of_eq (SymInv_fresh cfg .write [] hmax) rfl rfl rfl rfl
  obtain ⟨idx, itv, hkeyw⟩ := recordBody_keyio_write F
    { m with
      status := Status.ok
      output := (m.output ++ [10]) ++ bserial_write_uint (0 + F.length)
      schema_top := m.schema_top + m.config.max_record_fields
      scopes := ({
        type := ScopeType.record
        iterator := 0
        len := 0 + F.length
        record_mode := RecordMode.keyIo
        record_schema := m.schema_top
        prev_schema_pool := m.schema_top
        record_addr := addr
        record_width := 0 } : Scope) :: m.scopes }
    {
        type := ScopeType.record
        iterator := 0
        len := 0 + F.length
        record_mode := RecordMode.keyIo
        record_schema := m.schema_top
        prev_schema_pool := m.schema_top
        record_addr := addr
        record_width := 0 } m.scopes rfl rfl rfl rfl rfl hinv3
    (by
      intro f hf
      exact hnames f hf)
    (by
      intro f hf j hj
      exact absurd (show j < 0 from hj) (by omega))
    hW
    (by
      show 0 + F.length ≤ cfg.max_num_symbols
      omega)
  have hstep3 := record_step_keyio_write
    (c := { m with
      status := Status.ok
      output := ((m.output ++ [10]) ++ bserial_write_uint (0 + F.length)) ++ symDefBytes F
      schema_top := m.schema_top + m.config.max_record_fields
      symtab := m.symtab ++ F.map (fun (f : DField) => (⟨f.name, f.name.length⟩ : SymEntry))
      symtab_index := idx
      scopes := ({
        type := ScopeType.record
        iterator := itv
        len := 0 + F.length
        record_mode := RecordMode.keyIo
        record_schema := m.schema_top
        prev_schema_pool := m.schema_top
        record_addr := addr
        record_width := 0 } : Scope) :: m.scopes })
    addr rfl rfl rfl rfl rfl rfl
  obtain ⟨itv2, hvalw⟩ := recordBody_valueio_write F
    { m with
      status := Status.ok
      output := ((m.output ++ [10]) ++ bserial_write_uint (0 + F.length)) ++ symDefBytes F
      schema_top := m.schema_top + m.config.max_record_fields
      symtab := m.symtab ++ F.map (fun (f : DField) => (⟨f.name, f.name.length⟩ : SymEntry))
      symtab_index := idx
      scopes := ({
        type := ScopeType.record
        iterator := 0
        len := 0 + F.length
        record_mode := RecordMode.valueIo
        record_schema := m.schema_top
        prev_schema_pool := m.schema_top
        record_addr := addr
        record_width := 0 } : Scope) :: m.scopes }
    {
        type := ScopeType.record
        iterator := 0
        len := 0 + F.length
        record_mode := RecordMode.valueIo
        record_schema := m.schema_top
        prev_schema_pool := m.schema_top
        record_addr := addr
        record_width := 0 } m.scopes rfl rfl rfl rfl rfl
  have hstep4 := record_step_valueio_write
    (c := { m with
      status := Status.ok
      output := (((m.output ++ [10]) ++ bserial_write_uint (0 + F.length)) ++ symDefBytes F) ++ valuesBytes F
      schema_top := m.schema_top + m.config.max_record_fields
      symtab := m.symtab ++ F.map (fun (f : DField) => (⟨f.name, f.name.length⟩ : SymEntry))
      symtab_index := idx
      scopes := ({
        type := ScopeType.record
        iterator := itv2
        len := 0 + F.length
        record_mode := RecordMode.valueIo
        record_schema := m.schema_top
        prev_schema_pool := m.schema_top
        record_addr := addr
        record_width := 0 } : Scope) :: m.scopes })
    addr rfl rfl rfl rfl rfl rfl
  have hend := end_op_record_plain
    (c := { m with
      status := Status.ok
      output := (((m.output ++ [10]) ++ bserial_write_uint (0 + F.length)) ++ symDefBytes F) ++ valuesBytes F
      schema_top := m.schema_top + m.config.max_record_fields
      symtab := m.symtab ++ F.map (fun (f : DField) => (⟨f.name, f.name.length⟩ : SymEntry))
      symtab_index := idx
      scopes := ({
        type := ScopeType.record
        iterator := itv2
        len := 0 + F.length
        record_mode := RecordMode.valueIo
        record_schema := m.schema_top
        prev_schema_pool := m.schema_top
        record_addr := addr
        record_width := 0 } : Scope) :: m.scopes })
    rfl rfl rfl (Or.inl rfl)
  have key : serializeRecord m addr F =
      ({ m with
        status := Status.ok
        output := (((m.output ++ [10]) ++ bserial_write_uint (0 + F.length)) ++
          symDefBytes F) ++ valuesBytes F
        symtab := m.symtab ++ F.map (fun (f : DField) => (⟨f.name, f.name.length⟩ : SymEntry))
        symtab_index := idx }, F) := by
    show recordLoop (m.input.length + F.length + 8) m addr F = _
    show (match bserial_record m addr with
      | (false, c2) => (c2, F)
      | (true, c2) =>
        recordLoop (m.input.length + F.length + 7) (recordBody c2 F).1 addr
          (recordBody c2 F).2) = _
    rw [h1]
    simp only [freshScope]
    rw [hmeas]
    simp only []
    show (match bserial_record { m with
      status := Status.ok
      output := m.output ++ [10]
      schema_top := m.schema_top + m.config.max_record_fields
      scopes := ({
        type := ScopeType.record
        iterator := 0
        len := 0 + F.length
        record_mode := RecordMode.measureWidth
        record_schema := m.schema_top
        prev_schema_pool := m.schema_top
        record_addr := addr
        record_width := 0 } : Scope) :: m.scopes } addr with
      | (false, c2) => (c2, F)
      | (true, c2) =>
        recordLoop (m.input.length + F.length + 6) (recordBody c2 F).1 addr
          (recordBody c2 F).2) = _
    rw [hstep2]
    simp only []
    rw [hkeyw]
    simp only []
    show (match bserial_record { m with
      status := Status.ok
      output := ((m.output ++ [10]) ++ bserial_write_uint (0 + F.length)) ++ symDefBytes F
      schema_top := m.schema_top + m.config.max_record_fields
      symtab := m.symtab ++ F.map (fun (f : DField) => (⟨f.name, f.name.length⟩ : SymEntry))
      symtab_index := idx
      scopes := ({
        type := ScopeType.record
        iterator := itv
        len := 0 + F.length
        record_mode := RecordMode.keyIo
        record_schema := m.schema_top
        prev_schema_pool := m.schema_top
        record_addr := addr
        record_width := 0 } : Scope) :: m.scopes } addr with
      | (false, c2) => (c2, F)
      | (true, c2) =>
        recordLoop (m.input.length + F.length + 5) (recordBody c2 F).1 addr
          (recordBody c2 F).2) = _
    rw [hstep3]
    simp only []
    rw [hvalw]
    simp only []
    show (match bserial_record { m with
      status := Status.ok
      output := (((m.output ++ [10]) ++ bserial_write_uint (0 + F.length)) ++ symDefBytes F) ++ valuesBytes F
      schema_top := m.schema_top + m.config.max_record_fields
      symtab := m.symtab ++ F.map (fun (f : DField) => (⟨f.name, f.name.length⟩ : SymEntry))
      symtab_index := idx
      scopes := ({
        type := ScopeType.record
        iterator := itv2
        len := 0 + F.length
        record_mode := RecordMode.valueIo
        record_schema := m.schema_top
        prev_schema_pool := m.schema_top
        record_addr := addr
        record_width := 0 } : Scope) :: m.scopes } addr with
      | (false, c2) => (c2, F)
      | (true, c2) =>
        recordLoop (m.input.length + F.length + 4) (recordBody c2 F).1 addr
          (recordBody c2 F).2) = _
    rw [hstep4, hend]
  refine ⟨_, key, rfl, ?_⟩
  show (((m.output ++ [10]) ++ bserial_write_uint (0 + F.length)) ++ symDefBytes F) ++
    valuesBytes F = recordBytes F
  show (((([] : List Nat) ++ [10]) ++ bserial_write_uint (0 + F.length)) ++
    symDefBytes F) ++ valuesBytes F = recordBytes F
  rw [Nat.zero_add]
  unfold recordBytes
  simp [List.append_assoc]

theorem wireIdxOf_mem {wire : List DField} {nm : List Nat}
    (h : nm ∈ wire.map DField.name) : ∃ j, wireIdxOf wire nm = some j := by
  cases hw : wireIdxOf wire nm with
  | some j => exact ⟨j, rfl⟩
  | none =>
    exfalso
    rw [wireIdxOf, List.findIdx?_eq_none_iff] at hw
    obtain ⟨f, hf, hfe⟩ := List.mem_map.mp h
    have := hw f hf
    rw [hfe] at this
    simp at this

theorem wireIdxOf_not_mem {wire : List DField} {nm : List Nat}
    (h : nm ∉ wire.map DField.name) : wireIdxOf wire nm = none := by
  rw [wireIdxOf, List.findIdx?_eq_none_iff]
  intro f hf
  simp only [decide_eq_false_iff_not]
  intro hc
  exact h (hc ▸ List.mem_map_of_mem DField.name hf)

theorem name_inj_getD {wire : List DField} (hW : (wire.map DField.name).Nodup)
    {f : DField} (hf : f ∈ wire) {j : Nat} (hj : j < wire.length)
    (hn : f.name = (wire.getD j dfltField).name) : f = wire.getD j dfltField := by
  obtain ⟨fi, hfi, hfie⟩ := List.mem_iff_getElem.mp hf
  have hfi2 : fi < (wire.map DField.name).length := by simpa using hfi
  have hj2 : j < (wire.map DField.name).length := by simpa using hj
  have hmap : (wire.map DField.name)[fi] = (wire.map DField.name)[j] := by
    rw [List.getElem_map, List.getElem_map]
    rw [hfie, hn]
    rw [List.getD_eq_getElem?_getD, List.getElem?_eq_getElem hj]
    rfl
  have hfij := (List.Nodup.getElem_inj_iff hW).mp hmap
  subst hfij
  rw [← hfie]
  rw [List.getD_eq_getElem?_getD, List.getElem?_eq_getElem (by omega)]
  rfl

theorem updVals_getD {wire : List DField} {a b : Nat} {G : List DField} {i : Nat}
    (hi : i < G.length) :
    (updVals wire a b G).getD i dfltField = updOne wire a b (G.getD i dfltField) := by
  unfold updVals
  rw [List.getD_eq_getElem?_getD, List.getElem?_map, List.getElem?_eq_getElem hi]
  rw [List.getD_eq_getElem?_getD, List.getElem?_eq_getElem hi]
  rfl

/-- C1: writing a record value through a write-mode context produces the
record wire image, and reading that stream back through a fresh read-mode
context with the field-visit order arbitrarily permuted (field identity is
matched by the interned name, never by position) returns `Ok` and delivers,
to every reader field, exactly the value written under that name — the
decoded value equals the written value for all permutations of the visit
order. -/
theorem claim_C1_record_roundtrip (cfg : Config) (addr : Nat) (F G : List DField)
    (haddr0 : addr ≠ 0) (hd : 2 ≤ cfg.max_depth)
    (hmax : cfg.max_num_symbols ≤ 2 ^ 31)
    (hFlen : F.length ≤ cfg.max_record_fields)
    (hF64 : F.length < 2 ^ 64)
    (hsymroom : F.length ≤ cfg.max_num_symbols)
    (hnames : ∀ f ∈ F, f.name.length ≤ cfg.max_symbol_len ∧ f.name.length < 2 ^ 64)
    (hvalid : ∀ f ∈ F, valValid f.val = true)
    (hW : (F.map DField.name).Nodup)
    (hperm : (G.map DField.name).Perm (F.map DField.name))
    (hkind : ∀ g ∈ G, ∀ f ∈ F, f.name = g.name → sameKind g.val f.val = true) :
    (∃ cW, serializeRecord (bserial_make_ctx cfg .write []) addr F = (cW, F) ∧
      cW.status = .ok ∧ cW.output = recordBytes F) ∧
    (∃ cR G2, serializeRecord (bserial_make_ctx cfg .read (recordBytes F)) addr G =
        (cR, G2) ∧ cR.status = .ok ∧
      G2.map DField.name = G.map DField.name ∧
      ∀ g2 ∈ G2, ∀ f ∈ F, f.name = g2.name → g2.val = f.val) := by
  have hGd : (G.map DField.name).Nodup := hperm.nodup_iff.mpr hW
  refine ⟨record_write_master cfg addr F haddr0 (by omega) hmax hsymroom
    (fun f hf => (hnames f hf).1) hW, ?_⟩
  obtain ⟨cR, hrun, hst, hinp⟩ := record_read_master cfg addr F G []
    haddr0 hd hFlen hF64 hsymroom hnames hvalid hW hGd hkind
  rw [List.append_nil] at hrun
  refine ⟨cR, updVals F 0 F.length G, hrun, hst, updVals_names F 0 F.length G, ?_⟩
  intro g2 hg2 f hf hn
  unfold updVals at hg2
  obtain ⟨g, hg, hge⟩ := List.mem_map.mp hg2
  subst hge
  have hmem : g.name ∈ F.map DField.name :=
    hperm.mem_iff.mp (List.mem_map_of_mem DField.name hg)
  obtain ⟨j, hj⟩ := wireIdxOf_mem hmem
  obtain ⟨hjlt, hjn⟩ := wireIdxOf_name hj
  rw [updOne_some _ _ hj, if_pos ⟨by omega, hjlt⟩]
  have hfn : f.name = (F.getD j dfltField).name := by
    rw [hjn]
    rw [hn, updOne_some _ _ hj, if_pos ⟨by omega, hjlt⟩]
  rw [name_inj_getD hW hf hjlt hfn]

/-- C7: reading a well-formed record whose wire fields are `F` with a
reader procedure that also requests names absent from the wire leaves every
such absent-name field exactly at its caller-supplied value (the
destination is never written) and completes with status `Ok`, not
`Malformed`. -/
theorem claim_C7_absent_field (cfg : Config) (addr : Nat) (F G : List DField)
    (rest : List Nat)
    (haddr0 : addr ≠ 0) (hd : 2 ≤ cfg.max_depth)
    (hFlen : F.length ≤ cfg.max_record_fields)
    (hF64 : F.length < 2 ^ 64)
    (hsymroom : F.length ≤ cfg.max_num_symbols)
    (hnames : ∀ f ∈ F, f.name.length ≤ cfg.max_symbol_len ∧ f.name.length < 2 ^ 64)
    (hvalid : ∀ f ∈ F, valValid f.val = true)
    (hW : (F.map DField.name).Nodup)
    (hGd : (G.map DField.name).Nodup)
    (hkind : ∀ g ∈ G, ∀ f ∈ F, f.name = g.name → sameKind g.val f.val = true) :
    ∃ cR G2, serializeRecord (bserial_make_ctx cfg .read (recordBytes F ++ rest)) addr G =
      (cR, G2) ∧ cR.status = .ok ∧ cR.input = rest ∧
      ∀ i, i < G.length → (G.getD i dfltField).name ∉ F.map DField.name →
        G2.getD i dfltField = G.getD i dfltField := by
  obtain ⟨cR, hrun, hst, hinp⟩ := record_read_master cfg addr F G rest
    haddr0 hd hFlen hF64 hsymroom hnames hvalid hW hGd hkind
  refine ⟨cR, updVals F 0 F.length G, hrun, hst, hinp, ?_⟩
  intro i hi habs
  rw [updVals_getD hi]
  exact updOne_none _ _ (wireIdxOf_not_mem habs)

theorem claim_C1_witness :
    (∃ cW, serializeRecord (bserial_make_ctx ⟨8, 8, 8, 4⟩ .write []) 1
        [⟨[97], .vuint 5⟩, ⟨[98], .vsint (-3)⟩] =
        (cW, [⟨[97], .vuint 5⟩, ⟨[98], .vsint (-3)⟩]) ∧
      cW.status = .ok ∧
      cW.output = recordBytes [⟨[97], .vuint 5⟩, ⟨[98], .vsint (-3)⟩]) ∧
    (∃ cR G2, serializeRecord (bserial_make_ctx ⟨8, 8, 8, 4⟩ .read
        (recordBytes [⟨[97], .vuint 5⟩, ⟨[98], .vsint (-3)⟩])) 1
        [⟨[98], .vsint 0⟩, ⟨[97], .vuint 0⟩] = (cR, G2) ∧ cR.status = .ok ∧
      G2.map DField.name =
        [(⟨[98], .vsint 0⟩ : DField), ⟨[97], .vuint 0⟩].map DField.name ∧
      ∀ g2 ∈ G2, ∀ f ∈ [(⟨[97], .vuint 5⟩ : DField), ⟨[98], .vsint (-3)⟩],
        f.name = g2.name → g2.val = f.val) :=
  claim_C1_record_roundtrip ⟨8, 8, 8, 4⟩ 1
    [⟨[97], .vuint 5⟩, ⟨[98], .vsint (-3)⟩] [⟨[98], .vsint 0⟩, ⟨[97], .vuint 0⟩]
    (by decide) (by decide) (by decide) (by decide) (by decide) (by decide)
    (by decide) (by decide) (by decide) (by decide) (by decide)

theorem claim_C7_witness :
    ∃ cR G2, serializeRecord (bserial_make_ctx ⟨8, 8, 8, 4⟩ .read
        (recordBytes [⟨[97], .vuint 5⟩] ++ [])) 1 [⟨[98], .vuint 0⟩] = (cR, G2) ∧
      cR.status = .ok ∧ cR.input = [] ∧
      ∀ i, i < [(⟨[98], .vuint 0⟩ : DField)].length →
        ([(⟨[98], .vuint 0⟩ : DField)].getD i dfltField).name ∉
          [(⟨[97], .vuint 5⟩ : DField)].map DField.name →
        G2.getD i dfltField = [(⟨[98], .vuint 0⟩ : DField)].getD i dfltField :=
  claim_C7_absent_field ⟨8, 8, 8, 4⟩ 1 [⟨[97], .vuint 5⟩] [⟨[98], .vuint 0⟩] []
    (by decide) (by decide) (by decide) (by decide) (by decide) (by decide)
    (by decide) (by decide) (by decide) (by decide)

def tableRowsLoop (addr : Nat) : List (List DField) → Ctx → Ctx × List (List DField)
  | [], c => (c, [])
  | r :: rs, c =>
    let p := serializeRecord c addr r
    let q := tableRowsLoop addr rs p.1
    (q.1, p.2 :: q.2)

/-- Drive a whole table through the context: the row-count header, then each
row through its own record protocol (`while (bserial_record(...))`). -/
def serializeTable (c : Ctx) (addr : Nat) (rows : List (List DField)) :
    Ctx × List (List DField) :=
  match bserial_table c rows.length with
  | (.ok, _, c) => tableRowsLoop addr rows c
  | (_, _, c) => (c, rows)

theorem push_scope_table {c : Ctx} (hok : c.status = .ok)
    (hdepth : c.scopes.length ≠ c.config.max_depth) :
    bserial_push_scope c .table = (.ok, { c with
      scopes :=
        { freshScope .table c.schema_top with record_schema := c.schema_top } :: c.scopes
      schema_top := c.schema_top + c.config.max_record_fields }) := by
  unfold bserial_push_scope
  rw [if_neg (status_ne_false hok), if_neg hdepth]
  rfl

theorem begin_op_table_plain {c : Ctx} (hok : c.status = .ok)
    (hroot : (curScope c).type = .root) :
    bserial_begin_op c .table = bserial_push_scope c .table := by
  unfold bserial_begin_op
  rw [if_neg (status_ne_false hok)]
  simp [hroot]

theorem table_open_write {c : Ctx} {n : Nat}
    (hok : c.status = .ok) (hmode : c.mode = .write)
    (hroot : (curScope c).type = .root)
    (hdepth : c.scopes.length ≠ c.config.max_depth)
    (hn : 0 < n) :
    bserial_table c n = (.ok, n, { c with
      status := .ok
      output := c.output ++ 9 :: bserial_write_uint n
      schema_top := c.schema_top + c.config.max_record_fields
      scopes := ({ freshScope .table c.schema_top with
        record_schema := c.schema_top
        len := n } : Scope) :: c.scopes }) := by
  unfold bserial_table
  rw [begin_op_table_plain hok hroot, push_scope_table hok hdepth]
  show (match bserial_marker_and_length { c with
      scopes :=
        { freshScope .table c.schema_top with record_schema := c.schema_top } :: c.scopes
      schema_top := c.schema_top + c.config.max_record_fields } 9 n with
    | (.ok, len2, c2) =>
      if 0 < len2 then (Status.ok, len2, withCur c2 { curScope c2 with len := len2 })
      else
        match bserial_end_op c2 .table with
        | (s, c2) => (s, len2, c2)
    | (s, len2, c2) => (s, len2, c2)) = _
  have hml : bserial_marker_and_length { c with
      scopes :=
        { freshScope .table c.schema_top with record_schema := c.schema_top } :: c.scopes
      schema_top := c.schema_top + c.config.max_record_fields } 9 n =
      (.ok, n, { c with
        status := .ok
        output := c.output ++ 9 :: bserial_write_uint n
        scopes :=
          { freshScope .table c.schema_top with record_schema := c.schema_top } :: c.scopes
        schema_top := c.schema_top + c.config.max_record_fields }) := by
    unfold bserial_marker_and_length
    rw [if_neg (show ¬({ c with
      scopes :=
        { freshScope .table c.schema_top with record_schema := c.schema_top } :: c.scopes
      schema_top := c.schema_top + c.config.max_record_fields } : Ctx).status ≠ .ok from
      status_ne_false hok)]
    rw [if_neg (show ¬({ c with
      scopes :=
        { freshScope .table c.schema_top with record_schema := c.schema_top } :: c.scopes
      schema_top := c.schema_top + c.config.max_record_fields } : Ctx).mode = .read from by
      show ¬c.mode = .read
      rw [hmode]
      simp)]
  rw [hml]
  simp only []
  rw [if_pos hn]
  show (Status.ok, n, withCur _ { curScope _ with len := n }) = _
  unfold withCur curScope
  simp only [List.headD_cons, List.tail_cons]

theorem record_step_table_first {c : Ctx} {ts : Scope} {tail : List Scope} (addr : Nat)
    (hok : c.status = .ok) (hmode : c.mode = .write)
    (hsc : c.scopes = ts :: tail) (hts : ts.type = .table)
    (hit0 : ts.iterator = 0)
    (hdepth : (ts :: tail).length ≠ c.config.max_depth) :
    bserial_record c addr = (true, { c with
      schema_top := c.schema_top + c.config.max_record_fields
      scopes := ({ freshScope .record c.schema_top with
        record_schema := c.schema_top
        record_addr := addr } : Scope) :: { ts with iterator := 1 } :: tail }) := by
  have hcs : curScope c = ts := by
    rw [curScope, hsc]
    rfl
  have hpush := push_scope_record
    (c := { c with scopes := ({ ts with iterator := ts.iterator + 1 } : Scope) :: tail })
    hok
    (by
      show ¬(({ ts with iterator := ts.iterator + 1 } : Scope) :: tail).length =
        c.config.max_depth
      simp only [List.length_cons] at hdepth ⊢
      exact hdepth)
  unfold bserial_record
  rw [if_neg (status_ne_false hok)]
  rw [if_neg (by rw [hmode]; simp)]
  rw [hcs]
  rw [if_neg (by rw [hts]; simp)]
  unfold bserial_begin_op
  rw [if_neg (status_ne_false hok), hcs]
  rw [if_neg (by rw [hts]; simp)]
  rw [if_neg (by rw [hts]; simp)]
  rw [if_pos (Or.inr hts)]
  show (match bserial_push_scope
      (withCur c { ts with iterator := ts.iterator + 1 }) .record with
    | (.ok, c2) =>
      (match (true, c2) with
      | (true, c2) =>
        let c3 := withCur c2 { curScope c2 with record_addr := addr }
        if (parentScope c3).type ≠ .table ∨ (parentScope c3).iterator = 1 then
          let c4 := withCur c3 { curScope c3 with record_mode := .measureWidth }
          if (parentScope c4).type ≠ .table then
            (true, { c4 with status := .ok, output := c4.output ++ [10] })
          else (true, c4)
        else (true, withCur c3 { curScope c3 with record_mode := .valueIo })
      | (false, c2) => (false, c2))
    | (s, c2) => (false, c2)) = _
  rw [show withCur c { ts with iterator := ts.iterator + 1 } =
    { c with scopes := ({ ts with iterator := ts.iterator + 1 } : Scope) :: tail } from by
    unfold withCur; rw [hsc]; rfl]
  rw [hpush]
  simp only [withCur, curScope, parentScope, freshScope, List.headD_cons, List.tail_cons]
  rw [if_pos (Or.inr (show ({ ts with iterator := ts.iterator + 1 } : Scope).iterator = 1
    from by show ts.iterator + 1 = 1; omega))]
  rw [if_neg (show ¬({ ts with iterator := ts.iterator + 1 } : Scope).type ≠ .table from by
    show ¬ts.type ≠ .table
    rw [hts]
    simp)]
  rw [hit0]

theorem record_step_table_mid {c : Ctx} {ts : Scope} {tail : List Scope} (addr : Nat)
    (hok : c.status = .ok) (hmode : c.mode = .write)
    (hsc : c.scopes = ts :: tail) (hts : ts.type = .table)
    (hit : ts.iterator ≠ 0)
    (hdepth : (ts :: tail).length ≠ c.config.max_depth) :
    bserial_record c addr = (true, { c with
      schema_top := c.schema_top + c.config.max_record_fields
      scopes := ({ freshScope .record c.schema_top with
        record_schema := c.schema_top
        record_addr := addr
        record_mode := .valueIo } : Scope) ::
        { ts with iterator := ts.iterator + 1 } :: tail }) := by
  have hcs : curScope c = ts := by
    rw [curScope, hsc]
    rfl
  have hpush := push_scope_record
    (c := { c with scopes := ({ ts with iterator := ts.iterator + 1 } : Scope) :: tail })
    hok
    (by
      show ¬(({ ts with iterator := ts.iterator + 1 } : Scope) :: tail).length =
        c.config.max_depth
      simp only [List.length_cons] at hdepth ⊢
      exact hdepth)
  unfold bserial_record
  rw [if_neg (status_ne_false hok)]
  rw [if_neg (by rw [hmode]; simp)]
  rw [hcs]
  rw [if_neg (by rw [hts]; simp)]
  unfold bserial_begin_op
  rw [if_neg (status_ne_false hok), hcs]
  rw [if_neg (by rw [hts]; simp)]
  rw [if_neg (by rw [hts]; simp)]
  rw [if_pos (Or.inr hts)]
  rw [show withCur c { ts with iterator := ts.iterator + 1 } =
    { c with scopes := ({ ts with iterator := ts.iterator + 1 } : Scope) :: tail } from by
    unfold withCur; rw [hsc]; rfl]
  simp only []
  rw [if_neg (show ¬OpType.record = OpType.blob by decide)]
  rw [if_neg (show ¬OpType.record = OpType.array by decide)]
  rw [if_neg (show ¬OpType.record = OpType.table by decide)]
  rw [if_pos trivial]
  rw [hpush]
  simp only [withCur, curScope, parentScope, freshScope, List.headD_cons, List.tail_cons]
  rw [if_neg (show ¬(¬({ ts with iterator := ts.iterator + 1 } : Scope).type = .table ∨
      ({ ts with iterator := ts.iterator + 1 } : Scope).iterator = 1) from by
    push_neg
    refine ⟨by show ts.type = .table; exact hts, ?_⟩
    show ¬ts.iterator + 1 = 1
    omega)]

theorem end_op_record_table_mid {c : Ctx} {sc ts : Scope} {tail : List Scope}
    (hok : c.status = .ok) (hsc : c.scopes = sc :: ts :: tail)
    (htype : sc.type = .record) (hts : ts.type = .table)
    (hne : ts.iterator ≠ ts.len) :
    bserial_end_op c .record =
      (.ok, { c with schema_top := sc.prev_schema_pool, scopes := ts :: tail }) := by
  have hcs : curScope c = sc := by
    rw [curScope, hsc]
    rfl
  have hpop : bserial_pop_scope c =
      (.ok, { c with schema_top := sc.prev_schema_pool, scopes := ts :: tail }) := by
    unfold bserial_pop_scope
    rw [if_neg (status_ne_false hok), hcs]
    rw [if_neg (by rw [htype]; simp)]
    rw [hsc]
    rfl
  unfold bserial_end_op
  rw [if_neg (status_ne_false hok)]
  rw [if_pos (Or.inr ⟨by rw [hcs]; exact htype, rfl⟩)]
  rw [hpop]
  show bserial_auto_pop ((ts :: tail).length)
    { c with schema_top := sc.prev_schema_pool, scopes := ts :: tail } = _
  show bserial_auto_pop (tail.length + 1)
    { c with schema_top := sc.prev_schema_pool, scopes := ts :: tail } = _
  unfold bserial_auto_pop
  rw [if_neg (by
    show ¬((ts.type = .array ∨ ts.type = .table) ∧ ts.iterator = ts.len)
    rintro ⟨_, hc⟩
    exact hne hc)]

theorem end_op_record_table_last {c : Ctx} {sc ts : Scope} {tail : List Scope}
    (hok : c.status = .ok) (hsc : c.scopes = sc :: ts :: tail)
    (htype : sc.type = .record) (hts : ts.type = .table)
    (heq : ts.iterator = ts.len)
    (hpt : (tail.headD rootScope).type = .root ∨ (tail.headD rootScope).type = .record) :
    bserial_end_op c .record =
      (.ok, { c with schema_top := ts.prev_schema_pool, scopes := tail }) := by
  have hcs : curScope c = sc := by
    rw [curScope, hsc]
    rfl
  have hpop : bserial_pop_scope c =
      (.ok, { c with schema_top := sc.prev_schema_pool, scopes := ts :: tail }) := by
    unfold bserial_pop_scope
    rw [if_neg (status_ne_false hok), hcs]
    rw [if_neg (by rw [htype]; simp)]
    rw [hsc]
    rfl
  have hpop2 : bserial_pop_scope
      { c with schema_top := sc.prev_schema_pool, scopes := ts :: tail } =
      (.ok, { c with schema_top := ts.prev_schema_pool, scopes := tail }) := by
    unfold bserial_pop_scope
    rw [if_neg (status_ne_false (show ({ c with
      schema_top := sc.prev_schema_pool
      scopes := ts :: tail } : Ctx).status = .ok from hok))]
    rw [if_neg (show ¬(curScope { c with
      schema_top := sc.prev_schema_pool
      scopes := ts :: tail }).type = .root from by
      show ¬ts.type = .root
      rw [hts]
      simp)]
    rfl
  have hplain : plainScope { c with schema_top := ts.prev_schema_pool, scopes := tail } := by
    show (tail.headD rootScope).type = .root ∨ (tail.headD rootScope).type = .record
    exact hpt
  unfold bserial_end_op
  rw [if_neg (status_ne_false hok)]
  rw [if_pos (Or.inr ⟨by rw [hcs]; exact htype, rfl⟩)]
  rw [hpop]
  show bserial_auto_pop (tail.length + 1)
    { c with schema_top := sc.prev_schema_pool, scopes := ts :: tail } = _
  unfold bserial_auto_pop
  rw [if_pos (by
    refine ⟨Or.inr ?_, ?_⟩
    · show ts.type = .table
      exact hts
    · show ts.iterator = ts.len
      exact heq)]
  rw [hpop2]
  show bserial_auto_pop tail.length
    { c with schema_top := ts.prev_schema_pool, scopes := tail } = _
  rw [auto_pop_plain _ hplain]

theorem serializeRecord_row_mid {c : Ctx} {ts : Scope} {tail : List Scope} (addr : Nat)
    (r : List DField)
    (hok : c.status = .ok) (hmode : c.mode = .write)
    (hsc : c.scopes = ts :: tail) (hts : ts.type = .table)
    (hit : ts.iterator ≠ 0)
    (hdepth : (ts :: tail).length ≠ c.config.max_depth) :
    ∃ v, serializeRecord c addr r =
      ((bserial_end_op { c with
          status := .ok
          output := c.output ++ valuesBytes r
          schema_top := c.schema_top + c.config.max_record_fields
          scopes := ({ freshScope .record c.schema_top with
            record_schema := c.schema_top
            record_addr := addr
            record_mode := .valueIo
            iterator := v } : Scope) ::
            { ts with iterator := ts.iterator + 1 } :: tail }
        .record).2, r) := by
  have hstep1 := record_step_table_mid addr hok hmode hsc hts hit hdepth
  obtain ⟨v, hval⟩ := recordBody_valueio_write r
    { c with
      schema_top := c.schema_top + c.config.max_record_fields
      scopes := ({ freshScope .record c.schema_top with
        record_schema := c.schema_top
        record_addr := addr
        record_mode := .valueIo } : Scope) ::
        { ts with iterator := ts.iterator + 1 } :: tail }
    { freshScope .record c.schema_top with
      record_schema := c.schema_top
      record_addr := addr
      record_mode := .valueIo }
    ({ ts with iterator := ts.iterator + 1 } :: tail)
    hok hmode rfl rfl rfl
  have hstep2 := record_step_valueio_write
    (c := { c with
      status := .ok
      output := c.output ++ valuesBytes r
      schema_top := c.schema_top + c.config.max_record_fields
      scopes := ({ freshScope .record c.schema_top with
        record_schema := c.schema_top
        record_addr := addr
        record_mode := .valueIo
        iterator := v } : Scope) ::
        { ts with iterator := ts.iterator + 1 } :: tail })
    addr rfl hmode rfl rfl rfl rfl
  refine ⟨v, ?_⟩
  show (match bserial_record c addr with
    | (false, c2) => (c2, r)
    | (true, c2) =>
      recordLoop (c.input.length + r.length + 7) (recordBody c2 r).1 addr
        (recordBody c2 r).2) = _
  rw [hstep1]
  simp only []
  rw [hval]
  simp only [freshScope]
  show (match bserial_record { c with
      status := .ok
      output := c.output ++ valuesBytes r
      schema_top := c.schema_top + c.config.max_record_fields
      scopes := ({ freshScope .record c.schema_top with
        record_schema := c.schema_top
        record_addr := addr
        record_mode := .valueIo
        iterator := v } : Scope) ::
        { ts with iterator := ts.iterator + 1 } :: tail } addr with
    | (false, c2) => (c2, r)
    | (true, c2) =>
      recordLoop (c.input.length + r.length + 6) (recordBody c2 r).1 addr
        (recordBody c2 r).2) = _
  rw [hstep2]
  rfl

theorem serializeRecord_row_first {c : Ctx} {ts : Scope} {tail : List Scope} (addr : Nat)
    (r : List DField)
    (hok : c.status = .ok) (hmode : c.mode = .write)
    (hsc : c.scopes = ts :: tail) (hts : ts.type = .table)
    (hit0 : ts.iterator = 0)
    (hdepth : (ts :: tail).length ≠ c.config.max_depth)
    (hinv : SymInv c) (hempty : c.symtab = [])
    (hnames : ∀ f ∈ r, f.name.length ≤ c.config.max_symbol_len)
    (hW : (r.map DField.name).Nodup)
    (hroom : r.length ≤ c.config.max_num_symbols) :
    ∃ idx itv2, serializeRecord c addr r =
      ((bserial_end_op { c with
      status := Status.ok
      output := ((c.output ++ bserial_write_uint (0 + r.length)) ++ symDefBytes r) ++ valuesBytes r
      schema_top := c.schema_top + c.config.max_record_fields
      symtab := c.symtab ++ r.map (fun (f : DField) => (⟨f.name, f.name.length⟩ : SymEntry))
      symtab_index := idx
      scopes := ({
        type := ScopeType.record
        iterator := itv2
        len := 0 + r.length
        record_mode := RecordMode.valueIo
        record_schema := c.schema_top
        prev_schema_pool := c.schema_top
        record_addr := addr
        record_width := 0 } : Scope) :: ({ ts with iterator := 1 } : Scope) :: tail } .record).2, r) := by
  have hstep1 := record_step_table_first addr hok hmode hsc hts hit0 hdepth
  have hmeas := recordBody_measure r
    { c with
      schema_top := c.schema_top + c.config.max_record_fields
      scopes := ({
        type := ScopeType.record
        iterator := 0
        len := 0
        record_mode := RecordMode.measureWidth
        record_schema := c.schema_top
        prev_schema_pool := c.schema_top
        record_addr := addr
        record_width := 0 } : Scope) :: ({ ts with iterator := 1 } : Scope) :: tail }
    {
        type := ScopeType.record
        iterator := 0
        len := 0
        record_mode := RecordMode.measureWidth
        record_schema := c.schema_top
        prev_schema_pool := c.schema_top
        record_addr := addr
        record_width := 0 } (({ ts with iterator := 1 } : Scope) :: tail) hok hmode rfl rfl rfl
  have hstep2b := record_step_measure
    (c := { c with
      schema_top := c.schema_top + c.config.max_record_fields
      scopes := ({
        type := ScopeType.record
        iterator := 0
        len := 0 + r.length
        record_mode := RecordMode.measureWidth
        record_schema := c.schema_top
        prev_schema_pool := c.schema_top
        record_addr := addr
        record_width := 0 } : Scope) :: ({ ts with iterator := 1 } : Scope) :: tail })
    addr hok hmode rfl rfl rfl rfl
  have hinv3 : SymInv { c with
      status := Status.ok
      output := c.output ++ bserial_write_uint (0 + r.length)
      schema_top := c.schema_top + c.config.max_record_fields
      scopes := ({
        type := ScopeType.record
        iterator := 0
        len := 0 + r.length
        record_mode := RecordMode.keyIo
        record_schema := c.schema_top
        prev_schema_pool := c.schema_top
        record_addr := addr
        record_width := 0 } : Scope) :: ({ ts with iterator := 1 } : Scope) :: tail } :=
    SymInv_of_eq hinv rfl rfl rfl rfl
  obtain ⟨idx, itv, hkeyw⟩ := recordBody_keyio_write r
    { c with
      status := Status.ok
      output := c.output ++ bserial_write_uint (0 + r.length)
      schema_top := c.schema_top + c.config.max_record_fields
      scopes := ({
        type := ScopeType.record
        iterator := 0
        len := 0 + r.length
        record_mode := RecordMode.keyIo
        record_schema := c.schema_top
        prev_schema_pool := c.schema_top
        record_addr := addr
        record_width := 0 } : Scope) :: ({ ts with iterator := 1 } : Scope) :: tail }
    {
        type := ScopeType.record
        iterator := 0
        len := 0 + r.length
        record_mode := RecordMode.keyIo
        record_schema := c.schema_top
        prev_schema_pool := c.schema_top
        record_addr := addr
        record_width := 0 } (({ ts with iterator := 1 } : Scope) :: tail) rfl hmode rfl rfl rfl hinv3
    (by
      intro f hf
      exact hnames f hf)
    (by
      intro f hf j hj
      rw [show ({ c with
      status := Status.ok
      output := c.output ++ bserial_write_uint (0 + r.length)
      schema_top := c.schema_top + c.config.max_record_fields
      scopes := ({
        type := ScopeType.record
        iterator := 0
        len := 0 + r.length
        record_mode := RecordMode.keyIo
        record_schema := c.schema_top
        prev_schema_pool := c.schema_top
        record_addr := addr
        record_width := 0 } : Scope) :: ({ ts with iterator := 1 } : Scope) :: tail } : Ctx).symtab = c.symtab from rfl, hempty] at hj
      exact absurd hj (by simp))
    hW
    (by
      show c.symtab.length + r.length ≤ c.config.max_num_symbols
      rw [hempty]
      simpa using hroom)
  have hstep3b := record_step_keyio_write
    (c := { c with
      status := Status.ok
      output := (c.output ++ bserial_write_uint (0 + r.length)) ++ symDefBytes r
      schema_top := c.schema_top + c.config.max_record_fields
      symtab := c.symtab ++ r.map (fun (f : DField) => (⟨f.name, f.name.length⟩ : SymEntry))
      symtab_index := idx
      scopes := ({
        type := ScopeType.record
        iterator := itv
        len := 0 + r.length
        record_mode := RecordMode.keyIo
        record_schema := c.schema_top
        prev_schema_pool := c.schema_top
        record_addr := addr
        record_width := 0 } : Scope) :: ({ ts with iterator := 1 } : Scope) :: tail })
    addr rfl hmode rfl rfl rfl rfl
  obtain ⟨itv2, hvalw⟩ := recordBody_valueio_write r
    { c with
      status := Status.ok
      output := (c.output ++ bserial_write_uint (0 + r.length)) ++ symDefBytes r
      schema_top := c.schema_top + c.config.max_record_fields
      symtab := c.symtab ++ r.map (fun (f : DField) => (⟨f.name, f.name.length⟩ : SymEntry))
      symtab_index := idx
      scopes := ({
        type := ScopeType.record
        iterator := 0
        len := 0 + r.length
        record_mode := RecordMode.valueIo
        record_schema := c.schema_top
        prev_schema_pool := c.schema_top
        record_addr := addr
        record_width := 0 } : Scope) :: ({ ts with iterator := 1 } : Scope) :: tail }
    {
        type := ScopeType.record
        iterator := 0
        len := 0 + r.length
        record_mode := RecordMode.valueIo
        record_schema := c.schema_top
        prev_schema_pool := c.schema_top
        record_addr := addr
        record_width := 0 } (({ ts with iterator := 1 } : Scope) :: tail) rfl hmode rfl rfl rfl
  have hstep4b := record_step_valueio_write
    (c := { c with
      status := Status.ok
      output := ((c.output ++ bserial_write_uint (0 + r.length)) ++ symDefBytes r) ++ valuesBytes r
      schema_top := c.schema_top + c.config.max_record_fields
      symtab := c.symtab ++ r.map (fun (f : DField) => (⟨f.name, f.name.length⟩ : SymEntry))
      symtab_index := idx
      scopes := ({
        type := ScopeType.record
        iterator := itv2
        len := 0 + r.length
        record_mode := RecordMode.valueIo
        record_schema := c.schema_top
        prev_schema_pool := c.schema_top
        record_addr := addr
        record_width := 0 } : Scope) :: ({ ts with iterator := 1 } : Scope) :: tail })
    addr rfl hmode rfl rfl rfl rfl
  refine ⟨idx, itv2, ?_⟩
  show (match bserial_record c addr with
    | (false, c2) => (c2, r)
    | (true, c2) =>
      recordLoop (c.input.length + r.length + 7) (recordBody c2 r).1 addr
        (recordBody c2 r).2) = _
  rw [hstep1]
  simp only [freshScope]
  rw [hmeas]
  simp only []
  show (match bserial_record { c with
      schema_top := c.schema_top + c.config.max_record_fields
      scopes := ({
        type := ScopeType.record
        iterator := 0
        len := 0 + r.length
        record_mode := RecordMode.measureWidth
        record_schema := c.schema_top
        prev_schema_pool := c.schema_top
        record_addr := addr
        record_width := 0 } : Scope) :: ({ ts with iterator := 1 } : Scope) :: tail } addr with
    | (false, c2) => (c2, r)
    | (true, c2) =>
      recordLoop (c.input.length + r.length + 6) (recordBody c2 r).1 addr
        (recordBody c2 r).2) = _
  rw [hstep2b]
  simp only []
  rw [hkeyw]
  simp only []
  show (match bserial_record { c with
      status := Status.ok
      output := (c.output ++ bserial_write_uint (0 + r.length)) ++ symDefBytes r
      schema_top := c.schema_top + c.config.max_record_fields
      symtab := c.symtab ++ r.map (fun (f : DField) => (⟨f.name, f.name.length⟩ : SymEntry))
      symtab_index := idx
      scopes := ({
        type := ScopeType.record
        iterator := itv
        len := 0 + r.length
        record_mode := RecordMode.keyIo
        record_schema := c.schema_top
        prev_schema_pool := c.schema_top
        record_addr := addr
        record_width := 0 } : Scope) :: ({ ts with iterator := 1 } : Scope) :: tail } addr with
    | (false, c2) => (c2, r)
    | (true, c2) =>
      recordLoop (c.input.length + r.length + 5) (recordBody c2 r).1 addr
        (recordBody c2 r).2) = _
  rw [hstep3b]
  simp only []
  rw [hvalw]
  simp only []
  show (match bserial_record { c with
      status := Status.ok
      output := ((c.output ++ bserial_write_uint (0 + r.length)) ++ symDefBytes r) ++ valuesBytes r
      schema_top := c.schema_top + c.config.max_record_fields
      symtab := c.symtab ++ r.map (fun (f : DField) => (⟨f.name, f.name.length⟩ : SymEntry))
      symtab_index := idx
      scopes := ({
        type := ScopeType.record
        iterator := itv2
        len := 0 + r.length
        record_mode := RecordMode.valueIo
        record_schema := c.schema_top
        prev_schema_pool := c.schema_top
        record_addr := addr
        record_width := 0 } : Scope) :: ({ ts with iterator := 1 } : Scope) :: tail } addr with
    | (false, c2) => (c2, r)
    | (true, c2) =>
      recordLoop (c.input.length + r.length + 4) (recordBody c2 r).1 addr
        (recordBody c2 r).2) = _
  rw [hstep4b]

theorem tableRowsLoop_write_rows (addr : Nat) :
    ∀ (rs : List (List DField)) (c : Ctx) (ts : Scope) (tail : List Scope),
    rs ≠ [] →
    c.status = .ok → c.mode = .write →
    c.scopes = ts :: tail → ts.type = .table →
    ts.iterator ≠ 0 → ts.iterator + rs.length = ts.len →
    (ts :: tail).length ≠ c.config.max_depth →
    ((tail.headD rootScope).type = .root ∨ (tail.headD rootScope).type = .record) →
    tableRowsLoop addr rs c =
      ({ c with
        status := Status.ok
        output := c.output ++ rs.flatMap valuesBytes
        schema_top := ts.prev_schema_pool
        scopes := tail }, rs)
  | [], _, _, _, hne, _, _, _, _, _, _, _, _ => absurd rfl hne
  | [r], c, ts, tail, _, hok, hmode, hsc, hts, hit, hlen, hdepth, hpt => by
    obtain ⟨v, hrow⟩ := serializeRecord_row_mid addr r hok hmode hsc hts hit hdepth
    have hend := end_op_record_table_last
      (c := { c with
        status := .ok
        output := c.output ++ valuesBytes r
        schema_top := c.schema_top + c.config.max_record_fields
        scopes := ({ freshScope .record c.schema_top with
        record_schema := c.schema_top
        record_addr := addr
        record_mode := .valueIo
        iterator := v } : Scope) ::
          ({ ts with iterator := ts.iterator + 1 } : Scope) :: tail })
      rfl rfl rfl hts (show ts.iterator + 1 = ts.len from hlen) hpt
    show ((serializeRecord c addr r).1, (serializeRecord c addr r).2 :: []) = _
    rw [hrow]
    simp only []
    rw [hend]
    simp only [List.flatMap_cons, List.flatMap_nil, List.append_nil]
  | r :: r2 :: rs2, c, ts, tail, _, hok, hmode, hsc, hts, hit, hlen, hdepth, hpt => by
    obtain ⟨v, hrow⟩ := serializeRecord_row_mid addr r hok hmode hsc hts hit hdepth
    have hend := end_op_record_table_mid
      (c := { c with
        status := .ok
        output := c.output ++ valuesBytes r
        schema_top := c.schema_top + c.config.max_record_fields
        scopes := ({ freshScope .record c.schema_top with
        record_schema := c.schema_top
        record_addr := addr
        record_mode := .valueIo
        iterator := v } : Scope) ::
          ({ ts with iterator := ts.iterator + 1 } : Scope) :: tail })
      rfl rfl rfl hts
      (show ts.iterator + 1 ≠ ts.len from by
        simp only [List.length_cons] at hlen
        omega)
    have hih := tableRowsLoop_write_rows addr (r2 :: rs2)
      { c with
        status := Status.ok
        output := c.output ++ valuesBytes r
        schema_top := c.schema_top
        scopes := ({ ts with iterator := ts.iterator + 1 } : Scope) :: tail }
      ({ ts with iterator := ts.iterator + 1 } : Scope) tail
      (by simp) rfl hmode rfl hts
      (by
        show ts.iterator + 1 ≠ 0
        omega)
      (by
        show ts.iterator + 1 + (r2 :: rs2).length = ts.len
        simp only [List.length_cons] at hlen ⊢
        omega)
      hdepth hpt
    show ((tableRowsLoop addr (r2 :: rs2) (serializeRecord c addr r).1).1,
      (serializeRecord c addr r).2 ::
        (tableRowsLoop addr (r2 :: rs2) (serializeRecord c addr r).1).2) = _
    rw [hrow]
    simp only []
    rw [hend]
    simp only []
    show ((tableRowsLoop addr (r2 :: rs2)
        { c with
          status := Status.ok
          output := c.output ++ valuesBytes r
          schema_top := c.schema_top
          scopes := ({ ts with iterator := ts.iterator + 1 } : Scope) :: tail }).1,
      r ::
        (tableRowsLoop addr (r2 :: rs2)
          { c with
            status := Status.ok
            output := c.output ++ valuesBytes r
            schema_top := c.schema_top
            scopes := ({ ts with iterator := ts.iterator + 1 } : Scope) :: tail }).2) = _
    rw [hih]
    simp only [List.flatMap_cons, List.append_assoc]

/-- C9: table schema amortization on the write side.  For a table of
`N = (r0 :: rs).length > 0` rows written with the same per-row field-visit
procedure, the stream consists of the Table marker, one row count, exactly one
column-count header and one block of column-name symbol definitions (emitted
with the first row), followed by the field values of every row in order: no
per-row Record marker and no further name bytes appear for rows after the
first. -/
theorem claim_C9_table_amortization (cfg : Config) (addr : Nat) (r0 : List DField)
    (rs : List (List DField))
    (hd : 3 ≤ cfg.max_depth)
    (hmax : cfg.max_num_symbols ≤ 2 ^ 31)
    (hnames : ∀ f ∈ r0, f.name.length ≤ cfg.max_symbol_len)
    (hW : (r0.map DField.name).Nodup)
    (hroom : r0.length ≤ cfg.max_num_symbols)
    (hsame : ∀ r ∈ rs, r.map DField.name = r0.map DField.name) :
    ∃ cT, serializeTable (bserial_make_ctx cfg .write []) addr (r0 :: rs) =
        (cT, r0 :: rs) ∧
      cT.status = .ok ∧
      cT.output =
        9 :: (bserial_write_uint (r0 :: rs).length ++
          (bserial_write_uint r0.length ++
            (symDefBytes r0 ++ (r0 :: rs).flatMap valuesBytes))) := by
  have hopen := table_open_write (c := bserial_make_ctx cfg .write [])
    (n := (r0 :: rs).length) rfl rfl rfl
    (by
      show (1 : Nat) ≠ cfg.max_depth
      omega)
    (by simp)
  have hinv1 : SymInv {
        config := cfg
        status := Status.ok
        mode := Mode.write
        input := ([] : List Nat)
        output := 9 :: bserial_write_uint (r0 :: rs).length
        marker_buf := 255
        symtab := ([] : List SymEntry)
        symtab_index := List.replicate (2 ^ symtabExp cfg) 0
        symtab_exp := symtabExp cfg
        scopes := ({
            type := ScopeType.table
            iterator := 0
            len := (r0 :: rs).length
            record_mode := RecordMode.measureWidth
            record_schema := 0
            prev_schema_pool := 0
            record_addr := 0
            record_width := 0 } : Scope) :: [rootScope]
        schema_pool := List.replicate (cfg.max_depth * cfg.max_record_fields) defaultMapping
        schema_top := 0 + cfg.max_record_fields } :=
    SymInv_of_eq (SymInv_fresh cfg .write [] hmax) rfl rfl rfl rfl
  obtain ⟨idx, itv2, hrow1⟩ := serializeRecord_row_first
    (c := {
        config := cfg
        status := Status.ok
        mode := Mode.write
        input := ([] : List Nat)
        output := 9 :: bserial_write_uint (r0 :: rs).length
        marker_buf := 255
        symtab := ([] : List SymEntry)
        symtab_index := List.replicate (2 ^ symtabExp cfg) 0
        symtab_exp := symtabExp cfg
        scopes := ({
            type := ScopeType.table
            iterator := 0
            len := (r0 :: rs).length
            record_mode := RecordMode.measureWidth
            record_schema := 0
            prev_schema_pool := 0
            record_addr := 0
            record_width := 0 } : Scope) :: [rootScope]
        schema_pool := List.replicate (cfg.max_depth * cfg.max_record_fields) defaultMapping
        schema_top := 0 + cfg.max_record_fields })
    addr r0 rfl rfl rfl rfl rfl
    (by
      show (2 : Nat) ≠ cfg.max_depth
      omega)
    hinv1 rfl hnames hW hroom
  cases rs with
  | nil =>
    have hendl := end_op_record_table_last
      (c := {
        config := cfg
        status := Status.ok
        mode := Mode.write
        input := ([] : List Nat)
        output := (((9 :: bserial_write_uint (r0 :: []).length) ++
        bserial_write_uint (0 + r0.length)) ++ symDefBytes r0) ++ valuesBytes r0
        marker_buf := 255
        symtab := r0.map (fun (f : DField) => (⟨f.name, f.name.length⟩ : SymEntry))
        symtab_index := idx
        symtab_exp := symtabExp cfg
        scopes := ({
            type := ScopeType.record
            iterator := itv2
            len := 0 + r0.length
            record_mode := RecordMode.valueIo
            record_schema := 0 + cfg.max_record_fields
            prev_schema_pool := 0 + cfg.max_record_fields
            record_addr := addr
            record_width := 0 } : Scope) :: ({
            type := ScopeType.table
            iterator := 1
            len := (r0 :: []).length
            record_mode := RecordMode.measureWidth
            record_schema := 0
            prev_schema_pool := 0
            record_addr := 0
            record_width := 0 } : Scope) :: [rootScope]
        schema_pool := List.replicate (cfg.max_depth * cfg.max_record_fields) defaultMapping
        schema_top := 0 + cfg.max_record_fields + cfg.max_record_fields })
      rfl rfl rfl rfl rfl (Or.inl rfl)
    refine ⟨{
      config := cfg
      status := Status.ok
      mode := Mode.write
      input := ([] : List Nat)
      output := (((9 :: bserial_write_uint (r0 :: []).length) ++
        bserial_write_uint (0 + r0.length)) ++ symDefBytes r0) ++ valuesBytes r0
      marker_buf := 255
      symtab := r0.map (fun (f : DField) => (⟨f.name, f.name.length⟩ : SymEntry))
      symtab_index := idx
      symtab_exp := symtabExp cfg
      scopes := [rootScope]
      schema_pool := List.replicate (cfg.max_depth * cfg.max_record_fields) defaultMapping
      schema_top := 0 }, ?_, rfl, ?_⟩
    · unfold serializeTable
      rw [hopen]
      show ((tableRowsLoop addr []
          (serializeRecord {
            config := cfg
            status := Status.ok
            mode := Mode.write
            input := ([] : List Nat)
            output := 9 :: bserial_write_uint (r0 :: []).length
            marker_buf := 255
            symtab := ([] : List SymEntry)
            symtab_index := List.replicate (2 ^ symtabExp cfg) 0
            symtab_exp := symtabExp cfg
            scopes := ({
                type := ScopeType.table
                iterator := 0
                len := (r0 :: []).length
                record_mode := RecordMode.measureWidth
                record_schema := 0
                prev_schema_pool := 0
                record_addr := 0
                record_width := 0 } : Scope) :: [rootScope]
            schema_pool := List.replicate (cfg.max_depth * cfg.max_record_fields) defaultMapping
            schema_top := 0 + cfg.max_record_fields } addr r0).1).1,
        (serializeRecord {
            config := cfg
            status := Status.ok
            mode := Mode.write
            input := ([] : List Nat)
            output := 9 :: bserial_write_uint (r0 :: []).length
            marker_buf := 255
            symtab := ([] : List SymEntry)
            symtab_index := List.replicate (2 ^ symtabExp cfg) 0
            symtab_exp := symtabExp cfg
            scopes := ({
                type := ScopeType.table
                iterator := 0
                len := (r0 :: []).length
                record_mode := RecordMode.measureWidth
                record_schema := 0
                prev_schema_pool := 0
                record_addr := 0
                record_width := 0 } : Scope) :: [rootScope]
            schema_pool := List.replicate (cfg.max_depth * cfg.max_record_fields) defaultMapping
            schema_top := 0 + cfg.max_record_fields } addr r0).2 ::
          (tableRowsLoop addr []
            (serializeRecord {
            config := cfg
            status := Status.ok
            mode := Mode.write
            input := ([] : List Nat)
            output := 9 :: bserial_write_uint (r0 :: []).length
            marker_buf := 255
            symtab := ([] : List SymEntry)
            symtab_index := List.replicate (2 ^ symtabExp cfg) 0
            symtab_exp := symtabExp cfg
            scopes := ({
                type := ScopeType.table
                iterator := 0
                len := (r0 :: []).length
                record_mode := RecordMode.measureWidth
                record_schema := 0
                prev_schema_pool := 0
                record_addr := 0
                record_width := 0 } : Scope) :: [rootScope]
            schema_pool := List.replicate (cfg.max_depth * cfg.max_record_fields) defaultMapping
            schema_top := 0 + cfg.max_record_fields } addr r0).1).2) = _
      rw [hrow1]
      simp only []
      show ((tableRowsLoop addr []
          (bserial_end_op {
        config := cfg
        status := Status.ok
        mode := Mode.write
        input := ([] : List Nat)
        output := (((9 :: bserial_write_uint (r0 :: []).length) ++
        bserial_write_uint (0 + r0.length)) ++ symDefBytes r0) ++ valuesBytes r0
        marker_buf := 255
        symtab := r0.map (fun (f : DField) => (⟨f.name, f.name.length⟩ : SymEntry))
        symtab_index := idx
        symtab_exp := symtabExp cfg
        scopes := ({
            type := ScopeType.record
            iterator := itv2
            len := 0 + r0.length
            record_mode := RecordMode.valueIo
            record_schema := 0 + cfg.max_record_fields
            prev_schema_pool := 0 + cfg.max_record_fields
            record_addr := addr
            record_width := 0 } : Scope) :: ({
            type := ScopeType.table
            iterator := 1
            len := (r0 :: []).length
            record_mode := RecordMode.measureWidth
            record_schema := 0
            prev_schema_pool := 0
            record_addr := 0
            record_width := 0 } : Scope) :: [rootScope]
        schema_pool := List.replicate (cfg.max_depth * cfg.max_record_fields) defaultMapping
        schema_top := 0 + cfg.max_record_fields + cfg.max_record_fields } OpType.record).2).1,
        r0 :: (tableRowsLoop addr []
          (bserial_end_op {
        config := cfg
        status := Status.ok
        mode := Mode.write
        input := ([] : List Nat)
        output := (((9 :: bserial_write_uint (r0 :: []).length) ++
        bserial_write_uint (0 + r0.length)) ++ symDefBytes r0) ++ valuesBytes r0
        marker_buf := 255
        symtab := r0.map (fun (f : DField) => (⟨f.name, f.name.length⟩ : SymEntry))
        symtab_index := idx
        symtab_exp := symtabExp cfg
        scopes := ({
            type := ScopeType.record
            iterator := itv2
            len := 0 + r0.length
            record_mode := RecordMode.valueIo
            record_schema := 0 + cfg.max_record_fields
            prev_schema_pool := 0 + cfg.max_record_fields
            record_addr := addr
            record_width := 0 } : Scope) :: ({
            type := ScopeType.table
            iterator := 1
            len := (r0 :: []).length
            record_mode := RecordMode.measureWidth
            record_schema := 0
            prev_schema_pool := 0
            record_addr := 0
            record_width := 0 } : Scope) :: [rootScope]
        schema_pool := List.replicate (cfg.max_depth * cfg.max_record_fields) defaultMapping
        schema_top := 0 + cfg.max_record_fields + cfg.max_record_fields } OpType.record).2).2) = _
      rw [hendl]
      rfl
    · simp only [List.cons_append, List.append_assoc, Nat.zero_add,
        List.flatMap_cons, List.flatMap_nil, List.append_nil]
  | cons r1 rs2 =>
    have hendm := end_op_record_table_mid
      (c := {
        config := cfg
        status := Status.ok
        mode := Mode.write
        input := ([] : List Nat)
        output := (((9 :: bserial_write_uint (r0 :: r1 :: rs2).length) ++
        bserial_write_uint (0 + r0.length)) ++ symDefBytes r0) ++ valuesBytes r0
        marker_buf := 255
        symtab := r0.map (fun (f : DField) => (⟨f.name, f.name.length⟩ : SymEntry))
        symtab_index := idx
        symtab_exp := symtabExp cfg
        scopes := ({
            type := ScopeType.record
            iterator := itv2
            len := 0 + r0.length
            record_mode := RecordMode.valueIo
            record_schema := 0 + cfg.max_record_fields
            prev_schema_pool := 0 + cfg.max_record_fields
            record_addr := addr
            record_width := 0 } : Scope) :: ({
            type := ScopeType.table
            iterator := 1
            len := (r0 :: r1 :: rs2).length
            record_mode := RecordMode.measureWidth
            record_schema := 0
            prev_schema_pool := 0
            record_addr := 0
            record_width := 0 } : Scope) :: [rootScope]
        schema_pool := List.replicate (cfg.max_depth * cfg.max_record_fields) defaultMapping
        schema_top := 0 + cfg.max_record_fields + cfg.max_record_fields })
      rfl rfl rfl rfl
      (by
        show (1 : Nat) ≠ (r0 :: r1 :: rs2).length
        simp only [List.length_cons]
        omega)
    have hloop := tableRowsLoop_write_rows addr (r1 :: rs2)
      {
        config := cfg
        status := Status.ok
        mode := Mode.write
        input := ([] : List Nat)
        output := (((9 :: bserial_write_uint (r0 :: r1 :: rs2).length) ++
        bserial_write_uint (0 + r0.length)) ++ symDefBytes r0) ++ valuesBytes r0
        marker_buf := 255
        symtab := r0.map (fun (f : DField) => (⟨f.name, f.name.length⟩ : SymEntry))
        symtab_index := idx
        symtab_exp := symtabExp cfg
        scopes := ({
            type := ScopeType.table
            iterator := 1
            len := (r0 :: r1 :: rs2).length
            record_mode := RecordMode.measureWidth
            record_schema := 0
            prev_schema_pool := 0
            record_addr := 0
            record_width := 0 } : Scope) :: [rootScope]
        schema_pool := List.replicate (cfg.max_depth * cfg.max_record_fields) defaultMapping
        schema_top := 0 + cfg.max_record_fields }
      {
        type := ScopeType.table
        iterator := 1
        len := (r0 :: r1 :: rs2).length
        record_mode := RecordMode.measureWidth
        record_schema := 0
        prev_schema_pool := 0
        record_addr := 0
        record_width := 0 } [rootScope]
      (by simp) rfl rfl rfl rfl
      (by
        show (1 : Nat) ≠ 0
        omega)
      (by
        show 1 + (r1 :: rs2).length = (r0 :: r1 :: rs2).length
        simp only [List.length_cons]
        omega)
      (by
        show (2 : Nat) ≠ cfg.max_depth
        omega)
      (Or.inl rfl)
    refine ⟨{
      config := cfg
      status := Status.ok
      mode := Mode.write
      input := ([] : List Nat)
      output := ((((9 :: bserial_write_uint (r0 :: r1 :: rs2).length) ++
        bserial_write_uint (0 + r0.length)) ++ symDefBytes r0) ++ valuesBytes r0) ++
        (r1 :: rs2).flatMap valuesBytes
      marker_buf := 255
      symtab := r0.map (fun (f : DField) => (⟨f.name, f.name.length⟩ : SymEntry))
      symtab_index := idx
      symtab_exp := symtabExp cfg
      scopes := [rootScope]
      schema_pool := List.replicate (cfg.max_depth * cfg.max_record_fields) defaultMapping
      schema_top := 0 }, ?_, rfl, ?_⟩
    · unfold serializeTable
      rw [hopen]
      show ((tableRowsLoop addr (r1 :: rs2)
          (serializeRecord {
            config := cfg
            status := Status.ok
            mode := Mode.write
            input := ([] : List Nat)
            output := 9 :: bserial_write_uint (r0 :: r1 :: rs2).length
            marker_buf := 255
            symtab := ([] : List SymEntry)
            symtab_index := List.replicate (2 ^ symtabExp cfg) 0
            symtab_exp := symtabExp cfg
            scopes := ({
                type := ScopeType.table
                iterator := 0
                len := (r0 :: r1 :: rs2).length
                record_mode := RecordMode.measureWidth
                record_schema := 0
                prev_schema_pool := 0
                record_addr := 0
                record_width := 0 } : Scope) :: [rootScope]
            schema_pool := List.replicate (cfg.max_depth * cfg.max_record_fields) defaultMapping
            schema_top := 0 + cfg.max_record_fields } addr r0).1).1,
        (serializeRecord {
            config := cfg
            status := Status.ok
            mode := Mode.write
            input := ([] : List Nat)
            output := 9 :: bserial_write_uint (r0 :: r1 :: rs2).length
            marker_buf := 255
            symtab := ([] : List SymEntry)
            symtab_index := List.replicate (2 ^ symtabExp cfg) 0
            symtab_exp := symtabExp cfg
            scopes := ({
                type := ScopeType.table
                iterator := 0
                len := (r0 :: r1 :: rs2).length
                record_mode := RecordMode.measureWidth
                record_schema := 0
                prev_schema_pool := 0
                record_addr := 0
                record_width := 0 } : Scope) :: [rootScope]
            schema_pool := List.replicate (cfg.max_depth * cfg.max_record_fields) defaultMapping
            schema_top := 0 + cfg.max_record_fields } addr r0).2 ::
          (tableRowsLoop addr (r1 :: rs2)
            (serializeRecord {
            config := cfg
            status := Status.ok
            mode := Mode.write
            input := ([] : List Nat)
            output := 9 :: bserial_write_uint (r0 :: r1 :: rs2).length
            marker_buf := 255
            symtab := ([] : List SymEntry)
            symtab_index := List.replicate (2 ^ symtabExp cfg) 0
            symtab_exp := symtabExp cfg
            scopes := ({
                type := ScopeType.table
                iterator := 0
                len := (r0 :: r1 :: rs2).length
                record_mode := RecordMode.measureWidth
                record_schema := 0
                prev_schema_pool := 0
                record_addr := 0
                record_width := 0 } : Scope) :: [rootScope]
            schema_pool := List.replicate (cfg.max_depth * cfg.max_record_fields) defaultMapping
            schema_top := 0 + cfg.max_record_fields } addr r0).1).2) = _
      rw [hrow1]
      simp only []
      show ((tableRowsLoop addr (r1 :: rs2)
          (bserial_end_op {
        config := cfg
        status := Status.ok
        mode := Mode.write
        input := ([] : List Nat)
        output := (((9 :: bserial_write_uint (r0 :: r1 :: rs2).length) ++
        bserial_write_uint (0 + r0.length)) ++ symDefBytes r0) ++ valuesBytes r0
        marker_buf := 255
        symtab := r0.map (fun (f : DField) => (⟨f.name, f.name.length⟩ : SymEntry))
        symtab_index := idx
        symtab_exp := symtabExp cfg
        scopes := ({
            type := ScopeType.record
            iterator := itv2
            len := 0 + r0.length
            record_mode := RecordMode.valueIo
            record_schema := 0 + cfg.max_record_fields
            prev_schema_pool := 0 + cfg.max_record_fields
            record_addr := addr
            record_width := 0 } : Scope) :: ({
            type := ScopeType.table
            iterator := 1
            len := (r0 :: r1 :: rs2).length
            record_mode := RecordMode.measureWidth
            record_schema := 0
            prev_schema_pool := 0
            record_addr := 0
            record_width := 0 } : Scope) :: [rootScope]
        schema_pool := List.replicate (cfg.max_depth * cfg.max_record_fields) defaultMapping
        schema_top := 0 + cfg.max_record_fields + cfg.max_record_fields } OpType.record).2).1,
        r0 :: (tableRowsLoop addr (r1 :: rs2)
          (bserial_end_op {
        config := cfg
        status := Status.ok
        mode := Mode.write
        input := ([] : List Nat)
        output := (((9 :: bserial_write_uint (r0 :: r1 :: rs2).length) ++
        bserial_write_uint (0 + r0.length)) ++ symDefBytes r0) ++ valuesBytes r0
        marker_buf := 255
        symtab := r0.map (fun (f : DField) => (⟨f.name, f.name.length⟩ : SymEntry))
        symtab_index := idx
        symtab_exp := symtabExp cfg
        scopes := ({
            type := ScopeType.record
            iterator := itv2
            len := 0 + r0.length
            record_mode := RecordMode.valueIo
            record_schema := 0 + cfg.max_record_fields
            prev_schema_pool := 0 + cfg.max_record_fields
            record_addr := addr
            record_width := 0 } : Scope) :: ({
            type := ScopeType.table
            iterator := 1
            len := (r0 :: r1 :: rs2).length
            record_mode := RecordMode.measureWidth
            record_schema := 0
            prev_schema_pool := 0
            record_addr := 0
            record_width := 0 } : Scope) :: [rootScope]
        schema_pool := List.replicate (cfg.max_depth * cfg.max_record_fields) defaultMapping
        schema_top := 0 + cfg.max_record_fields + cfg.max_record_fields } OpType.record).2).2) = _
      rw [hendm]
      simp only []
      show ((tableRowsLoop addr (r1 :: rs2) {
        config := cfg
        status := Status.ok
        mode := Mode.write
        input := ([] : List Nat)
        output := (((9 :: bserial_write_uint (r0 :: r1 :: rs2).length) ++
        bserial_write_uint (0 + r0.length)) ++ symDefBytes r0) ++ valuesBytes r0
        marker_buf := 255
        symtab := r0.map (fun (f : DField) => (⟨f.name, f.name.length⟩ : SymEntry))
        symtab_index := idx
        symtab_exp := symtabExp cfg
        scopes := ({
            type := ScopeType.table
            iterator := 1
            len := (r0 :: r1 :: rs2).length
            record_mode := RecordMode.measureWidth
            record_schema := 0
            prev_schema_pool := 0
            record_addr := 0
            record_width := 0 } : Scope) :: [rootScope]
        schema_pool := List.replicate (cfg.max_depth * cfg.max_record_fields) defaultMapping
        schema_top := 0 + cfg.max_record_fields }).1,
        r0 :: (tableRowsLoop addr (r1 :: rs2) {
        config := cfg
        status := Status.ok
        mode := Mode.write
        input := ([] : List Nat)
        output := (((9 :: bserial_write_uint (r0 :: r1 :: rs2).length) ++
        bserial_write_uint (0 + r0.length)) ++ symDefBytes r0) ++ valuesBytes r0
        marker_buf := 255
        symtab := r0.map (fun (f : DField) => (⟨f.name, f.name.length⟩ : SymEntry))
        symtab_index := idx
        symtab_exp := symtabExp cfg
        scopes := ({
            type := ScopeType.table
            iterator := 1
            len := (r0 :: r1 :: rs2).length
            record_mode := RecordMode.measureWidth
            record_schema := 0
            prev_schema_pool := 0
            record_addr := 0
            record_width := 0 } : Scope) :: [rootScope]
        schema_pool := List.replicate (cfg.max_depth * cfg.max_record_fields) defaultMapping
        schema_top := 0 + cfg.max_record_fields }).2) = _
      rw [hloop]
    · simp only [List.cons_append, List.append_assoc, Nat.zero_add,
        List.flatMap_cons, List.flatMap_nil, List.append_nil]

theorem claim_C9_witness :
    ∃ cT, serializeTable (bserial_make_ctx ⟨8, 8, 8, 4⟩ .write []) 1
        ([⟨[97], .vuint 5⟩] :: [[⟨[97], .vuint 7⟩]]) =
        (cT, [⟨[97], .vuint 5⟩] :: [[⟨[97], .vuint 7⟩]]) ∧
      cT.status = .ok ∧
      cT.output =
        9 :: (bserial_write_uint
            ([(⟨[97], .vuint 5⟩ : DField)] :: [[⟨[97], .vuint 7⟩]]).length ++
          (bserial_write_uint [(⟨[97], .vuint 5⟩ : DField)].length ++
            (symDefBytes [⟨[97], .vuint 5⟩] ++
              ([(⟨[97], .vuint 5⟩ : DField)] ::
                [[⟨[97], .vuint 7⟩]]).flatMap valuesBytes))) :=
  claim_C9_table_amortization ⟨8, 8, 8, 4⟩ 1 [⟨[97], .vuint 5⟩] [[⟨[97], .vuint 7⟩]]
    (by decide) (by decide) (by decide) (by decide) (by decide) (by decide)

end BSerial
